import Mathlib

/-!
The tensor layer of lstm_c (`src/tensor.c`) and its kernels (`include/mat_ops.h`)

A shallow embedding of the tensor/view/ownership mechanism and of the dense
kernels it dispatches to.

* C `int` values are `Int`; the result of every `int` multiplication and
  addition is reduced to the 32-bit two's complement range by `wrap32`.
* C `double` values are elements of an arbitrary type `α` carrying `0`, `+`
  and `*` (exact arithmetic); the concrete examples use `Int`.
* The C heap is explicit: `Heap.datas` holds the reference counted buffers
  (`Data *` is an index into it), `Heap.tensors` holds the `struct tensor`
  cells (`tensor *` is `Option Nat`, `none` being `NULL`).  `malloc` always
  returns a fresh address (the lists only grow) and a released cell stays
  marked as released.
* Every function returns `Except (Fault × Heap α) _`. A call that does not
  return yields the reason and the heap as it was when the call stopped:
  `Fault.fatal` is the `PANIC` / `TENSOR_CHECK` path, `Fault.assertion` a
  failed `assert`, `Fault.undef` an access the C standard leaves undefined
  (null or dangling pointer, index outside an array or buffer).
-/

namespace LstmC

/-! ## Outcomes and machine integers -/

/-- Ways in which a call can fail to return. -/
inductive Fault where
  /-- `PANIC`, `TENSOR_CHECK` or `TENSOR_EXIST` fired. -/
  | fatal
  /-- An `assert(...)` failed. -/
  | assertion
  /-- Null/dangling dereference or out-of-range access. -/
  | undef
  deriving DecidableEq, Repr

/-- Reduction of an exact integer to the range of a 32-bit C `int`. -/
def wrap32 (x : Int) : Int := (x + 2147483648) % 4294967296 - 2147483648

/-- Conversion of an `int` to `unsigned int`, as a loop bound. -/
def toUnsigned (x : Int) : Nat := (x % 4294967296).toNat

/-- Model of `for (i = 0; i < n; i++) body`: the body runs for `i = 0, …, n-1`
in order, and the first failing iteration aborts the loop. -/
def forLoop {ε σ : Type} (n : Nat) (body : Nat → σ → Except ε σ) (s : σ) : Except ε σ :=
  (List.range n).foldlM (fun st i => body i st) s

/-! ## Data model -/

/-- Modelled from the spec: the shared buffer (`Data`, declared in a header that
is not part of the sources).  A fixed-length block of values with a reference
count; `freed` records that its storage has been released. -/
structure Data (α : Type) where
  elems : List α
  refcount : Int
  freed : Bool
  deriving DecidableEq, Repr

/-- The `struct tensor` of `tensor.c`. -/
structure Tensor where
  data : Option Nat
  shape : List Int
  ndims : Int
  length : Int
  offset : Int
  strides : List Int
  deriving DecidableEq, Repr

/-- The C heap: buffers and tensor cells, addressed by position. A tensor cell
that has been released is `none`. -/
structure Heap (α : Type) where
  datas : List (Data α)
  tensors : List (Option Tensor)
  deriving DecidableEq, Repr

/-- A `tensor *`. -/
abbrev TPtr := Option Nat

/-- A `double *` into a buffer: the buffer and the position inside it. -/
structure RawPtr where
  buf : Nat
  off : Int
  deriving DecidableEq, Repr

/-- Result of a call: the returned value, or the fault together with the heap
at the moment the call stopped. -/
abbrev Res (α σ : Type) := Except (Fault × Heap α) σ

variable {α : Type}

/-- Model of the macro `TENSOR_CHECK(cond, ...)` (its definition is not part of
the sources): take the fatal path when `cond` holds. -/
def TENSOR_CHECK (h : Heap α) (cond : Bool) : Res α Unit :=
  if cond then .error (.fatal, h) else .ok ()

/-- Model of `assert(cond)`. -/
def c_assert (h : Heap α) (cond : Bool) : Res α Unit :=
  if cond then .ok () else .error (.assertion, h)

/-- Read `arr[i]` from a C array of `int`. -/
def arrGet (h : Heap α) (arr : List Int) (i : Nat) : Res α Int :=
  match arr[i]? with
  | some v => .ok v
  | none => .error (.undef, h)

/-- Write `arr[i] = v` into a C array of `int`. -/
def arrSet (h : Heap α) (arr : List Int) (i : Nat) (v : Int) : Res α (List Int) :=
  if i < arr.length then .ok (arr.set i v) else .error (.undef, h)

/-- Dereference a `tensor *`. -/
def Heap.tensor (h : Heap α) (p : TPtr) : Res α Tensor :=
  match p with
  | none => .error (.undef, h)
  | some a =>
    match h.tensors[a]? with
    | some (some t) => .ok t
    | _ => .error (.undef, h)

/-- Store the cell of a tensor. -/
def Heap.setTensor (h : Heap α) (p : TPtr) (t : Tensor) : Res α (Heap α) :=
  match p with
  | none => .error (.undef, h)
  | some a =>
    match h.tensors[a]? with
    | some (some _) => .ok { h with tensors := h.tensors.set a (some t) }
    | _ => .error (.undef, h)

/-- Dereference a `Data *`: the buffer must exist and not have been freed. -/
def Heap.buffer (h : Heap α) (d : Option Nat) : Res α (Nat × Data α) :=
  match d with
  | none => .error (.undef, h)
  | some a =>
    match h.datas[a]? with
    | some b => if b.freed then .error (.undef, h) else .ok (a, b)
    | none => .error (.undef, h)

/-! ## The buffer collaborator -/

/-- Modelled from the spec: `data_init(length)` (not part of the sources)
creates a buffer of the given capacity with reference count 1. Its initial
contents are whatever `fill` supplies. Returns the new `Data *`. -/
def data_init (h : Heap α) (length : Int) (fill : Nat → α) : Option Nat × Heap α :=
  (some h.datas.length,
   { h with datas := h.datas ++
      [{ elems := (List.range length.toNat).map fill, refcount := 1, freed := false }] })

/-- Modelled from the spec: `data_inc` (not part of the sources) adds one owner. -/
def data_inc (h : Heap α) (d : Option Nat) : Res α (Heap α) := do
  let r ← h.buffer d
  let b := r.2
  pure { h with datas := h.datas.set r.1 { b with refcount := b.refcount + 1 } }

/-- Modelled from the spec: `data_dec` (not part of the sources) removes one
owner and frees the storage iff the count reaches zero. -/
def data_dec (h : Heap α) (d : Option Nat) : Res α (Heap α) := do
  let r ← h.buffer d
  let b := r.2
  let b := { b with refcount := b.refcount - 1, freed := decide (b.refcount - 1 = 0) }
  pure { h with datas := h.datas.set r.1 b }

/-- Modelled from the spec: `data_get` (not part of the sources), a bounds-checked read. -/
def data_get (h : Heap α) (d : Option Nat) (idx : Int) : Res α α := do
  let r ← h.buffer d
  let b := r.2
  if idx < 0 then .error (.undef, h) else
  match b.elems[idx.toNat]? with
  | some v => pure v
  | none => .error (.undef, h)

/-- Modelled from the spec: `data_insert` (not part of the sources), a bounds-checked write. -/
def data_insert (h : Heap α) (d : Option Nat) (value : α) (idx : Int) : Res α (Heap α) := do
  let r ← h.buffer d
  let b := r.2
  if idx < 0 then .error (.undef, h) else
  if idx.toNat < b.elems.length then
    pure { h with datas := h.datas.set r.1 { b with elems := b.elems.set idx.toNat value } }
  else .error (.undef, h)

/-- Modelled from the spec: `data_raw_ptr` (not part of the sources), the
contiguous range of all elements of a buffer, as a pointer to its element 0. -/
def data_raw_ptr (h : Heap α) (d : Option Nat) : Res α RawPtr := do
  let r ← h.buffer d
  pure { buf := r.1, off := 0 }

/-- Read `p[i]` through a raw pointer. -/
def rawGet (h : Heap α) (p : RawPtr) (i : Int) : Res α α :=
  data_get h (some p.buf) (p.off + i)

/-- Write `p[i] = v` through a raw pointer. -/
def rawSet (h : Heap α) (p : RawPtr) (i : Int) (v : α) : Res α (Heap α) :=
  data_insert h (some p.buf) v (p.off + i)

/-! ## Kernels (`include/mat_ops.h`) -/

/-- `vector_sigmoid` / `vector_tanh`: `a[i] = f(a[i])` for `i < length`, the
scalar function `f` (`sigmoid`, `tanh`) being supplied by the caller. -/
def vector_map (f : α → α) (h : Heap α) (a : RawPtr) (length : Int) : Res α (Heap α) :=
  forLoop length.toNat (fun i h => do
    let x ← rawGet h a i
    rawSet h a i (f x)) h

/-- `vector_dot_product`: the loop bound is an `unsigned int`. It only reads,
so the heap is not threaded through. -/
def vector_dot_product [Zero α] [Add α] [Mul α] (h : Heap α) (a b : RawPtr) (length : Nat) :
    Res α α :=
  forLoop length (fun i output => do
    let x ← rawGet h a i
    let y ← rawGet h b i
    pure (output + x * y)) 0

/-- `matrix_multiplication`: zero `c`, then the triple loop. -/
def matrix_multiplication [Zero α] [Add α] [Mul α] (h : Heap α) (a b c : RawPtr) (m p n : Int) :
    Res α (Heap α) := do
  let h ← forLoop m.toNat (fun i h =>
    forLoop n.toNat (fun j h => rawSet h c (wrap32 (wrap32 (i * n) + j)) 0) h) h
  forLoop m.toNat (fun i h =>
    forLoop n.toNat (fun j h =>
      forLoop p.toNat (fun k h => do
        let z ← rawGet h c (wrap32 (wrap32 (i * n) + j))
        let x ← rawGet h a (wrap32 (wrap32 (i * p) + k))
        let y ← rawGet h b (wrap32 (wrap32 (k * n) + j))
        rawSet h c (wrap32 (wrap32 (i * n) + j)) (z + x * y)) h) h) h

/-- `matrix_addition` / `hadamard_product`: `c[i] = op a[i] b[i]` for `i < length`
(an `unsigned int` bound). -/
def point_wise (op : α → α → α) (h : Heap α) (a b c : RawPtr) (length : Nat) :
    Res α (Heap α) :=
  forLoop length (fun i h => do
    let x ← rawGet h a i
    let y ← rawGet h b i
    rawSet h c i (op x y)) h

/-! ## `tensor.c` -/

/-- `_shape_check`. -/
def _shape_check (h : Heap α) (axis_size : Int) : Res α Unit :=
  if axis_size < 1 then .error (.fatal, h) else .ok ()

/-- `check_size`; the constant `MAX_DIM` comes from a header that is not part of
the sources and is a parameter. -/
def check_size (MAX_DIM : Int) (h : Heap α) (ndims : Int) (shape : List Int) : Res α Unit := do
  TENSOR_CHECK h (decide (ndims < 1 ∨ ndims > MAX_DIM))
  forLoop ndims.toNat (fun i _ => do
    let v ← arrGet h shape i
    _shape_check h v) ()

/-- `calculate_length`. -/
def calculate_length (h : Heap α) (ndims : Int) (shape : List Int) : Res α Int :=
  forLoop ndims.toNat (fun i length => do
    let v ← arrGet h shape i
    pure (wrap32 (length * v))) 1

/-- `tensor_set_size`, on the cell of `self`. The array `shape` is passed by
value: its only caller passes the shape of a tensor other than `self`. -/
def tensor_set_size (h : Heap α) (self : Tensor) (ndims : Int) (shape : List Int) (length : Int) :
    Res α Tensor := do
  let self := { self with ndims := ndims }
  let self ← forLoop ndims.toNat (fun i (t : Tensor) => do
    let v ← arrGet h shape i
    let s ← arrSet h t.shape i v
    pure { t with shape := s }) self
  let len ← calculate_length h ndims shape
  let self := { self with length := len }
  c_assert h (decide (self.length = length))
  pure self

/-- `tensor_shallow_init`: the new cell comes from `SAFE_MALLOC`; `junk` supplies
the contents of the `shape` array before it is written. -/
def tensor_shallow_init (MAX_DIM : Int) (h : Heap α) (ndims : Int) (shape : List Int)
    (junk : Nat → Int) : Res α (TPtr × Heap α) := do
  check_size MAX_DIM h ndims shape
  let t : Tensor :=
    { data := none, shape := (List.range MAX_DIM.toNat).map junk, ndims := 0, length := 0,
      offset := 0, strides := [0, 0] }
  let t := { t with ndims := ndims }
  let t ← forLoop ndims.toNat (fun i (t : Tensor) => do
    let v ← arrGet h shape i
    let s ← arrSet h t.shape i v
    pure { t with shape := s }) t
  let len ← calculate_length h ndims shape
  let t := { t with length := len }
  let t := { t with data := none }
  let t := { t with offset := 0 }
  let s ← arrSet h t.strides 0 1
  let t := { t with strides := s }
  let s ← arrSet h t.strides 1 0
  let t := { t with strides := s }
  pure (some h.tensors.length, { h with tensors := h.tensors ++ [some t] })

/-- `tensor_set_at_`. -/
def tensor_set_at_ (h : Heap α) (self : TPtr) (value : α) (pos : Int) : Res α (Heap α) := do
  let t ← h.tensor self
  c_assert h (decide (pos < t.length))
  data_insert h t.data value (wrap32 (pos + t.offset))

/-- `tensor_get_at_`. -/
def tensor_get_at_ (h : Heap α) (self : TPtr) (pos : Int) : Res α α := do
  let t ← h.tensor self
  c_assert h (decide (pos < t.length))
  data_get h t.data (wrap32 (pos + t.offset))

/-- `tensor_copy_data_`. -/
def tensor_copy_data_ (h : Heap α) (dest src : TPtr) (length offset : Int) : Res α (Heap α) :=
  forLoop length.toNat (fun i h => do
    let v ← tensor_get_at_ h src i
    tensor_set_at_ h dest v (wrap32 (i + offset))) h

/-- `tensor_copy_from_data`. -/
def tensor_copy_from_data (h : Heap α) (self : TPtr) (data : Option Nat) (shape : List Int)
    (ndims length offset : Int) : Res α (Heap α) := do
  TENSOR_CHECK h (decide (offset < 0))
  let t ← h.tensor self
  let h ← if t.data ≠ data then do
      let h ← if t.data ≠ none then data_dec h t.data else pure h
      let h ← h.setTensor self { t with data := data }
      data_inc h data
    else pure h
  let t ← h.tensor self
  let t ← tensor_set_size h t ndims shape length
  let t := { t with offset := offset }
  h.setTensor self t

/-- `tensor_clone`. -/
def tensor_clone (h : Heap α) (self src : TPtr) : Res α (Heap α) :=
  if self ≠ src then do
    let s ← h.tensor src
    tensor_copy_from_data h self s.data s.shape s.ndims s.length s.offset
  else pure h

/-- `tensor_data`. -/
def tensor_data (h : Heap α) (self : TPtr) : Res α RawPtr := do
  let t ← h.tensor self
  let p ← data_raw_ptr h t.data
  pure { p with off := p.off + t.offset }

/-- `tensor_unary_point_wise_op`, with the scalar function behind `op`. -/
def tensor_unary_point_wise_op (f : α → α) (h : Heap α) (self inp : TPtr) : Res α (Heap α) := do
  TENSOR_CHECK h (decide (self = none))
  TENSOR_CHECK h (decide (inp = none))
  let t ← h.tensor self
  let s ← h.tensor inp
  TENSOR_CHECK h (decide (t.length ≠ s.length))
  let h ← tensor_clone h self inp
  let p ← tensor_data h self
  let t ← h.tensor self
  vector_map f h p t.length

/-- `tensor_sigmoid` / `tensor_tanh`, with the scalar function `sigmoid` / `tanh`
of `utils.h` (not part of the sources) as a parameter. -/
def tensor_sigmoid (f : α → α) (h : Heap α) (self inp : TPtr) : Res α (Heap α) :=
  tensor_unary_point_wise_op f h self inp

/-- `tensor_init`. -/
def tensor_init (MAX_DIM : Int) (h : Heap α) (ndims : Int) (shape : List Int)
    (junk : Nat → Int) (fill : Nat → α) : Res α (TPtr × Heap α) := do
  let r ← tensor_shallow_init MAX_DIM h ndims shape junk
  let p := r.1
  let h := r.2
  let t ← h.tensor p
  let r := data_init h t.length fill
  let h := r.2
  let t ← h.tensor p
  let h ← h.setTensor p { t with data := r.1 }
  pure (p, h)

/-- `tensor_concat`. -/
def tensor_concat (h : Heap α) (self t1 t2 : TPtr) : Res α (Heap α) := do
  let a ← h.tensor t1
  let b ← h.tensor t2
  let a1 ← arrGet h a.shape 1
  let b1 ← arrGet h b.shape 1
  TENSOR_CHECK h (decide (a1 ≠ b1))
  TENSOR_CHECK h (decide (self = none))
  let s ← h.tensor self
  let s0 ← arrGet h s.shape 0
  let a0 ← arrGet h a.shape 0
  let b0 ← arrGet h b.shape 0
  TENSOR_CHECK h (decide (s0 ≠ wrap32 (a0 + b0)))
  let s1 ← arrGet h s.shape 1
  TENSOR_CHECK h (decide (s1 ≠ a1))
  let h ← tensor_copy_data_ h self t1 a.length 0
  let a ← h.tensor t1
  let b ← h.tensor t2
  tensor_copy_data_ h self t2 b.length a.length

/-- `tensor_binary_point_wise_op`, with the scalar operation behind `op`. -/
def tensor_binary_point_wise_op (op : α → α → α) (h : Heap α) (self t1 t2 : TPtr) :
    Res α (Heap α) := do
  let a ← h.tensor t1
  let b ← h.tensor t2
  let a0 ← arrGet h a.shape 0
  let b0 ← arrGet h b.shape 0
  if a0 ≠ b0 then .error (.fatal, h) else
  let a1 ← arrGet h a.shape 1
  let b1 ← arrGet h b.shape 1
  if a1 ≠ b1 then .error (.fatal, h) else
  let pa ← tensor_data h t1
  let pb ← tensor_data h t2
  let pc ← tensor_data h self
  point_wise op h pa pb pc (toUnsigned a.length)

/-- `tensor_plus`. -/
def tensor_plus [Add α] (h : Heap α) (self t1 t2 : TPtr) : Res α (Heap α) := do
  TENSOR_CHECK h (decide (self = none))
  tensor_binary_point_wise_op (fun x y => x + y) h self t1 t2

/-- `tensor_mul`. -/
def tensor_mul [Mul α] (h : Heap α) (self t1 t2 : TPtr) : Res α (Heap α) := do
  TENSOR_CHECK h (decide (self = none))
  tensor_binary_point_wise_op (fun x y => x * y) h self t1 t2

/-- `tensor_select`. -/
def tensor_select (h : Heap α) (self src : TPtr) (index : Int) : Res α (Heap α) := do
  let s ← h.tensor src
  let s0 ← arrGet h s.shape 0
  TENSOR_CHECK h (decide (index ≥ s0))
  let src := if src = none then self else src
  let h ← tensor_clone h self src
  -- self->offset += index * src->shape[1];
  let s ← h.tensor src
  let s1 ← arrGet h s.shape 1
  let t ← h.tensor self
  let h ← h.setTensor self { t with offset := wrap32 (t.offset + wrap32 (index * s1)) }
  -- self->shape[0] = src->shape[1];
  let s ← h.tensor src
  let s1 ← arrGet h s.shape 1
  let t ← h.tensor self
  let sh ← arrSet h t.shape 0 s1
  let h ← h.setTensor self { t with shape := sh }
  -- self->shape[1] = 1;
  let t ← h.tensor self
  let sh ← arrSet h t.shape 1 1
  let h ← h.setTensor self { t with shape := sh }
  -- self->length = calculate_length(self->ndims, self->shape);
  let t ← h.tensor self
  let len ← calculate_length h t.ndims t.shape
  h.setTensor self { t with length := len }

/-- `tensor_mat_mul`. -/
def tensor_mat_mul [Zero α] [Add α] [Mul α] (h : Heap α) (self t1 t2 : TPtr) :
    Res α (Heap α) := do
  TENSOR_CHECK h (decide (self = none))
  let a ← h.tensor t1
  let b ← h.tensor t2
  let a1 ← arrGet h a.shape 1
  let b0 ← arrGet h b.shape 0
  TENSOR_CHECK h (decide (a1 ≠ b0))
  let s ← h.tensor self
  let s0 ← arrGet h s.shape 0
  let a0 ← arrGet h a.shape 0
  let c0 := decide (s0 ≠ a0)
  -- the right operand of && is evaluated only when the left one holds
  let c1 ← if c0 then do
      let s1 ← arrGet h s.shape 1
      let b1 ← arrGet h b.shape 1
      pure (decide (s1 ≠ b1))
    else pure false
  TENSOR_CHECK h (c0 && c1)
  if s.length = 1 then do
    let pa ← tensor_data h t1
    let pb ← tensor_data h t2
    let output ← vector_dot_product h pa pb (toUnsigned a.length)
    tensor_set_at_ h self output 0
  else do
    let pa ← tensor_data h t1
    let pb ← tensor_data h t2
    let pc ← tensor_data h self
    let a0 ← arrGet h a.shape 0
    let a1 ← arrGet h a.shape 1
    let b1 ← arrGet h b.shape 1
    matrix_multiplication h pa pb pc a0 a1 b1

/-- `tensor_cleanup`. -/
def tensor_cleanup (h : Heap α) (self : TPtr) : Res α (Heap α) :=
  match self with
  | none => pure h
  | some a => do
    let t ← h.tensor self
    let h ← if t.data ≠ none then data_dec h t.data else pure h
    -- SAFE_FREE(self)
    pure { h with tensors := h.tensors.set a none }

/-- `tensor_init_with_`. -/
def tensor_init_with_ (MAX_DIM : Int) (h : Heap α) (ndims : Int) (shape : List Int)
    (junk : Nat → Int) (fill : Nat → α) (value : α) : Res α (TPtr × Heap α) := do
  let r ← tensor_init MAX_DIM h ndims shape junk fill
  let p := r.1
  let h := r.2
  let t ← h.tensor p
  let h ← forLoop t.length.toNat (fun i h => tensor_set_at_ h p value i) h
  pure (p, h)

/-- `_tensor_zeros`. -/
def _tensor_zeros [Zero α] (MAX_DIM : Int) (h : Heap α) (ndims : Int) (shape : List Int)
    (junk : Nat → Int) (fill : Nat → α) : Res α (TPtr × Heap α) :=
  tensor_init_with_ MAX_DIM h ndims shape junk fill 0

/-- `_tensor_ones`. -/
def _tensor_ones [One α] (MAX_DIM : Int) (h : Heap α) (ndims : Int) (shape : List Int)
    (junk : Nat → Int) (fill : Nat → α) : Res α (TPtr × Heap α) :=
  tensor_init_with_ MAX_DIM h ndims shape junk fill 1

/-- `randn`, in exact arithmetic, as a function of the value `r` returned by
`arc4random_uniform(RAND_MAX)`. The product `2 * r` is an `unsigned int`; the
constant `RAND_MAX` of the C library is a parameter. -/
def randn (RAND_MAX : Nat) (r : Nat) : ℚ :=
  (((2 * r) % 4294967296 : Nat) : ℚ) / (RAND_MAX : ℚ) - 1

/-- `tensor_rand`; `draw i` is the value returned by `arc4random_uniform` in the
iteration `i` of the loop. -/
def tensor_rand (MAX_DIM : Int) (RAND_MAX : Nat) (h : Heap ℚ) (ndims : Int) (shape : List Int)
    (junk : Nat → Int) (fill : Nat → ℚ) (draw : Nat → Nat) : Res ℚ (TPtr × Heap ℚ) := do
  let r ← tensor_init MAX_DIM h ndims shape junk fill
  let p := r.1
  let h := r.2
  let t ← h.tensor p
  let h ← forLoop t.length.toNat (fun i h => tensor_set_at_ h p (randn RAND_MAX (draw i)) i) h
  pure (p, h)

/-! ## Auxiliary definitions for the statements -/

/-- The value stored at position `i` of buffer `b`, when that buffer is live and
the position lies inside it. -/
def Heap.cell (h : Heap α) (b : Nat) (i : Int) : Option α :=
  match h.datas[b]? with
  | some d => if d.freed then none else if i < 0 then none else d.elems[i.toNat]?
  | none => none

/-- Zeroing phase of `matrix_multiplication`: the first `t` cells of `c` hold `0`,
everything else is as in the initial heap `h`. -/
def Zeroed [Zero α] (h : Heap α) (c : RawPtr) (t : Nat) (st : Heap α) : Prop :=
  st.tensors = h.tensors ∧
  (∀ z : Nat, z < t → st.cell c.buf (c.off + z) = some 0) ∧
  (∀ bb idx, ¬ (bb = c.buf ∧ ∃ z : Nat, z < t ∧ idx = c.off + z) → st.cell bb idx = h.cell bb idx)

/-- Accumulation phase of `matrix_multiplication`, between two cells: the cells
of `c` with flattened index below `t` hold their final sum, the later ones
still hold `0`, and everything outside `c` is as in the initial heap `h`. -/
def Accum [Semiring α] (h : Heap α) (c : RawPtr) (A B : Nat → α) (m p n t : Nat)
    (st : Heap α) : Prop :=
  st.tensors = h.tensors ∧
  (∀ i j : Nat, j < n → i * n + j < t →
    st.cell c.buf (c.off + ((i * n + j : Nat) : Int))
      = some (∑ k in Finset.range p, A (i * p + k) * B (k * n + j))) ∧
  (∀ z : Nat, t ≤ z → z < m * n → st.cell c.buf (c.off + z) = some 0) ∧
  (∀ bb idx, ¬ (bb = c.buf ∧ ∃ z : Nat, z < m * n ∧ idx = c.off + z) →
    st.cell bb idx = h.cell bb idx)

/-- Accumulation phase inside the innermost loop, for the cell `(i, j)` after `k`
products have been added. -/
def AccumAt [Semiring α] (h : Heap α) (c : RawPtr) (A B : Nat → α) (m p n i j k : Nat)
    (st : Heap α) : Prop :=
  st.tensors = h.tensors ∧
  (∀ i2 j2 : Nat, j2 < n → i2 * n + j2 < i * n + j →
    st.cell c.buf (c.off + ((i2 * n + j2 : Nat) : Int))
      = some (∑ k in Finset.range p, A (i2 * p + k) * B (k * n + j2))) ∧
  st.cell c.buf (c.off + ((i * n + j : Nat) : Int))
      = some (∑ q in Finset.range k, A (i * p + q) * B (q * n + j)) ∧
  (∀ z : Nat, i * n + j < z → z < m * n → st.cell c.buf (c.off + z) = some 0) ∧
  (∀ bb idx, ¬ (bb = c.buf ∧ ∃ z : Nat, z < m * n ∧ idx = c.off + z) →
    st.cell bb idx = h.cell bb idx)

/-- The pointer `p` designates the live tensor `t`, of rank 2 and shape `[r, c]`,
which satisfies the invariants of the data model: its length is the product of
its shape and its range `[offset, offset + length)` lies inside a live buffer
(whose capacity is an `int`). -/
structure View (h : Heap α) (p : TPtr) (t : Tensor) (r c : Nat) : Prop where
  live : h.tensor p = Except.ok t
  shape0 : t.shape[0]? = some (r : Int)
  shape1 : t.shape[1]? = some (c : Int)
  rank : t.ndims = 2
  len : t.length = (r : Int) * (c : Int)
  off : 0 ≤ t.offset
  buf : ∃ d b, t.data = some d ∧ h.datas[d]? = some b ∧ b.freed = false ∧
    t.offset + t.length ≤ (b.elems.length : Int) ∧ (b.elems.length : Int) ≤ 2147483647
  rmax : r ≤ 2147483647
  cmax : c ≤ 2147483647

/-! ### Concrete heaps used by the examples -/

/-- A rank-2 tensor cell on buffer `d` with the given shape and offset. -/
def mkTensor (d : Nat) (r c : Int) (off : Int) : Tensor :=
  { data := some d, shape := [r, c], ndims := 2, length := r * c, offset := off, strides := [1, 0] }

/-- Heap with `a = [[1,2],[3,4]]` (tensor 0), `b = [[5,6],[7,8]]` (tensor 1) and a
`2 × 2` destination (tensor 2), each on its own buffer. -/
def exMat : Heap Int :=
  { datas := [⟨[1, 2, 3, 4], 1, false⟩, ⟨[5, 6, 7, 8], 1, false⟩, ⟨[9, 9, 9, 9], 1, false⟩],
    tensors := [some (mkTensor 0 2 2 0), some (mkTensor 1 2 2 0), some (mkTensor 2 2 2 0)] }

/-- Heap with `a`, `b` of shape `[2, 2]` as in `exMat` and a destination of shape `[2, 3]`. -/
def exMismatch : Heap Int :=
  { datas := [⟨[1, 2, 3, 4], 1, false⟩, ⟨[5, 6, 7, 8], 1, false⟩,
      ⟨[9, 9, 9, 9, 9, 9], 1, false⟩],
    tensors := [some (mkTensor 0 2 2 0), some (mkTensor 1 2 2 0), some (mkTensor 2 2 3 0)] }

/-- Heap with `a = [1,2,3]` of shape `[1, 3]`, `b = [4,5,6]` of shape `[3, 1]` and a
`1 × 1` destination. -/
def exDot : Heap Int :=
  { datas := [⟨[1, 2, 3], 1, false⟩, ⟨[4, 5, 6], 1, false⟩, ⟨[0], 1, false⟩],
    tensors := [some (mkTensor 0 1 3 0), some (mkTensor 1 3 1 0), some (mkTensor 2 1 1 0)] }

/-- Heap with `a = [1,2,3]` of shape `[1, 3]`, `b = [[4,5],[6,7],[8,9]]` of shape
`[3, 2]` and a `1 × 1` destination. -/
def exDotWide : Heap Int :=
  { datas := [⟨[1, 2, 3], 1, false⟩, ⟨[4, 5, 6, 7, 8, 9], 1, false⟩, ⟨[0], 1, false⟩],
    tensors := [some (mkTensor 0 1 3 0), some (mkTensor 1 3 2 0), some (mkTensor 2 1 1 0)] }

/-- Heap with `a = [[1,2,3],[4,5,6]]` of shape `[2, 3]`, `b = [1,1,1]` of shape
`[3, 1]` and a `1 × 1` destination. -/
def exDotTall : Heap Int :=
  { datas := [⟨[1, 2, 3, 4, 5, 6], 1, false⟩, ⟨[1, 1, 1], 1, false⟩, ⟨[0], 1, false⟩],
    tensors := [some (mkTensor 0 2 3 0), some (mkTensor 1 3 1 0), some (mkTensor 2 1 1 0)] }


/-- The product of the first `n` components of a shape array, as an exact integer. -/
def shapeProd (n : Nat) (shape : List Int) : Int := (shape.take n).prod

/-- The pointer `p` designates the live tensor `t`, which satisfies the
invariants of the data model for any rank: its length is the product of the
first `ndims` shape components and its range lies inside a live buffer. -/
structure Wf (h : Heap α) (p : TPtr) (t : Tensor) : Prop where
  live : h.tensor p = Except.ok t
  dims : t.ndims.toNat ≤ t.shape.length
  len : t.length = shapeProd t.ndims.toNat t.shape
  lenpos : 0 ≤ t.length
  off : 0 ≤ t.offset
  buf : ∃ d b, t.data = some d ∧ h.datas[d]? = some b ∧ b.freed = false ∧
    t.offset + t.length ≤ (b.elems.length : Int) ∧ (b.elems.length : Int) ≤ 2147483647

/-- Effect of `data_dec` on the buffer at address `d`. -/
def decAt (ds : List (Data α)) (d : Nat) : List (Data α) :=
  match ds[d]? with
  | some b => ds.set d { b with refcount := b.refcount - 1, freed := decide (b.refcount - 1 = 0) }
  | none => ds

/-- Effect of `data_inc` on the buffer at address `d`. -/
def incAt (ds : List (Data α)) (d : Nat) : List (Data α) :=
  match ds[d]? with
  | some b => ds.set d { b with refcount := b.refcount + 1 }
  | none => ds

/-- Effect on the buffers of giving up the reference `old` and taking the
reference `new`, as `tensor_copy_from_data` does. -/
def retarget (ds : List (Data α)) (old new : Option Nat) : List (Data α) :=
  if old = new then ds else
  match old, new with
  | some o, some n => incAt (decAt ds o) n
  | none, some n => incAt ds n
  | _, none => ds

/-- The cell of `dest` after `tensor_clone(dest, src)`. -/
def clonedCell (t s : Tensor) : Tensor :=
  { t with data := s.data, ndims := s.ndims,
           shape := s.shape.take s.ndims.toNat ++ t.shape.drop s.ndims.toNat,
           length := s.length, offset := s.offset }

/-- Heap with `src = [[1,2],[3,4],[5,6]]` of shape `[3, 2]` (tensor 0) and another
tensor of shape `[1, 2]` on a buffer of its own (tensor 1). -/
def exSel : Heap Int :=
  { datas := [⟨[1, 2, 3, 4, 5, 6], 1, false⟩, ⟨[0, 0], 1, false⟩],
    tensors := [some (mkTensor 0 3 2 0), some (mkTensor 1 1 2 0)] }

/-- Progress of `tensor_copy_data_` after `i` elements: the cells
`[base, base + i)` of buffer `dd` hold the first `i` source cells, the tensor
cells and the bookkeeping of every buffer are as in `h`, and every other cell
is as in `h`. -/
def Copied (h : Heap α) (dd ds : Nat) (base sbase : Int) (i : Nat) (st : Heap α) : Prop :=
  st.tensors = h.tensors ∧
  (∀ e : Nat, (st.datas[e]?).map (fun b => (b.refcount, b.freed, b.elems.length))
      = (h.datas[e]?).map (fun b => (b.refcount, b.freed, b.elems.length))) ∧
  (∀ x : Nat, x < i → st.cell dd (base + x) = h.cell ds (sbase + x)) ∧
  (∀ b j, ¬ (b = dd ∧ ∃ x : Nat, x < i ∧ j = base + x) → st.cell b j = h.cell b j)

/-- Heap with `a = [[1,2]]` of shape `[1, 2]` (tensor 0), `b = [[3,4],[5,6]]` of
shape `[2, 2]` (tensor 1) and a `[3, 2]` destination (tensor 2), each on its
own buffer. -/
def exCat : Heap Int :=
  { datas := [⟨[1, 2], 1, false⟩, ⟨[3, 4, 5, 6], 1, false⟩, ⟨[0, 0, 0, 0, 0, 0], 1, false⟩],
    tensors := [some (mkTensor 0 1 2 0), some (mkTensor 1 2 2 0), some (mkTensor 2 3 2 0)] }

/-- The pointer `p` designates the live tensor `t` whose first two shape
components are the non-negative `int` values `r` and `c`. -/
structure Shaped (h : Heap α) (p : TPtr) (t : Tensor) (r c : Nat) : Prop where
  live : h.tensor p = Except.ok t
  shape0 : t.shape[0]? = some (r : Int)
  shape1 : t.shape[1]? = some (c : Int)
  rmax : r ≤ 2147483647
  cmax : c ≤ 2147483647

/-- The call does not end on the fatal path. -/
def NoFatal {σ : Type} (x : Res α σ) : Prop :=
  ∀ h2 : Heap α, x ≠ Except.error (Fault.fatal, h2)

/-- Some component of the shape with index below `n` is smaller than 1. -/
def BadAxis (n : Nat) (shape : List Int) : Prop :=
  ∃ i : Nat, i < n ∧ ∃ v : Int, shape[i]? = some v ∧ v < 1

/-- The heap before any allocation. -/
def emptyHeap : Heap Int := { datas := [], tensors := [] }

/-- The cell that `tensor_init` creates when it returns. -/
def initCell (MAX_DIM : Int) (ndims : Int) (shape : List Int) (junk : Nat → Int) (d : Nat) :
    Tensor :=
  { data := some d,
    shape := shape.take ndims.toNat ++ ((List.range MAX_DIM.toNat).map junk).drop ndims.toNat,
    ndims := ndims, length := wrap32 (shapeProd ndims.toNat shape), offset := 0,
    strides := [1, 0] }

/-- Progress of a loop that stores `g i` in the logical element `i` of a tensor
whose cells start at position `off` of buffer `d`: the first `i` cells hold
their value, every cell of the range is still readable, the tensor cells are
those of `h`. -/
def Filled (h : Heap α) (d : Nat) (off : Int) (n : Nat) (g : Nat → α) (i : Nat)
    (st : Heap α) : Prop :=
  st.tensors = h.tensors ∧
  (∀ x : Nat, x < i → st.cell d (off + x) = some (g x)) ∧
  (∀ x : Nat, x < n → (st.cell d (off + x)).isSome)

/-- Heap with `a = [[1,2],[3,4]]`, `b = [[5,6],[7,8]]` and a destination of shape
`[1, 1]` (length 1) placed at the start of a buffer of four elements. -/
def exSmallDest : Heap Int :=
  { datas := [⟨[1, 2, 3, 4], 1, false⟩, ⟨[5, 6, 7, 8], 1, false⟩, ⟨[9, 9, 9, 9], 1, false⟩],
    tensors := [some (mkTensor 0 2 2 0), some (mkTensor 1 2 2 0), some (mkTensor 2 1 1 0)] }

/-- Heap with a source of shape `[3, 2]` (tensor 0) and a destination of shape
`[2, 3]` (tensor 1), both of length 6, each on its own buffer. -/
def exUnary : Heap Int :=
  { datas := [⟨[1, 2, 3, 4, 5, 6], 1, false⟩, ⟨[0, 0, 0, 0, 0, 0], 1, false⟩],
    tensors := [some (mkTensor 0 3 2 0), some (mkTensor 1 2 3 0)] }

/-- Progress of `matrix_addition` / `hadamard_product` after `i` elements: the
first `i` cells of `c` hold the result computed from the initial values of the
operands, and every other cell is as in `h`. -/
def Pointwise (op : α → α → α) (h : Heap α) (a b c : RawPtr) (i : Nat) (st : Heap α) : Prop :=
  st.tensors = h.tensors ∧
  (∀ x : Nat, x < i → ∃ u v, h.cell a.buf (a.off + x) = some u ∧
    h.cell b.buf (b.off + x) = some v ∧ st.cell c.buf (c.off + x) = some (op u v)) ∧
  (∀ bb idx, ¬ (bb = c.buf ∧ ∃ x : Nat, x < i ∧ idx = c.off + x) → st.cell bb idx = h.cell bb idx)

/-- The value stored at position `j` of buffer `d`, whether or not the buffer
has been freed. -/
def Heap.raw (h : Heap α) (d : Nat) (j : Int) : Option α :=
  match h.datas[d]? with
  | some b => if j < 0 then none else b.elems[j.toNat]?
  | none => none

/-- Progress of `vector_sigmoid` / `vector_tanh` after `i` elements. -/
def Mapped (f : α → α) (h : Heap α) (a : RawPtr) (i : Nat) (st : Heap α) : Prop :=
  st.tensors = h.tensors ∧
  (∀ x : Nat, x < i → ∃ v, h.cell a.buf (a.off + x) = some v ∧
    st.cell a.buf (a.off + x) = some (f v)) ∧
  (∀ bb idx, ¬ (bb = a.buf ∧ ∃ x : Nat, x < i ∧ idx = a.off + x) → st.cell bb idx = h.cell bb idx) ∧
  (∀ bb idx, ¬ (bb = a.buf ∧ ∃ x : Nat, x < i ∧ idx = a.off + x) → st.raw bb idx = h.raw bb idx)

/-! ### Reference counting -/

/-- Number of live tensor cells whose `data` pointer is the buffer `d`. -/
def refs (h : Heap α) (d : Nat) : Nat :=
  (h.tensors.map (Option.map Tensor.data)).count (some (some d))

/-- One successful call of the public operations that create, retarget or
release tensors: `tensor_init`, `tensor_clone`, `tensor_select`,
`tensor_sigmoid` / `tensor_tanh` (for any scalar function) and `tensor_cleanup`. -/
inductive Step (MAX_DIM : Int) : Heap α → Heap α → Prop where
  | init (h h2 : Heap α) (ndims : Int) (shape : List Int) (junk : Nat → Int) (fill : Nat → α)
      (p : TPtr) (hlen : MAX_DIM.toNat ≤ shape.length)
      (e : tensor_init MAX_DIM h ndims shape junk fill = Except.ok (p, h2)) : Step MAX_DIM h h2
  | clone (h h2 : Heap α) (dest src : TPtr)
      (e : tensor_clone h dest src = Except.ok h2) : Step MAX_DIM h h2
  | select (h h2 : Heap α) (dest src : TPtr) (index : Int)
      (e : tensor_select h dest src index = Except.ok h2) : Step MAX_DIM h h2
  | unary (f : α → α) (h h2 : Heap α) (dest src : TPtr)
      (e : tensor_sigmoid f h dest src = Except.ok h2) : Step MAX_DIM h h2
  | release (h h2 : Heap α) (p : TPtr)
      (e : tensor_cleanup h p = Except.ok h2) : Step MAX_DIM h h2

/-- The heaps reached from the empty heap by successful calls. -/
inductive Reach (MAX_DIM : Int) : Heap α → Prop where
  | empty : Reach MAX_DIM { datas := [], tensors := [] }
  | step (h h2 : Heap α) (hr : Reach MAX_DIM h) (hs : Step MAX_DIM h h2) : Reach MAX_DIM h2

/-- The reference counting invariant: the count of every buffer is the number
of live tensors that reference it, a buffer has been freed exactly when that
number is zero, and every data pointer designates an allocated buffer. -/
def RefInv (h : Heap α) : Prop :=
  (∀ (d : Nat) (b : Data α), h.datas[d]? = some b →
    b.refcount = (refs h d : Int) ∧ (b.freed = true ↔ refs h d = 0)) ∧
  (∀ (a : Nat) (t : Tensor) (d : Nat), h.tensors[a]? = some (some t) → t.data = some d →
    d < h.datas.length)

/-- Effect of `data_dec` on the buffer behind a `Data *`, nothing for `NULL`. -/
def decOpt (ds : List (Data α)) (old : Option Nat) : List (Data α) :=
  match old with
  | some o => decAt ds o
  | none => ds

/-- The buffer behind the pointer exists and has not been freed. -/
def LiveAt (ds : List (Data α)) (d : Option Nat) : Prop :=
  ∃ n b, d = some n ∧ ds[n]? = some b ∧ b.freed = false

/-- The bookkeeping of a buffer: count, freed flag and capacity. -/
def meta3 (b : Data α) : Int × Bool × Nat := (b.refcount, b.freed, b.elems.length)

/-- Two lists of buffers with the same bookkeeping. -/
def MetaEq (ds ds2 : List (Data α)) : Prop := ds2.map meta3 = ds.map meta3

/-- Side condition under which `tensor_copy_from_data` moves a reference from
`old` to `new`: either nothing moves, or the old buffer (if any) and the new
one are live. -/
def RetOK (ds : List (Data α)) (old new : Option Nat) : Prop :=
  old = new ∨ ((old = none ∨ LiveAt ds old) ∧ LiveAt ds new)

/-- The cell `t2` carries the descriptor of `s`, as after `tensor_clone`. -/
def Cloned (t2 s : Tensor) : Prop :=
  t2.data = s.data ∧ t2.ndims = s.ndims ∧ t2.length = s.length ∧ t2.offset = s.offset ∧
  (∀ i : Nat, i < s.ndims.toNat → t2.shape[i]? = s.shape[i]?) ∧ 0 ≤ s.offset

/-- What a successful `tensor_clone(self, src)` does to the heap. -/
def CloneRel (h h2 : Heap α) (self src : TPtr) : Prop :=
  (self = src ∧ h2 = h) ∨
  (self ≠ src ∧ ∃ a t s t2, self = some a ∧ h.tensors[a]? = some (some t) ∧
    h.tensor src = Except.ok s ∧ h2.tensors = h.tensors.set a (some t2) ∧
    h2.datas = retarget h.datas t.data s.data ∧ RetOK h.datas t.data s.data ∧ Cloned t2 s)

/-- Effect of one successful call on the bookkeeping. -/
inductive Eff : Heap α → Heap α → Prop where
  | same (h h2 : Heap α) (e1 : h2.tensors = h.tensors) (e2 : MetaEq h.datas h2.datas) : Eff h h2
  | alloc (h h2 : Heap α) (b : Data α) (t : Tensor) (e1 : h2.datas = h.datas ++ [b])
      (e2 : b.refcount = 1) (e3 : b.freed = false) (e4 : h2.tensors = h.tensors ++ [some t])
      (e5 : t.data = some h.datas.length) : Eff h h2
  | retarget (h h2 : Heap α) (a : Nat) (t t2 : Tensor) (e1 : h.tensors[a]? = some (some t))
      (e2 : h2.tensors = h.tensors.set a (some t2))
      (e3 : MetaEq (retarget h.datas t.data t2.data) h2.datas)
      (e4 : RetOK h.datas t.data t2.data) : Eff h h2
  | release (h h2 : Heap α) (a : Nat) (t : Tensor) (e1 : h.tensors[a]? = some (some t))
      (e2 : h2.tensors = h.tensors.set a none) (e3 : h2.datas = decOpt h.datas t.data)
      (e4 : t.data = none ∨ LiveAt h.datas t.data) : Eff h h2

/-- The heap `exUnary` after the destination (tensor 1) has been made a view
of the source and `x ↦ x + 1` applied in place: the buffer of the destination
has lost its only owner. -/
def exUnaryOut : Heap Int :=
  { datas := [⟨[2, 3, 4, 5, 6, 7], 2, false⟩, ⟨[0, 0, 0, 0, 0, 0], 0, true⟩],
    tensors := [some (mkTensor 0 3 2 0), some (mkTensor 0 3 2 0)] }

/-- The call does not end on a failed `assert`. -/
def NoAssert {σ : Type} (x : Res α σ) : Prop :=
  ∀ h2 : Heap α, x ≠ Except.error (Fault.assertion, h2)

/-- The length invariant of the data model: the length is the product of the
first `ndims` shape components, each of which exists and is at least 1, and it
is an `int`. -/
def LenInv (t : Tensor) : Prop :=
  t.length = shapeProd t.ndims.toNat t.shape ∧
  (∀ i : Nat, i < t.ndims.toNat → ∃ v, t.shape[i]? = some v ∧ 1 ≤ v) ∧
  t.length ≤ 2147483647

/-- The heap `exSel` after `tensor_clone` of tensor 0 into tensor 1. -/
def exSelClone : Heap Int :=
  { datas := [⟨[1, 2, 3, 4, 5, 6], 2, false⟩, ⟨[0, 0], 0, true⟩],
    tensors := [some (mkTensor 0 3 2 0), some (mkTensor 0 3 2 0)] }

/-- The heap `exSel` after `tensor_select` of row 1 of tensor 0 into tensor 1. -/
def exSelRow : Heap Int :=
  { datas := [⟨[1, 2, 3, 4, 5, 6], 2, false⟩, ⟨[0, 0], 0, true⟩],
    tensors := [some (mkTensor 0 3 2 0), some (Tensor.mk (some 0) [2, 1] 2 2 2 [1, 0])] }

/-- The empty heap after `tensor_init(2, [3, 2])` with a zero-filled buffer. -/
def exInit : Heap Int :=
  { datas := [⟨[0, 0, 0, 0, 0, 0], 1, false⟩], tensors := [some (mkTensor 0 3 2 0)] }

/-! ### The range of a view inside its buffer -/

/-- A tensor that satisfies the length invariant and whose range
`[offset, offset + length)` starts at a non-negative position and ends inside
the buffer it references, the capacity of which is an `int`. -/
def Bound2 (h : Heap α) (t : Tensor) : Prop :=
  LenInv t ∧ 0 ≤ t.offset ∧ ∃ d b, t.data = some d ∧ h.datas[d]? = some b ∧
    t.offset + t.length ≤ (b.elems.length : Int) ∧ (b.elems.length : Int) ≤ 2147483647

/-- Every live tensor of rank 2 has its range inside its buffer. -/
def RangeInv (h : Heap α) : Prop :=
  ∀ (a : Nat) (t : Tensor), h.tensors[a]? = some (some t) → t.ndims = 2 → Bound2 h t

/-- Every buffer of the first list is in the second, with the same capacity. -/
def CapEq (ds ds2 : List (Data α)) : Prop :=
  ∀ (d : Nat) (b : Data α), ds[d]? = some b →
    ∃ b2, ds2[d]? = some b2 ∧ b2.elems.length = b.elems.length

/-- One successful call of `tensor_init` on a shape whose product fits in an
`int`, of `tensor_clone`, of `tensor_select` with a non-negative index, or of
`tensor_sigmoid` / `tensor_tanh`. -/
inductive SafeStep (MAX_DIM : Int) : Heap α → Heap α → Prop where
  | init (h h2 : Heap α) (ndims : Int) (shape : List Int) (junk : Nat → Int) (fill : Nat → α)
      (p : TPtr) (hlen : MAX_DIM.toNat ≤ shape.length)
      (hfit : shapeProd ndims.toNat shape ≤ 2147483647)
      (e : tensor_init MAX_DIM h ndims shape junk fill = Except.ok (p, h2)) : SafeStep MAX_DIM h h2
  | clone (h h2 : Heap α) (dest src : TPtr)
      (e : tensor_clone h dest src = Except.ok h2) : SafeStep MAX_DIM h h2
  | select (h h2 : Heap α) (dest src : TPtr) (index : Int) (hidx : 0 ≤ index)
      (e : tensor_select h dest src index = Except.ok h2) : SafeStep MAX_DIM h h2
  | unary (f : α → α) (h h2 : Heap α) (dest src : TPtr)
      (e : tensor_sigmoid f h dest src = Except.ok h2) : SafeStep MAX_DIM h h2

/-- The heaps reached from the empty heap by such calls. -/
inductive SafeReach (MAX_DIM : Int) : Heap α → Prop where
  | empty : SafeReach MAX_DIM { datas := [], tensors := [] }
  | step (h h2 : Heap α) (hr : SafeReach MAX_DIM h) (hs : SafeStep MAX_DIM h h2) :
      SafeReach MAX_DIM h2

/-- The empty heap after `tensor_init(2, [65536, 65536])`: the length has wrapped
to 0 and the buffer is empty. -/
def exWrapInit : Heap Int :=
  { datas := [⟨[], 1, false⟩],
    tensors := [some (Tensor.mk (some 0) [65536, 65536] 2 0 0 [1, 0])] }

/-- The heap `exWrapInit` after `tensor_select` of row 0 of its tensor, in place. -/
def exWrapRow : Heap Int :=
  { datas := [⟨[], 1, false⟩],
    tensors := [some (Tensor.mk (some 0) [65536, 1] 2 65536 0 [1, 0])] }

/-- The empty heap after `tensor_init(2, [1, 2])` with a zero-filled buffer. -/
def exOneRow : Heap Int :=
  { datas := [⟨[0, 0], 1, false⟩], tensors := [some (mkTensor 0 1 2 0)] }

/-- The heap `exOneRow` after `tensor_select` with index `-2147483647`, in place:
the product `index * 2` has wrapped to `2`. -/
def exNegRow : Heap Int :=
  { datas := [⟨[0, 0], 1, false⟩],
    tensors := [some (Tensor.mk (some 0) [2, 1] 2 2 2 [1, 0])] }

/-- The heap `exSel` before its second tensor is created. -/
def exSelFirst : Heap Int :=
  { datas := [⟨[1, 2, 3, 4, 5, 6], 1, false⟩], tensors := [some (mkTensor 0 3 2 0)] }

/-- The heap `exSel` with a third tensor of shape `[1, 2]` on a buffer of its own. -/
def exThree : Heap Int :=
  { datas := [⟨[1, 2, 3, 4, 5, 6], 1, false⟩, ⟨[0, 0], 1, false⟩, ⟨[0, 0], 1, false⟩],
    tensors := [some (mkTensor 0 3 2 0), some (mkTensor 1 1 2 0), some (mkTensor 2 1 2 0)] }

/-- The heap `exThree` after tensor 1 has become a clone of tensor 0 and tensor 2
the row 1 of tensor 0: two views of the first buffer, the two other buffers
have lost their only owner. -/
def exViews : Heap Int :=
  { datas := [⟨[1, 2, 3, 4, 5, 6], 3, false⟩, ⟨[0, 0], 0, true⟩, ⟨[0, 0], 0, true⟩],
    tensors := [some (mkTensor 0 3 2 0), some (mkTensor 0 3 2 0),
      some (Tensor.mk (some 0) [2, 1] 2 2 2 [1, 0])] }

/-- The heap `exViews` after the two views have been released. -/
def exViewsGone : Heap Int :=
  { datas := [⟨[1, 2, 3, 4, 5, 6], 1, false⟩, ⟨[0, 0], 0, true⟩, ⟨[0, 0], 0, true⟩],
    tensors := [some (mkTensor 0 3 2 0), none, none] }

/-- The heap `exViewsGone` after the original tensor has been released too. -/
def exAllGone : Heap Int :=
  { datas := [⟨[1, 2, 3, 4, 5, 6], 0, true⟩, ⟨[0, 0], 0, true⟩, ⟨[0, 0], 0, true⟩],
    tensors := [none, none, none] }

/-- The tensor `t` at `p` in `h2` is the one `tensor_init(ndims, shape)` creates
on the heap `h`: a new cell, appended to the cells of `h`, with the rank, the
first `ndims` shape components and the length computed from them (the product
reduced to an `int`), offset 0, on a new buffer of that capacity with count 1;
the buffers of `h` are as they were. -/
def FreshTensor (h : Heap α) (ndims : Int) (shape : List Int) (p : TPtr) (h2 : Heap α)
    (t : Tensor) : Prop :=
  p = some h.tensors.length ∧ h2.tensors = h.tensors ++ [some t] ∧
  t.ndims = ndims ∧ (∀ i : Nat, i < ndims.toNat → t.shape[i]? = shape[i]?) ∧
  t.length = wrap32 (shapeProd ndims.toNat shape) ∧ t.offset = 0 ∧
  (∃ d b, t.data = some d ∧ h.datas[d]? = none ∧ h2.datas[d]? = some b ∧
    b.elems.length = t.length.toNat ∧ b.refcount = 1 ∧ b.freed = false) ∧
  (∀ e : Nat, e < h.datas.length → h2.datas[e]? = h.datas[e]?)
/-! ## Basic facts: outcomes, loops, machine integers -/

@[simp] theorem bind_ok {ε σ τ : Type} (a : σ) (f : σ → Except ε τ) :
    (Except.ok a >>= f) = f a := rfl

@[simp] theorem bind_error {ε σ τ : Type} (e : ε) (f : σ → Except ε τ) :
    ((Except.error e : Except ε σ) >>= f) = Except.error e := rfl

@[simp] theorem pure_eq_ok {ε σ : Type} (a : σ) : (pure a : Except ε σ) = Except.ok a := rfl

@[simp] theorem forLoop_zero {ε σ : Type} (body : Nat → σ → Except ε σ) (s : σ) :
    forLoop 0 body s = Except.ok s := rfl

theorem forLoop_succ {ε σ : Type} (n : Nat) (body : Nat → σ → Except ε σ) (s : σ) :
    forLoop (n + 1) body s = forLoop n body s >>= body n := by
  unfold forLoop
  rw [List.range_succ, List.foldlM_append]
  congr 1
  funext st
  simp only [List.foldlM, bind_pure]

/-- Loop rule: an invariant indexed by the number of completed iterations. -/
theorem forLoop_inv {ε σ : Type} (P : Nat → σ → Prop) (n : Nat)
    (body : Nat → σ → Except ε σ) (s : σ) (h0 : P 0 s)
    (hstep : ∀ i st, i < n → P i st → ∃ st', body i st = Except.ok st' ∧ P (i + 1) st') :
    ∃ st', forLoop n body s = Except.ok st' ∧ P n st' := by
  induction n with
  | zero => exact ⟨s, rfl, h0⟩
  | succ k ih =>
    obtain ⟨s1, e1, p1⟩ := ih (fun i st hi hp => hstep i st (Nat.lt_succ_of_lt hi) hp)
    obtain ⟨s2, e2, p2⟩ := hstep k s1 (Nat.lt_succ_self k) p1
    exact ⟨s2, by rw [forLoop_succ, e1]; exact e2, p2⟩

theorem wrap32_eq (x : Int) (h0 : -2147483648 ≤ x) (h1 : x ≤ 2147483647) : wrap32 x = x := by
  unfold wrap32
  omega

theorem idx_lt (i j m n : Nat) (hi : i < m) (hj : j < n) : i * n + j < m * n := by
  calc i * n + j < i * n + n := by omega
    _ = (i + 1) * n := by ring
    _ ≤ m * n := Nat.mul_le_mul_right n hi

/-- The flattened index of a row-major position determines the position. -/
theorem idx_inj (i j i2 j2 n : Nat) (hj : j < n) (hj2 : j2 < n)
    (h : i * n + j = i2 * n + j2) : i = i2 ∧ j = j2 := by
  have hn : 0 < n := by omega
  have e1 : (i * n + j) / n = i := by
    rw [Nat.add_comm, Nat.add_mul_div_right _ _ hn, Nat.div_eq_of_lt hj, Nat.zero_add]
  have e2 : (i2 * n + j2) / n = i2 := by
    rw [Nat.add_comm, Nat.add_mul_div_right _ _ hn, Nat.div_eq_of_lt hj2, Nat.zero_add]
  have hi : i = i2 := by rw [← e1, ← e2, h]
  subst hi
  exact ⟨rfl, by omega⟩

/-! ## Memory cells -/

theorem buffer_some (h : Heap α) (a : Nat) :
    h.buffer (some a) = match h.datas[a]? with
      | some b => if b.freed then Except.error (Fault.undef, h) else Except.ok (a, b)
      | none => Except.error (Fault.undef, h) := rfl

theorem rawGet_eq (h : Heap α) (p : RawPtr) (i : Int) :
    rawGet h p i = match h.cell p.buf (p.off + i) with
      | some v => Except.ok v
      | none => Except.error (Fault.undef, h) := by
  unfold rawGet data_get Heap.cell
  rw [buffer_some]
  cases hd : h.datas[p.buf]? with
  | none => simp
  | some d =>
    by_cases hf : d.freed = true
    · simp [hf]
    · by_cases hi : p.off + i < 0
      · simp [hf, hi]
      · simp only [hf, hi]
        cases he : d.elems[(p.off + i).toNat]? <;> simp [he]

theorem rawGet_of_cell (h : Heap α) (p : RawPtr) (i : Int) (v : α)
    (hc : h.cell p.buf (p.off + i) = some v) : rawGet h p i = Except.ok v := by
  rw [rawGet_eq, hc]

theorem rawSet_ok (h : Heap α) (p : RawPtr) (i : Int) (v : α)
    (hc : (h.cell p.buf (p.off + i)).isSome) :
    ∃ h', rawSet h p i v = Except.ok h' ∧ h'.tensors = h.tensors ∧
      ∀ b j, h'.cell b j = if b = p.buf ∧ j = p.off + i then some v else h.cell b j := by
  unfold rawSet data_insert
  rw [buffer_some]
  unfold Heap.cell at hc
  cases hd : h.datas[p.buf]? with
  | none => simp [hd] at hc
  | some d =>
    rw [hd] at hc
    by_cases hf : d.freed = true
    · simp [hf] at hc
    · by_cases hi : p.off + i < 0
      · simp [hf, hi] at hc
      · simp only [hf, hi, if_false] at hc
        have hlt : (p.off + i).toNat < d.elems.length := by
          rcases lt_or_ge (p.off + i).toNat d.elems.length with h1 | h1
          · exact h1
          · rw [List.getElem?_eq_none h1] at hc; simp at hc
        have hb : p.buf < h.datas.length := by
          rcases lt_or_ge p.buf h.datas.length with h1 | h1
          · exact h1
          · rw [List.getElem?_eq_none h1] at hd; simp at hd
        refine ⟨{ h with datas := h.datas.set p.buf ⟨d.elems.set (p.off + i).toNat v, d.refcount, d.freed⟩ },
          by simp [hf, hi, hlt], rfl, ?_⟩
        intro b j
        unfold Heap.cell
        simp only [List.getElem?_set]
        by_cases hbb : p.buf = b
        · subst hbb
          simp only [hb, if_true, hd, true_and, hf]
          by_cases hj : j = p.off + i
          · subst hj
            simp [hi, hlt]
          · simp only [hj, if_false]
            by_cases hj0 : j < 0
            · simp [hj0]
            · have : (p.off + i).toNat ≠ j.toNat := by omega
              simp [hj0, List.getElem?_set, this]
        · have hbb2 : ¬ b = p.buf := fun e => hbb e.symm
          simp [hbb, hbb2]

/-! ## The matrix kernel -/

theorem wrap_idx (i j m n : Nat) (hi : i < m) (hj : j < n) (hmn : m * n ≤ 2147483647) :
    wrap32 (wrap32 ((i : Int) * (n : Int)) + (j : Int)) = ((i * n + j : Nat) : Int) := by
  have h1 := idx_lt i j m n hi hj
  have h2 : i * n ≤ i * n + j := Nat.le_add_right _ _
  have e0 : (i : Int) * (n : Int) = ((i * n : Nat) : Int) := by push_cast; rfl
  rw [e0, wrap32_eq ((i * n : Nat) : Int) (by omega) (by omega),
    wrap32_eq _ (by omega) (by omega)]
  push_cast; rfl

theorem zero_phase [Zero α] (h : Heap α) (c : RawPtr) (m n : Nat)
    (hmn : m * n ≤ 2147483647)
    (hC : ∀ z : Nat, z < m * n → (h.cell c.buf (c.off + z)).isSome) :
    ∃ h1, forLoop m (fun i h =>
        forLoop n (fun j h => rawSet h c (wrap32 (wrap32 ((i : Int) * (n : Int)) + (j : Int))) 0) h) h
          = Except.ok h1 ∧ Zeroed h c (m * n) h1 := by
  have hfin := forLoop_inv (fun i st => Zeroed h c (i * n) st) m
    (fun i h => forLoop n (fun j h =>
      rawSet h c (wrap32 (wrap32 ((i : Int) * (n : Int)) + (j : Int))) 0) h) h
    (by refine ⟨rfl, ?_, ?_⟩
        · intro z hz; simp at hz
        · intro bb idx _; rfl)
    (by
      intro i st hi hst
      have hin := forLoop_inv (fun j st => Zeroed h c (i * n + j) st) n
        (fun j h => rawSet h c (wrap32 (wrap32 ((i : Int) * (n : Int)) + (j : Int))) 0) st
        (by simpa using hst)
        (by
          intro j s2 hj hs2
          obtain ⟨ht, hz, hfr⟩ := hs2
          have hlt := idx_lt i j m n hi hj
          have hcell : (s2.cell c.buf (c.off + ((i * n + j : Nat) : Int))).isSome := by
            rw [hfr]
            · exact hC _ hlt
            · rintro ⟨_, z, hz1, hz2⟩
              omega
          obtain ⟨s3, e3, t3, c3⟩ := rawSet_ok s2 c ((i * n + j : Nat) : Int) 0 hcell
          refine ⟨s3, by show rawSet s2 c _ 0 = _; rw [wrap_idx i j m n hi hj hmn]; exact e3,
            t3.trans ht, ?_, ?_⟩
          · intro z hz1
            rw [c3]
            by_cases hzz : z = i * n + j
            · subst hzz; simp
            · have : ¬ (c.off + (z : Int) = c.off + ((i * n + j : Nat) : Int)) := by omega
              simp only [this, and_false, if_false]
              exact hz z (by omega)
          · intro bb idx hno
            rw [c3]
            have : ¬ (bb = c.buf ∧ idx = c.off + ((i * n + j : Nat) : Int)) := by
              rintro ⟨e1, e2⟩
              exact hno ⟨e1, i * n + j, by omega, e2⟩
            simp only [this, if_false]
            apply hfr
            rintro ⟨e1, z, hz1, hz2⟩
            exact hno ⟨e1, z, by omega, hz2⟩)
      obtain ⟨s4, e4, p4⟩ := hin
      refine ⟨s4, e4, ?_⟩
      have : (i + 1) * n = i * n + n := by ring
      show Zeroed h c ((i + 1) * n) s4
      rw [this]; exact p4)
  exact hfin

theorem accum_cell [Semiring α] (h : Heap α) (a b c : RawPtr) (m p n : Nat) (A B : Nat → α)
    (hmp : m * p ≤ 2147483647) (hpn : p * n ≤ 2147483647) (hmn : m * n ≤ 2147483647)
    (hA : ∀ x : Nat, x < m * p → h.cell a.buf (a.off + x) = some (A x))
    (hB : ∀ y : Nat, y < p * n → h.cell b.buf (b.off + y) = some (B y))
    (hac : ∀ x z : Nat, x < m * p → z < m * n → ¬ (a.buf = c.buf ∧ a.off + x = c.off + z))
    (hbc : ∀ y z : Nat, y < p * n → z < m * n → ¬ (b.buf = c.buf ∧ b.off + y = c.off + z))
    (i j : Nat) (hi : i < m) (hj : j < n) (st : Heap α)
    (hst : Accum h c A B m p n (i * n + j) st) :
    ∃ s2, forLoop p (fun k h => do
        let z ← rawGet h c (wrap32 (wrap32 ((i : Int) * (n : Int)) + (j : Int)))
        let x ← rawGet h a (wrap32 (wrap32 ((i : Int) * (p : Int)) + (k : Int)))
        let y ← rawGet h b (wrap32 (wrap32 ((k : Int) * (n : Int)) + (j : Int)))
        rawSet h c (wrap32 (wrap32 ((i : Int) * (n : Int)) + (j : Int))) (z + x * y)) st
          = Except.ok s2 ∧ Accum h c A B m p n (i * n + j + 1) s2 := by
  have hlt := idx_lt i j m n hi hj
  obtain ⟨ht0, hdone0, hzero0, hfr0⟩ := hst
  have hin := forLoop_inv (fun k st => AccumAt h c A B m p n i j k st) p
    (fun k h => do
        let z ← rawGet h c (wrap32 (wrap32 ((i : Int) * (n : Int)) + (j : Int)))
        let x ← rawGet h a (wrap32 (wrap32 ((i : Int) * (p : Int)) + (k : Int)))
        let y ← rawGet h b (wrap32 (wrap32 ((k : Int) * (n : Int)) + (j : Int)))
        rawSet h c (wrap32 (wrap32 ((i : Int) * (n : Int)) + (j : Int))) (z + x * y)) st
    (by
      refine ⟨ht0, hdone0, ?_, ?_, hfr0⟩
      · simpa using hzero0 (i * n + j) (le_refl _) hlt
      · intro z hz1 hz2
        exact hzero0 z (by omega) hz2)
    (by
      intro k s1 hk hs1
      obtain ⟨ht, hdone, hcur, hzero, hfr⟩ := hs1
      have hx : s1.cell a.buf (a.off + ((i * p + k : Nat) : Int)) = some (A (i * p + k)) := by
        have hl := idx_lt i k m p hi hk
        rw [hfr]
        · exact hA _ hl
        · rintro ⟨e1, z, hz1, hz2⟩
          exact hac _ z hl hz1 ⟨e1, hz2⟩
      have hy : s1.cell b.buf (b.off + ((k * n + j : Nat) : Int)) = some (B (k * n + j)) := by
        have hl := idx_lt k j p n hk hj
        rw [hfr]
        · exact hB _ hl
        · rintro ⟨e1, z, hz1, hz2⟩
          exact hbc _ z hl hz1 ⟨e1, hz2⟩
      obtain ⟨s2, e2, t2, c2⟩ := rawSet_ok s1 c ((i * n + j : Nat) : Int)
        ((∑ q in Finset.range k, A (i * p + q) * B (q * n + j)) + A (i * p + k) * B (k * n + j))
        (by rw [hcur]; rfl)
      refine ⟨s2, ?_, t2.trans ht, ?_, ?_, ?_, ?_⟩
      · show (rawGet s1 c _ >>= fun z => rawGet s1 a _ >>= fun x => rawGet s1 b _ >>= fun y =>
          rawSet s1 c _ (z + x * y)) = _
        rw [wrap_idx i j m n hi hj hmn, wrap_idx i k m p hi hk hmp, wrap_idx k j p n hk hj hpn,
          rawGet_of_cell _ _ _ _ hcur, bind_ok, rawGet_of_cell _ _ _ _ hx, bind_ok,
          rawGet_of_cell _ _ _ _ hy, bind_ok]
        exact e2
      · intro i2 j2 hj2 hl2
        rw [c2]
        have : ¬ (c.off + ((i2 * n + j2 : Nat) : Int) = c.off + ((i * n + j : Nat) : Int)) := by
          omega
        simp only [this, and_false, if_false]
        exact hdone i2 j2 hj2 hl2
      · rw [c2, Finset.sum_range_succ]
        simp
      · intro z hz1 hz2
        rw [c2]
        have : ¬ (c.off + (z : Int) = c.off + ((i * n + j : Nat) : Int)) := by omega
        simp only [this, and_false, if_false]
        exact hzero z hz1 hz2
      · intro bb idx hno
        rw [c2]
        have : ¬ (bb = c.buf ∧ idx = c.off + ((i * n + j : Nat) : Int)) := by
          rintro ⟨e1, e2⟩
          exact hno ⟨e1, i * n + j, hlt, e2⟩
        simp only [this, if_false]
        exact hfr bb idx hno)
  obtain ⟨s2, e2, ht, hdone, hcur, hzero, hfr⟩ := hin
  refine ⟨s2, e2, ht, ?_, ?_, hfr⟩
  · intro i2 j2 hj2 hl2
    by_cases heq : i2 * n + j2 = i * n + j
    · obtain ⟨ei, ej⟩ := idx_inj i2 j2 i j n hj2 hj heq
      subst ei; subst ej
      exact hcur
    · exact hdone i2 j2 hj2 (by omega)
  · intro z hz1 hz2
    exact hzero z (by omega) hz2

theorem accum_phase [Semiring α] (h : Heap α) (a b c : RawPtr) (m p n : Nat) (A B : Nat → α)
    (hmp : m * p ≤ 2147483647) (hpn : p * n ≤ 2147483647) (hmn : m * n ≤ 2147483647)
    (hA : ∀ x : Nat, x < m * p → h.cell a.buf (a.off + x) = some (A x))
    (hB : ∀ y : Nat, y < p * n → h.cell b.buf (b.off + y) = some (B y))
    (hac : ∀ x z : Nat, x < m * p → z < m * n → ¬ (a.buf = c.buf ∧ a.off + x = c.off + z))
    (hbc : ∀ y z : Nat, y < p * n → z < m * n → ¬ (b.buf = c.buf ∧ b.off + y = c.off + z))
    (st : Heap α) (hst : Accum h c A B m p n 0 st) :
    ∃ s2, forLoop m (fun i h => forLoop n (fun j h => forLoop p (fun k h => do
        let z ← rawGet h c (wrap32 (wrap32 ((i : Int) * (n : Int)) + (j : Int)))
        let x ← rawGet h a (wrap32 (wrap32 ((i : Int) * (p : Int)) + (k : Int)))
        let y ← rawGet h b (wrap32 (wrap32 ((k : Int) * (n : Int)) + (j : Int)))
        rawSet h c (wrap32 (wrap32 ((i : Int) * (n : Int)) + (j : Int))) (z + x * y)) h) h) st
          = Except.ok s2 ∧ Accum h c A B m p n (m * n) s2 := by
  refine forLoop_inv (fun i st => Accum h c A B m p n (i * n) st) m _ st (by simpa using hst) ?_
  intro i s1 hi hs1
  have hin := forLoop_inv (fun j st => Accum h c A B m p n (i * n + j) st) n
    (fun j h => forLoop p (fun k h => do
        let z ← rawGet h c (wrap32 (wrap32 ((i : Int) * (n : Int)) + (j : Int)))
        let x ← rawGet h a (wrap32 (wrap32 ((i : Int) * (p : Int)) + (k : Int)))
        let y ← rawGet h b (wrap32 (wrap32 ((k : Int) * (n : Int)) + (j : Int)))
        rawSet h c (wrap32 (wrap32 ((i : Int) * (n : Int)) + (j : Int))) (z + x * y)) h) s1
    (by simpa using hs1)
    (fun j s2 hj hs2 => accum_cell h a b c m p n A B hmp hpn hmn hA hB hac hbc i j hi hj s2 hs2)
  obtain ⟨s3, e3, p3⟩ := hin
  refine ⟨s3, e3, ?_⟩
  have : (i + 1) * n = i * n + n := by ring
  show Accum h c A B m p n ((i + 1) * n) s3
  rw [this]; exact p3

/-- The kernel `matrix_multiplication` on `m × p` and `p × n` operands whose
ranges are readable and do not meet the writable range of `c`: it returns, each
cell `(i, j)` of `c` holds the sum of the products, and nothing outside `c` changes. -/
theorem matrix_multiplication_spec [Semiring α] (h : Heap α) (a b c : RawPtr) (m p n : Nat)
    (A B : Nat → α)
    (hmp : m * p ≤ 2147483647) (hpn : p * n ≤ 2147483647) (hmn : m * n ≤ 2147483647)
    (hA : ∀ x : Nat, x < m * p → h.cell a.buf (a.off + x) = some (A x))
    (hB : ∀ y : Nat, y < p * n → h.cell b.buf (b.off + y) = some (B y))
    (hC : ∀ z : Nat, z < m * n → (h.cell c.buf (c.off + z)).isSome)
    (hac : ∀ x z : Nat, x < m * p → z < m * n → ¬ (a.buf = c.buf ∧ a.off + x = c.off + z))
    (hbc : ∀ y z : Nat, y < p * n → z < m * n → ¬ (b.buf = c.buf ∧ b.off + y = c.off + z)) :
    ∃ h2, matrix_multiplication h a b c m p n = Except.ok h2 ∧ h2.tensors = h.tensors ∧
      (∀ i j : Nat, i < m → j < n →
        h2.cell c.buf (c.off + ((i * n + j : Nat) : Int))
          = some (∑ k in Finset.range p, A (i * p + k) * B (k * n + j))) ∧
      (∀ bb idx, ¬ (bb = c.buf ∧ ∃ z : Nat, z < m * n ∧ idx = c.off + z) →
        h2.cell bb idx = h.cell bb idx) := by
  obtain ⟨h1, e1, t1, z1, f1⟩ := zero_phase h c m n hmn hC
  have hacc0 : Accum h c A B m p n 0 h1 := by
    refine ⟨t1, ?_, ?_, ?_⟩
    · intro i j _ hl; omega
    · intro z _ hz; exact z1 z hz
    · intro bb idx hno; exact f1 bb idx hno
  obtain ⟨h2, e2, t2, d2, _, f2⟩ :=
    accum_phase h a b c m p n A B hmp hpn hmn hA hB hac hbc h1 hacc0
  refine ⟨h2, ?_, t2, ?_, f2⟩
  · unfold matrix_multiplication
    simp only [Int.toNat_ofNat]
    rw [e1, bind_ok]
    exact e2
  · intro i j hi hj
    exact d2 i j hj (idx_lt i j m n hi hj)

/-! ## Well-formed rank-2 tensors -/

@[simp] theorem TENSOR_CHECK_false (h : Heap α) : TENSOR_CHECK h false = Except.ok () := rfl

@[simp] theorem TENSOR_CHECK_true (h : Heap α) :
    TENSOR_CHECK h true = Except.error (Fault.fatal, h) := rfl

@[simp] theorem c_assert_true (h : Heap α) : c_assert h true = Except.ok () := rfl

@[simp] theorem c_assert_false (h : Heap α) :
    c_assert h false = Except.error (Fault.assertion, h) := rfl

theorem arrGet_of (h : Heap α) (l : List Int) (i : Nat) (v : Int) (hv : l[i]? = some v) :
    arrGet h l i = Except.ok v := by
  unfold arrGet; rw [hv]

theorem cell_of_buffer (h : Heap α) (d : Nat) (b : Data α) (hb : h.datas[d]? = some b)
    (hf : b.freed = false) (x : Nat) (hx : x < b.elems.length) :
    h.cell d (x : Int) = some (b.elems.get ⟨x, hx⟩) := by
  unfold Heap.cell
  rw [hb]
  have : ¬ ((x : Int) < 0) := by omega
  simp [hf, this, List.getElem?_eq_getElem hx]

/-- Every logical element of a well-formed tensor is a readable cell. -/
theorem View.cell_isSome {h : Heap α} {p : TPtr} {t : Tensor} {r c : Nat}
    (v : View h p t r c) (d : Nat) (hd : t.data = some d) (x : Nat) (hx : x < r * c) :
    (h.cell d (t.offset + x)).isSome := by
  obtain ⟨d2, b, e1, e2, e3, e4, _⟩ := v.buf
  rw [hd] at e1
  cases e1
  have hoff := v.off
  have hlen := v.len
  have hx2 : ((x : Nat) : Int) < (r : Int) * (c : Int) := by exact_mod_cast hx
  have hb : (t.offset + x).toNat < b.elems.length := by omega
  have := cell_of_buffer h d b e2 e3 (t.offset + x).toNat hb
  rw [Int.toNat_of_nonneg (by omega)] at this
  rw [this]; rfl

theorem View.len_le {h : Heap α} {p : TPtr} {t : Tensor} {r c : Nat}
    (v : View h p t r c) : r * c ≤ 2147483647 := by
  obtain ⟨d2, b, e1, e2, e3, e4, e5⟩ := v.buf
  have hoff := v.off
  have hlen := v.len
  have : ((r * c : Nat) : Int) ≤ 2147483647 := by push_cast; omega
  exact_mod_cast this

theorem View.data_ptr {h : Heap α} {p : TPtr} {t : Tensor} {r c : Nat}
    (v : View h p t r c) (d : Nat) (hd : t.data = some d) :
    tensor_data h p = Except.ok { buf := d, off := t.offset } := by
  obtain ⟨d2, b, e1, e2, e3, e4, _⟩ := v.buf
  rw [hd] at e1
  cases e1
  unfold tensor_data data_raw_ptr
  rw [v.live, bind_ok, hd, buffer_some, e2]
  simp [e3]

/-- Reading a logical element through `tensor_get_at_` is reading its cell. -/
theorem tensor_get_at_of_cell (h : Heap α) (p : TPtr) (t : Tensor) (d : Nat) (x : Nat) (v : α)
    (hl : h.tensor p = Except.ok t) (hd : t.data = some d) (hx : (x : Int) < t.length)
    (hoff : 0 ≤ t.offset) (hmax : t.offset + t.length ≤ 2147483648)
    (hc : h.cell d (t.offset + x) = some v) :
    tensor_get_at_ h p x = Except.ok v := by
  unfold tensor_get_at_
  rw [hl, bind_ok]
  have hw : wrap32 ((x : Int) + t.offset) = t.offset + x := by
    rw [wrap32_eq _ (by omega) (by omega)]; ring
  have := rawGet_of_cell h { buf := d, off := 0 } (t.offset + x) v (by simpa using hc)
  unfold rawGet at this
  simp only [zero_add] at this
  simp [hx, hd, hw, this]

theorem tensor_ok_iff (h : Heap α) (p : TPtr) (t : Tensor) :
    h.tensor p = Except.ok t ↔ ∃ a, p = some a ∧ h.tensors[a]? = some (some t) := by
  unfold Heap.tensor
  cases p with
  | none => simp
  | some a =>
    cases hq : h.tensors[a]? with
    | none => simp [hq]
    | some o =>
      cases o with
      | none => simp [hq]
      | some t2 => simp [hq]

theorem tensor_ok_of_tensors_eq (h h2 : Heap α) (e : h2.tensors = h.tensors) (p : TPtr)
    (t : Tensor) (ht : h.tensor p = Except.ok t) : h2.tensor p = Except.ok t := by
  rw [tensor_ok_iff] at ht ⊢
  rw [e]; exact ht

theorem View.ne_none {h : Heap α} {p : TPtr} {t : Tensor} {r c : Nat}
    (v : View h p t r c) : p ≠ none := by
  intro e
  have := v.live
  rw [e] at this
  cases this

/-- Claim C1. For rank-2 tensors `a` of shape `[m, p]`, `b` of shape `[p, n]` and
`dest` of shape `[m, n]` with `dest.length ≠ 1`, the range of `dest` being
disjoint from those of `a` and `b`, `tensor_mat_mul` returns and afterwards the
logical element `i * n + j` of `dest` is the sum over `k < p` of
`a[i * p + k] * b[k * n + j]`, whatever `dest` held before. -/
theorem tensor_mat_mul_general [Semiring α] (h : Heap α) (dest ta tb : TPtr)
    (td a b : Tensor) (m p n : Nat)
    (vd : View h dest td m n) (va : View h ta a m p) (vb : View h tb b p n)
    (hlen : td.length ≠ 1)
    (hda : td.data ≠ a.data ∨ td.offset + td.length ≤ a.offset ∨
      a.offset + a.length ≤ td.offset)
    (hdb : td.data ≠ b.data ∨ td.offset + td.length ≤ b.offset ∨
      b.offset + b.length ≤ td.offset) :
    ∃ (h2 : Heap α) (A B : Nat → α),
      tensor_mat_mul h dest ta tb = Except.ok h2 ∧
      (∀ x : Nat, x < m * p → tensor_get_at_ h ta x = Except.ok (A x)) ∧
      (∀ y : Nat, y < p * n → tensor_get_at_ h tb y = Except.ok (B y)) ∧
      ∀ i j : Nat, i < m → j < n →
        tensor_get_at_ h2 dest ((i * n + j : Nat) : Int)
          = Except.ok (∑ k in Finset.range p, A (i * p + k) * B (k * n + j)) := by
  obtain ⟨dd, bd, ed1, ed2, ed3, ed4, ed5⟩ := vd.buf
  obtain ⟨da, ba, ea1, ea2, ea3, ea4, ea5⟩ := va.buf
  obtain ⟨db, bb, eb1, eb2, eb3, eb4, eb5⟩ := vb.buf
  have hdoff := vd.off
  have haoff := va.off
  have hboff := vb.off
  have hdlen := vd.len
  have halen := va.len
  have hblen := vb.len
  have hcA : ∀ x : Nat, x < m * p → h.cell da (a.offset + x)
      = some ((h.cell da (a.offset + x)).getD 0) := by
    intro x hx
    have := va.cell_isSome da ea1 x hx
    cases hc : h.cell da (a.offset + x) with
    | none => rw [hc] at this; cases this
    | some v => rfl
  have hcB : ∀ y : Nat, y < p * n → h.cell db (b.offset + y)
      = some ((h.cell db (b.offset + y)).getD 0) := by
    intro y hy
    have := vb.cell_isSome db eb1 y hy
    cases hc : h.cell db (b.offset + y) with
    | none => rw [hc] at this; cases this
    | some v => rfl
  obtain ⟨h2, e2, t2, r2, _⟩ := matrix_multiplication_spec h
    { buf := da, off := a.offset } { buf := db, off := b.offset } { buf := dd, off := td.offset }
    m p n (fun x => (h.cell da (a.offset + x)).getD 0) (fun y => (h.cell db (b.offset + y)).getD 0)
    va.len_le vb.len_le vd.len_le hcA hcB (fun z hz => vd.cell_isSome dd ed1 z hz)
    (by
      intro x z hx hz
      have hx2 : ((x : Nat) : Int) < (m : Int) * (p : Int) := by exact_mod_cast hx
      have hz2 : ((z : Nat) : Int) < (m : Int) * (n : Int) := by exact_mod_cast hz
      rintro ⟨e1, e2⟩
      simp only at e1 e2
      rcases hda with h1 | h1 | h1
      · apply h1; rw [ed1, ea1, e1]
      · omega
      · omega)
    (by
      intro y z hy hz
      have hy2 : ((y : Nat) : Int) < (p : Int) * (n : Int) := by exact_mod_cast hy
      have hz2 : ((z : Nat) : Int) < (m : Int) * (n : Int) := by exact_mod_cast hz
      rintro ⟨e1, e2⟩
      simp only at e1 e2
      rcases hdb with h1 | h1 | h1
      · apply h1; rw [ed1, eb1, e1]
      · omega
      · omega)
  refine ⟨h2, fun x => (h.cell da (a.offset + x)).getD 0,
    fun y => (h.cell db (b.offset + y)).getD 0, ?_, ?_, ?_, ?_⟩
  · unfold tensor_mat_mul
    have hne := vd.ne_none
    simp only [hne, decide_False, TENSOR_CHECK_false, bind_ok, va.live, vb.live, vd.live,
      arrGet_of _ _ _ _ va.shape0, arrGet_of _ _ _ _ va.shape1, arrGet_of _ _ _ _ vb.shape0,
      arrGet_of _ _ _ _ vb.shape1, arrGet_of _ _ _ _ vd.shape0, arrGet_of _ _ _ _ vd.shape1,
      ne_eq, not_true_eq_false, if_false, pure_eq_ok, Bool.false_and, hlen,
      va.data_ptr da ea1, vb.data_ptr db eb1, vd.data_ptr dd ed1]
    exact e2
  · intro x hx
    have hx2 : ((x : Nat) : Int) < (m : Int) * (p : Int) := by exact_mod_cast hx
    exact tensor_get_at_of_cell h ta a da x _ va.live ea1 (by omega) haoff (by omega) (hcA x hx)
  · intro y hy
    have hy2 : ((y : Nat) : Int) < (p : Int) * (n : Int) := by exact_mod_cast hy
    exact tensor_get_at_of_cell h tb b db y _ vb.live eb1 (by omega) hboff (by omega) (hcB y hy)
  · intro i j hi hj
    have hz := idx_lt i j m n hi hj
    have hz2 : ((i * n + j : Nat) : Int) < (m : Int) * (n : Int) := by exact_mod_cast hz
    have hl2 : h2.tensor dest = Except.ok td := tensor_ok_of_tensors_eq h h2 t2 dest td vd.live
    exact tensor_get_at_of_cell h2 dest td dd (i * n + j) _ hl2 ed1 (by omega) hdoff (by omega)
      (r2 i j hi hj)

/-! ## Matrix multiplication: examples and the shape check -/

/-- Claim C1 at the input `a = [[1,2],[3,4]]`, `b = [[5,6],[7,8]]` with a `2 × 2`
destination on a buffer of its own. -/
theorem tensor_mat_mul_general_witness :
    ∃ (h2 : Heap Int) (A B : Nat → Int),
      tensor_mat_mul exMat (some 2) (some 0) (some 1) = Except.ok h2 ∧
      (∀ x : Nat, x < 2 * 2 → tensor_get_at_ exMat (some 0) x = Except.ok (A x)) ∧
      (∀ y : Nat, y < 2 * 2 → tensor_get_at_ exMat (some 1) y = Except.ok (B y)) ∧
      ∀ i j : Nat, i < 2 → j < 2 →
        tensor_get_at_ h2 (some 2) ((i * 2 + j : Nat) : Int)
          = Except.ok (∑ k in Finset.range 2, A (i * 2 + k) * B (k * 2 + j)) :=
  tensor_mat_mul_general exMat (some 2) (some 0) (some 1)
    (mkTensor 2 2 2 0) (mkTensor 0 2 2 0) (mkTensor 1 2 2 0) 2 2 2
    ⟨rfl, rfl, rfl, rfl, by decide, by decide, ⟨2, _, rfl, rfl, rfl, by decide, by decide⟩,
      by decide, by decide⟩
    ⟨rfl, rfl, rfl, rfl, by decide, by decide, ⟨0, _, rfl, rfl, rfl, by decide, by decide⟩,
      by decide, by decide⟩
    ⟨rfl, rfl, rfl, rfl, by decide, by decide, ⟨1, _, rfl, rfl, rfl, by decide, by decide⟩,
      by decide, by decide⟩
    (by decide) (Or.inl (by decide)) (Or.inl (by decide))

/-- The example of the specification: `[[1,2],[3,4]] × [[5,6],[7,8]] = [[19,22],[43,50]]`,
whatever the destination held. -/
theorem tensor_mat_mul_example :
    tensor_mat_mul exMat (some 2) (some 0) (some 1) = Except.ok
      { exMat with datas := [⟨[1, 2, 3, 4], 1, false⟩, ⟨[5, 6, 7, 8], 1, false⟩,
          ⟨[19, 22, 43, 50], 1, false⟩] } := by
  rfl

/-- Claim C2 fails on the code: a destination of shape `[2, 3]` for operands of
shape `[2, 2]` disagrees with `[a.shape[0], b.shape[1]]` on its second axis, yet
`tensor_mat_mul` does not take the fatal path; it returns, having written four
cells of the destination. -/
theorem tensor_mat_mul_accepts_mismatch :
    (∃ td b, exMismatch.tensor (some 2) = Except.ok td ∧
      exMismatch.tensor (some 1) = Except.ok b ∧ td.shape[1]? = some 3 ∧ b.shape[1]? = some 2) ∧
    tensor_mat_mul exMismatch (some 2) (some 0) (some 1) = Except.ok
      { exMismatch with datas := [⟨[1, 2, 3, 4], 1, false⟩, ⟨[5, 6, 7, 8], 1, false⟩,
          ⟨[19, 22, 43, 50, 9, 9], 1, false⟩] } :=
  ⟨⟨_, _, rfl, rfl, rfl, rfl⟩, rfl⟩

/-- Claim C3 fails on the code. With `a = [1,2,3]` of shape `[1, 3]`,
`b = [[4,5],[6,7],[8,9]]` of shape `[3, 2]` and a `1 × 1` destination the call is
accepted and the shortcut stores `32`, while the sum over `k` of
`a[0,k] * b[k,0]` is `40`. With `a` of shape `[2, 3]` and `b` of shape `[3, 1]`
the call is accepted too and the shortcut reads `b[3]`, beyond the three
elements of `b`. -/
theorem tensor_mat_mul_shortcut_diverges :
    (tensor_mat_mul exDotWide (some 2) (some 0) (some 1) = Except.ok
      { exDotWide with datas := [⟨[1, 2, 3], 1, false⟩, ⟨[4, 5, 6, 7, 8, 9], 1, false⟩,
          ⟨[32], 1, false⟩] }) ∧
    (∃ A B : Nat → Int,
      (∀ x : Nat, x < 3 → tensor_get_at_ exDotWide (some 0) x = Except.ok (A x)) ∧
      (∀ y : Nat, y < 6 → tensor_get_at_ exDotWide (some 1) y = Except.ok (B y)) ∧
      ∑ k in Finset.range 3, A (0 * 3 + k) * B (k * 2 + 0) = 40) ∧
    tensor_mat_mul exDotTall (some 2) (some 0) (some 1)
      = Except.error (Fault.undef, exDotTall) := by
  refine ⟨rfl, ⟨fun x => [1, 2, 3].getD x 0, fun y => [4, 5, 6, 7, 8, 9].getD y 0, ?_, ?_, ?_⟩, rfl⟩
  · intro x hx
    interval_cases x <;> rfl
  · intro y hy
    interval_cases y <;> rfl
  · decide

/-- The example of the specification for the scalar path: `[1,2,3] · [4,5,6] = 32`. -/
theorem tensor_mat_mul_dot_example :
    tensor_mat_mul exDot (some 2) (some 0) (some 1) = Except.ok
      { exDot with datas := [⟨[1, 2, 3], 1, false⟩, ⟨[4, 5, 6], 1, false⟩, ⟨[32], 1, false⟩] } := by
  rfl

/-! ## Lengths and shapes -/

theorem bind_eq_ok {ε σ τ : Type} (x : Except ε σ) (f : σ → Except ε τ) (b : τ) :
    (x >>= f) = Except.ok b ↔ ∃ a, x = Except.ok a ∧ f a = Except.ok b := by
  cases x with
  | error e => simp
  | ok a => simp

theorem wrap32_mul_left (x y : Int) : wrap32 (wrap32 x * y) = wrap32 (x * y) := by
  have key : wrap32 x = x - 4294967296 * ((x + 2147483648) / 4294967296) := by
    unfold wrap32
    have := Int.emod_add_ediv (x + 2147483648) 4294967296
    omega
  have e : wrap32 x * y + 2147483648
      = (x * y + 2147483648) + 4294967296 * (-((x + 2147483648) / 4294967296) * y) := by
    rw [key]; ring
  unfold wrap32 at *
  rw [e, Int.add_mul_emod_self_left]

theorem shapeProd_succ (n : Nat) (shape : List Int) (v : Int) (hv : shape[n]? = some v) :
    shapeProd (n + 1) shape = shapeProd n shape * v := by
  unfold shapeProd
  rw [List.take_succ, hv]
  simp

theorem getElem?_of_lt (l : List Int) (i : Nat) (hi : i < l.length) :
    ∃ v, l[i]? = some v := ⟨l[i], List.getElem?_eq_getElem hi⟩

/-- `calculate_length` returns the product of the first `ndims` components,
reduced to the range of an `int`. -/
theorem calculate_length_eq (h : Heap α) (ndims : Int) (shape : List Int)
    (hn : ndims.toNat ≤ shape.length) :
    calculate_length h ndims shape = Except.ok (wrap32 (shapeProd ndims.toNat shape)) := by
  unfold calculate_length
  obtain ⟨r, e, p⟩ := forLoop_inv (ε := Fault × Heap α)
    (fun i len => i ≤ ndims.toNat → len = wrap32 (shapeProd i shape)) ndims.toNat
    (fun i length => do
      let v ← arrGet h shape i
      pure (wrap32 (length * v))) 1
    (by intro _; simp [shapeProd]; rfl)
    (by
      intro i len hi hp
      obtain ⟨v, hv⟩ := getElem?_of_lt shape i (by omega)
      refine ⟨wrap32 (len * v), ?_, ?_⟩
      · simp [arrGet_of h shape i v hv]
      · intro _
        rw [hp (by omega), wrap32_mul_left, shapeProd_succ i shape v hv])
  rw [e, p (le_refl _)]

/-- The loop that copies the first `n` components of a shape array. -/
theorem shape_copy_eq (h : Heap α) (n : Nat) (shape : List Int) (t : Tensor)
    (hs : n ≤ shape.length) (ht : n ≤ t.shape.length) :
    forLoop n (fun i (t : Tensor) => do
      let v ← arrGet h shape i
      let s ← arrSet h t.shape i v
      pure { t with shape := s }) t
      = Except.ok { t with shape := shape.take n ++ t.shape.drop n } := by
  obtain ⟨r, e, p⟩ := forLoop_inv (ε := Fault × Heap α)
    (fun i (u : Tensor) => i ≤ n → u = { t with shape := shape.take i ++ t.shape.drop i }) n
    (fun i (t : Tensor) => do
      let v ← arrGet h shape i
      let s ← arrSet h t.shape i v
      pure { t with shape := s }) t
    (by intro _; simp)
    (by
      intro i u hi hp
      obtain ⟨v, hv⟩ := getElem?_of_lt shape i (by omega)
      have hu := hp (by omega)
      have hlen : i < u.shape.length := by
        rw [hu]; simp; omega
      refine ⟨{ u with shape := u.shape.set i v }, ?_, ?_⟩
      · simp [arrGet_of h shape i v hv, arrSet, hlen]
      · intro _
        rw [hu]
        simp only [Tensor.mk.injEq, true_and, and_true]
        rw [List.take_succ, hv]
        have h1 : (List.take i shape).length = i := by simp; omega
        rw [List.set_append]
        simp only [h1, lt_self_iff_false, if_false, Nat.sub_self]
        rw [List.drop_eq_getElem_cons (by omega), List.set_cons_zero]
        simp)
  rw [e, p (le_refl _)]

/-! ## Elementary heap operations -/

theorem data_dec_ok (h : Heap α) (d : Nat) (b : Data α) (hb : h.datas[d]? = some b)
    (hf : b.freed = false) :
    data_dec h (some d) = Except.ok { h with datas := decAt h.datas d } := by
  unfold data_dec decAt
  rw [buffer_some, hb]
  simp [hf]

theorem data_inc_ok (h : Heap α) (d : Nat) (b : Data α) (hb : h.datas[d]? = some b)
    (hf : b.freed = false) :
    data_inc h (some d) = Except.ok { h with datas := incAt h.datas d } := by
  unfold data_inc incAt
  rw [buffer_some, hb]
  simp [hf]

theorem decAt_get (ds : List (Data α)) (d e : Nat) :
    (decAt ds d)[e]? = (ds[e]?).map (fun b =>
      if e = d then { b with refcount := b.refcount - 1, freed := decide (b.refcount - 1 = 0) }
      else b) := by
  unfold decAt
  cases hd : ds[d]? with
  | none =>
    by_cases he : e = d
    · subst he; simp [hd]
    · cases ds[e]? <;> simp [he]
  | some b =>
    simp only [List.getElem?_set]
    by_cases he : d = e
    · subst he
      have hlt : d < ds.length := by
        rcases lt_or_ge d ds.length with h1 | h1
        · exact h1
        · rw [List.getElem?_eq_none h1] at hd; cases hd
      simp [hd, hlt]
    · have he2 : ¬ e = d := fun x => he x.symm
      cases ds[e]? <;> simp [he, he2]

theorem incAt_get (ds : List (Data α)) (d e : Nat) :
    (incAt ds d)[e]? = (ds[e]?).map (fun b =>
      if e = d then { b with refcount := b.refcount + 1 } else b) := by
  unfold incAt
  cases hd : ds[d]? with
  | none =>
    by_cases he : e = d
    · subst he; simp [hd]
    · cases ds[e]? <;> simp [he]
  | some b =>
    simp only [List.getElem?_set]
    by_cases he : d = e
    · subst he
      have hlt : d < ds.length := by
        rcases lt_or_ge d ds.length with h1 | h1
        · exact h1
        · rw [List.getElem?_eq_none h1] at hd; cases hd
      simp [hd, hlt]
    · have he2 : ¬ e = d := fun x => he x.symm
      cases ds[e]? <;> simp [he, he2]

theorem setTensor_ok (h : Heap α) (a : Nat) (t0 t : Tensor)
    (ht : h.tensor (some a) = Except.ok t0) :
    h.setTensor (some a) t = Except.ok { h with tensors := h.tensors.set a (some t) } := by
  rw [tensor_ok_iff] at ht
  obtain ⟨a2, e1, e2⟩ := ht
  cases e1
  unfold Heap.setTensor
  simp [e2]

theorem tensor_set_same (ds : List (Data α)) (ts : List (Option Tensor)) (a : Nat) (t : Tensor)
    (ha : a < ts.length) :
    Heap.tensor { datas := ds, tensors := ts.set a (some t) } (some a) = Except.ok t := by
  rw [tensor_ok_iff]
  exact ⟨a, rfl, by simp [List.getElem?_set, ha]⟩

theorem tensor_lt_length (h : Heap α) (a : Nat) (t : Tensor)
    (ht : h.tensor (some a) = Except.ok t) : a < h.tensors.length := by
  rw [tensor_ok_iff] at ht
  obtain ⟨a2, e1, e2⟩ := ht
  cases e1
  rcases lt_or_ge a h.tensors.length with h1 | h1
  · exact h1
  · rw [List.getElem?_eq_none h1] at e2; cases e2

theorem tensor_set_other (ds : List (Data α)) (ts : List (Option Tensor)) (a : Nat) (o : Option Tensor)
    (q : TPtr) (u : Tensor) (hq : q ≠ some a) :
    Heap.tensor { datas := ds, tensors := ts.set a o } q = Except.ok u
      ↔ Heap.tensor { datas := ds, tensors := ts } q = Except.ok u := by
  rw [tensor_ok_iff, tensor_ok_iff]
  constructor
  · rintro ⟨b, e1, e2⟩
    subst e1
    have : a ≠ b := fun e => hq (by rw [e])
    refine ⟨b, rfl, ?_⟩
    simpa [List.getElem?_set, this] using e2
  · rintro ⟨b, e1, e2⟩
    subst e1
    have : a ≠ b := fun e => hq (by rw [e])
    refine ⟨b, rfl, ?_⟩
    simpa [List.getElem?_set, this] using e2

theorem tensor_datas_irrel (ds ds2 : List (Data α)) (ts : List (Option Tensor)) (q : TPtr)
    (u : Tensor) :
    Heap.tensor { datas := ds, tensors := ts } q = Except.ok u
      ↔ Heap.tensor { datas := ds2, tensors := ts } q = Except.ok u := by
  rw [tensor_ok_iff, tensor_ok_iff]

/-! ## `tensor_clone` -/

theorem tensor_set_size_ok (h : Heap α) (t : Tensor) (ndims : Int) (shape : List Int)
    (length : Int) (hs : ndims.toNat ≤ shape.length) (ht : ndims.toNat ≤ t.shape.length)
    (hl : wrap32 (shapeProd ndims.toNat shape) = length) :
    tensor_set_size h t ndims shape length = Except.ok
      { t with ndims := ndims,
               shape := shape.take ndims.toNat ++ t.shape.drop ndims.toNat,
               length := length } := by
  unfold tensor_set_size
  have e1 := shape_copy_eq h ndims.toNat shape { t with ndims := ndims } hs ht
  simp only [pure_eq_ok] at e1
  simp only [pure_eq_ok, e1, bind_ok, calculate_length_eq h ndims shape hs, hl, decide_True,
    c_assert_true]

theorem Wf.len_le_max {h : Heap α} {p : TPtr} {t : Tensor} (w : Wf h p t) :
    t.length ≤ 2147483647 := by
  obtain ⟨d, b, _, _, _, e4, e5⟩ := w.buf
  have := w.off
  omega

/-- Effect of `tensor_clone(dest, src)` for distinct pointers: the cell of `dest`
takes the descriptor of `src` and the reference counts move with it. -/
theorem tensor_clone_ok (h : Heap α) (a : Nat) (src : TPtr) (t s : Tensor)
    (hne : some a ≠ src) (hs : Wf h src s) (ht : h.tensor (some a) = Except.ok t)
    (hsh : s.ndims.toNat ≤ t.shape.length)
    (hdd : t.data = none ∨ ∃ d b, t.data = some d ∧ h.datas[d]? = some b ∧ b.freed = false) :
    tensor_clone h (some a) src = Except.ok
      { datas := retarget h.datas t.data s.data,
        tensors := h.tensors.set a (some (clonedCell t s)) } := by
  obtain ⟨ds, bs, es1, es2, es3, _, _⟩ := hs.buf
  have hoff := hs.off
  have hlen : wrap32 (shapeProd s.ndims.toNat s.shape) = s.length := by
    rw [← hs.len]
    exact wrap32_eq _ (by have := hs.lenpos; omega) hs.len_le_max
  have halt := tensor_lt_length h a t ht
  unfold tensor_clone
  rw [if_pos hne, hs.live, bind_ok]
  unfold tensor_copy_from_data
  have hno : ¬ (s.offset < 0) := by omega
  simp only [hno, decide_False, TENSOR_CHECK_false, bind_ok, ht]
  by_cases hsame : t.data = s.data
  · simp only [hsame, ne_eq, not_true_eq_false, if_false, pure_eq_ok, bind_ok, ht,
      tensor_set_size_ok h t s.ndims s.shape s.length hs.dims hsh hlen]
    rw [setTensor_ok h a t _ ht]
    simp [retarget, hsame, clonedCell]
  · rcases hdd with hnone | ⟨d, b, ed1, ed2, ed3⟩
    · have hinc := data_inc_ok { h with tensors := h.tensors.set a (some { t with data := s.data }) }
        ds bs es2 es3
      simp only [hsame, ne_eq, not_false_eq_true, if_true, hnone, not_true_eq_false, if_false,
        pure_eq_ok, bind_ok, setTensor_ok h a t _ ht, es1]
      rw [es1] at hinc
      simp only [hinc, bind_ok, tensor_set_same _ _ a _ halt]
      rw [tensor_set_size_ok _ _ s.ndims s.shape s.length hs.dims (by simpa using hsh) hlen]
      simp only [bind_ok]
      rw [setTensor_ok _ a _ _ (tensor_set_same _ _ a _ (by simpa using halt))]
      simp [retarget, hnone, es1, clonedCell]
    · have hdne : d ≠ ds := by
        intro e; apply hsame; rw [ed1, es1, e]
      have hdec := data_dec_ok h d b ed2 ed3
      have hlive2 : (decAt h.datas d)[ds]? = some bs := by
        rw [decAt_get, es2]
        have : ¬ ds = d := fun e => hdne e.symm
        simp [this]
      have hinc := data_inc_ok
        { datas := decAt h.datas d, tensors := h.tensors.set a (some { t with data := s.data }) }
        ds bs hlive2 es3
      have ht2 : Heap.tensor { datas := decAt h.datas d, tensors := h.tensors } (some a)
          = Except.ok t := (tensor_datas_irrel _ _ _ _ _).mp ht
      simp only [hsame, ne_eq, not_false_eq_true, if_true, ed1, reduceCtorEq, pure_eq_ok, bind_ok,
        hdec, setTensor_ok _ a t _ ht2]
      rw [es1] at hinc ⊢
      simp only [hinc, bind_ok, tensor_set_same _ _ a _ halt]
      rw [tensor_set_size_ok _ _ s.ndims s.shape s.length hs.dims (by simpa using hsh) hlen]
      simp only [bind_ok]
      rw [setTensor_ok _ a _ _ (tensor_set_same _ _ a _ (by simpa using halt))]
      have hne2 : ¬ (some d = some ds) := by simpa using hdne
      simp [retarget, ed1, es1, clonedCell, hne2]

theorem retarget_elems (ds : List (Data α)) (old new : Option Nat) (d : Nat) :
    ((retarget ds old new)[d]?).map Data.elems = (ds[d]?).map Data.elems := by
  unfold retarget
  split
  · rfl
  · split
    · rw [incAt_get, decAt_get]
      cases ds[d]? with
      | none => rfl
      | some b => simp only [Option.map_some']; split <;> split <;> rfl
    · rw [incAt_get]
      cases ds[d]? with
      | none => rfl
      | some b => simp only [Option.map_some']; split <;> rfl
    · rfl

theorem take_append_drop_get (l1 l2 : List Int) (n i : Nat) (hi : i < n) (h1 : n ≤ l1.length) :
    (l1.take n ++ l2.drop n)[i]? = l1[i]? := by
  rw [List.getElem?_append_left (by simp; omega), List.getElem?_take_of_lt hi]

/-- Claim C8. After `tensor_clone(dest, src)` the cell of `dest` references the
buffer of `src` and carries the offset, rank, shape components and length of
`src`; the descriptor of `src` and the contents of every buffer are unchanged;
and when `dest` and `src` are the same pointer the heap is unchanged altogether. -/
theorem tensor_clone_alias (h : Heap α) (dest src : TPtr) (t s : Tensor)
    (hs : Wf h src s) (ht : h.tensor dest = Except.ok t)
    (hsh : s.ndims.toNat ≤ t.shape.length)
    (hdd : t.data = none ∨ ∃ d b, t.data = some d ∧ h.datas[d]? = some b ∧ b.freed = false) :
    ∃ h2 t2, tensor_clone h dest src = Except.ok h2 ∧ h2.tensor dest = Except.ok t2 ∧
      t2.data = s.data ∧ t2.offset = s.offset ∧ t2.ndims = s.ndims ∧
      (∀ i : Nat, i < s.ndims.toNat → t2.shape[i]? = s.shape[i]?) ∧
      t2.length = s.length ∧
      h2.tensor src = Except.ok s ∧
      (∀ d : Nat, (h2.datas[d]?).map Data.elems = (h.datas[d]?).map Data.elems) ∧
      (dest = src → h2 = h) := by
  by_cases hne : dest = src
  · subst hne
    have e : t = s := by
      have := hs.live
      rw [ht] at this
      cases this; rfl
    subst e
    refine ⟨h, t, ?_, ht, rfl, rfl, rfl, fun _ _ => rfl, rfl, ht, fun _ => rfl, fun _ => rfl⟩
    unfold tensor_clone
    simp
  · obtain ⟨a, ea, _⟩ := (tensor_ok_iff h dest t).mp ht
    subst ea
    have halt := tensor_lt_length h a t ht
    refine ⟨_, clonedCell t s, tensor_clone_ok h a src t s hne hs ht hsh hdd,
      tensor_set_same _ _ a _ halt, rfl, rfl, rfl, ?_, rfl, ?_, ?_, fun e => absurd e hne⟩
    · intro i hi
      exact take_append_drop_get _ _ _ i hi hs.dims
    · rw [tensor_set_other _ _ a _ src s (fun e => hne e.symm)]
      exact (tensor_datas_irrel _ _ _ _ _).mp hs.live
    · intro d
      exact retarget_elems _ _ _ d

/-! ## `tensor_select` -/

theorem View.toWf {h : Heap α} {p : TPtr} {t : Tensor} {r c : Nat} (v : View h p t r c) :
    Wf h p t := by
  have h0 := v.shape0
  have h1 := v.shape1
  have hlen2 : 2 ≤ t.shape.length := by
    rcases lt_or_ge 1 t.shape.length with h2 | h2
    · omega
    · rw [List.getElem?_eq_none h2] at h1; cases h1
  refine ⟨v.live, by rw [v.rank]; exact hlen2, ?_, ?_, v.off, v.buf⟩
  · rw [v.len, v.rank]
    match hsh : t.shape, hlen2 with
    | x :: y :: rest, _ =>
      rw [hsh] at h0 h1
      simp at h0 h1
      subst h0; subst h1
      simp [shapeProd]
  · rw [v.len]; positivity

theorem tensor_set_set (ds : List (Data α)) (ts : List (Option Tensor)) (a : Nat)
    (o : Option Tensor) (t : Tensor) (ha : a < ts.length) :
    Heap.setTensor { datas := ds, tensors := ts.set a o } (some a) t = Except.ok
      { datas := ds, tensors := ts.set a (some t) } ∨ o = none := by
  cases o with
  | none => right; rfl
  | some u =>
    left
    rw [setTensor_ok _ a u t (tensor_set_same _ _ a _ ha)]
    simp

/-- The four assignments that follow the clone in `tensor_select`, when the
source is a different tensor from the destination. -/
theorem select_tail_other (h1 : Heap α) (a : Nat) (src : TPtr) (u s : Tensor) (c : Nat)
    (index x : Int) (rest : List Int)
    (hu : h1.tensor (some a) = Except.ok u) (hshape : u.shape = x :: (c : Int) :: rest)
    (hnd : u.ndims = 2) (hs : h1.tensor src = Except.ok s) (hs1 : s.shape[1]? = some (c : Int))
    (hne : src ≠ some a) (hw : wrap32 (c : Int) = (c : Int)) :
    (do
      let s ← h1.tensor src
      let s1 ← arrGet h1 s.shape 1
      let t ← h1.tensor (some a)
      let h ← h1.setTensor (some a) { t with offset := wrap32 (t.offset + wrap32 (index * s1)) }
      let s ← h.tensor src
      let s1 ← arrGet h s.shape 1
      let t ← h.tensor (some a)
      let sh ← arrSet h t.shape 0 s1
      let h ← h.setTensor (some a) { t with shape := sh }
      let t ← h.tensor (some a)
      let sh ← arrSet h t.shape 1 1
      let h ← h.setTensor (some a) { t with shape := sh }
      let t ← h.tensor (some a)
      let len ← calculate_length h t.ndims t.shape
      h.setTensor (some a) { t with length := len })
    = Except.ok { h1 with tensors := h1.tensors.set a (some
        { u with offset := wrap32 (u.offset + wrap32 (index * (c : Int))),
                 shape := (c : Int) :: 1 :: rest, length := (c : Int) }) } := by
  have halt := tensor_lt_length h1 a u hu
  have hso : ∀ (o : Option Tensor), Heap.tensor { datas := h1.datas, tensors := h1.tensors.set a o } src
      = Except.ok s := fun o => (tensor_set_other _ _ a o src s hne).mpr hs
  have hcalc : ∀ hh : Heap α, calculate_length hh 2 ((c : Int) :: 1 :: rest) = Except.ok (c : Int) := by
    intro hh
    rw [calculate_length_eq hh 2 _ (by simp)]
    simp [shapeProd, hw]
  simp only [hs, bind_ok, arrGet_of _ _ _ _ hs1, hu, setTensor_ok h1 a u _ hu, hso,
    tensor_set_same _ _ a _ halt, hshape, arrSet, List.length_cons, Nat.zero_lt_succ, if_true,
    List.set_cons_zero]
  simp only [setTensor_ok _ a _ _ (tensor_set_same _ _ a _ halt), List.set_set, bind_ok,
    tensor_set_same _ _ a _ halt, List.length_cons, Nat.one_lt_succ_succ, Nat.lt_add_left_iff_pos,
    Nat.zero_lt_succ, if_true, List.set_cons_succ, List.set_cons_zero, hnd, hcalc]
/-- The four assignments that follow the clone in `tensor_select`, when the
source and the destination are the same tensor. -/
theorem select_tail_same (h1 : Heap α) (a : Nat) (u : Tensor) (c : Nat)
    (index x : Int) (rest : List Int)
    (hu : h1.tensor (some a) = Except.ok u) (hshape : u.shape = x :: (c : Int) :: rest)
    (hnd : u.ndims = 2) (hw : wrap32 (c : Int) = (c : Int)) :
    (do
      let s ← h1.tensor (some a)
      let s1 ← arrGet h1 s.shape 1
      let t ← h1.tensor (some a)
      let h ← h1.setTensor (some a) { t with offset := wrap32 (t.offset + wrap32 (index * s1)) }
      let s ← h.tensor (some a)
      let s1 ← arrGet h s.shape 1
      let t ← h.tensor (some a)
      let sh ← arrSet h t.shape 0 s1
      let h ← h.setTensor (some a) { t with shape := sh }
      let t ← h.tensor (some a)
      let sh ← arrSet h t.shape 1 1
      let h ← h.setTensor (some a) { t with shape := sh }
      let t ← h.tensor (some a)
      let len ← calculate_length h t.ndims t.shape
      h.setTensor (some a) { t with length := len })
    = Except.ok { h1 with tensors := h1.tensors.set a (some
        { u with offset := wrap32 (u.offset + wrap32 (index * (c : Int))),
                 shape := (c : Int) :: 1 :: rest, length := (c : Int) }) } := by
  have halt := tensor_lt_length h1 a u hu
  have hs1 : u.shape[1]? = some (c : Int) := by rw [hshape]; simp
  have hcalc : ∀ hh : Heap α, calculate_length hh 2 ((c : Int) :: 1 :: rest) = Except.ok (c : Int) := by
    intro hh
    rw [calculate_length_eq hh 2 _ (by simp)]
    simp [shapeProd, hw]
  simp only [bind_ok, arrGet_of _ _ _ _ hs1, hu, setTensor_ok h1 a u _ hu,
    tensor_set_same _ _ a _ halt, hshape, arrSet, List.length_cons, Nat.zero_lt_succ, if_true,
    List.set_cons_zero, arrGet, List.getElem?_cons_succ, List.getElem?_cons_zero]
  simp only [setTensor_ok _ a _ _ (tensor_set_same _ _ a _ halt), List.set_set, bind_ok,
    tensor_set_same _ _ a _ halt, List.length_cons, Nat.one_lt_succ_succ, Nat.lt_add_left_iff_pos,
    Nat.zero_lt_succ, if_true, List.set_cons_succ, List.set_cons_zero, hnd, hcalc]

theorem cell_congr (h1 h2 : Heap α) (b : Nat)
    (e : (h1.datas[b]?).map (fun d => (d.freed, d.elems))
      = (h2.datas[b]?).map (fun d => (d.freed, d.elems))) (i : Int) :
    h1.cell b i = h2.cell b i := by
  unfold Heap.cell
  cases h1d : h1.datas[b]? with
  | none =>
    rw [h1d] at e
    cases h2d : h2.datas[b]? with
    | none => rfl
    | some d2 => rw [h2d] at e; simp at e
  | some d1 =>
    rw [h1d] at e
    cases h2d : h2.datas[b]? with
    | none => rw [h2d] at e; simp at e
    | some d2 =>
      rw [h2d] at e
      simp only [Option.map_some', Option.some.injEq, Prod.mk.injEq] at e
      simp only [e.1, e.2]

theorem retarget_target (ds : List (Data α)) (old : Option Nat) (n : Nat) :
    ((retarget ds old (some n))[n]?).map (fun d => (d.freed, d.elems))
      = (ds[n]?).map (fun d => (d.freed, d.elems)) := by
  unfold retarget
  by_cases hsame : old = some n
  · simp [hsame]
  · rw [if_neg hsame]
    cases old with
    | none =>
      simp only [incAt_get]
      cases ds[n]? with
      | none => rfl
      | some b => simp
    | some o =>
      have hon : ¬ n = o := by
        intro e; apply hsame; rw [e]
      simp only [incAt_get, decAt_get]
      cases ds[n]? with
      | none => rfl
      | some b => simp [hon]

theorem shape_two (l : List Int) (r c : Int) (h0 : l[0]? = some r) (h1 : l[1]? = some c) :
    ∃ rest, l = r :: c :: rest := by
  match l with
  | [] => simp at h0
  | [x] => simp at h1
  | x :: y :: rest =>
    simp at h0 h1
    exact ⟨rest, by rw [h0, h1]⟩

/-- Effect of `tensor_select` on the heap. -/
theorem tensor_select_core (h : Heap α) (dest src : TPtr) (t s : Tensor) (r c : Nat) (index : Int)
    (vs : View h src s r c) (ht : h.tensor dest = Except.ok t) (hsh : 2 ≤ t.shape.length)
    (hdd : t.data = none ∨ ∃ d b, t.data = some d ∧ h.datas[d]? = some b ∧ b.freed = false)
    (hi0 : 0 ≤ index) (hi1 : index < r) :
    ∃ h2 t2 ds, tensor_select h dest src index = Except.ok h2 ∧ h2.tensor dest = Except.ok t2 ∧
      t2.data = s.data ∧ s.data = some ds ∧ t2.offset = s.offset + index * c ∧
      t2.ndims = 2 ∧ t2.shape[0]? = some (c : Int) ∧ t2.shape[1]? = some 1 ∧ t2.length = c ∧
      (dest ≠ src → h2.tensor src = Except.ok s) ∧
      (∀ x, h2.cell ds x = h.cell ds x) ∧
      (∀ d : Nat, (h2.datas[d]?).map Data.elems = (h.datas[d]?).map Data.elems) := by
  obtain ⟨ds, bs, es1, es2, es3, es4, es5⟩ := vs.buf
  have hoff := vs.off
  have hlen := vs.len
  have hrc := vs.len_le
  have hcm := vs.cmax
  have hw : wrap32 (c : Int) = (c : Int) := wrap32_eq _ (by omega) (by omega)
  have hic : 0 ≤ index * (c : Int) := Int.mul_nonneg hi0 (by omega)
  have hic2 : index * (c : Int) + c ≤ (r : Int) * (c : Int) := by nlinarith
  have hwo : wrap32 (s.offset + wrap32 (index * (c : Int))) = s.offset + index * c := by
    rw [wrap32_eq (index * (c : Int)) (by omega) (by omega), wrap32_eq _ (by omega) (by omega)]
  obtain ⟨rest, hshape⟩ := shape_two s.shape r c vs.shape0 vs.shape1
  have hsn : src ≠ none := vs.ne_none
  obtain ⟨a, ea, _⟩ := (tensor_ok_iff h dest t).mp ht
  subst ea
  have halt := tensor_lt_length h a t ht
  have hge : ¬ (index ≥ (r : Int)) := by omega
  unfold tensor_select
  simp only [vs.live, bind_ok, arrGet_of _ _ _ _ vs.shape0, hge, decide_False, TENSOR_CHECK_false,
    hsn, if_false]
  by_cases hne : some a = src
  · subst hne
    have e : t = s := by
      have := vs.live
      rw [ht] at this
      cases this; rfl
    subst e
    have hcl : tensor_clone h (some a) (some a) = Except.ok h := by
      unfold tensor_clone; simp
    rw [hcl, bind_ok, select_tail_same h a t c index r rest ht hshape vs.rank hw]
    refine ⟨_, _, ds, rfl, tensor_set_same _ _ a _ halt, rfl, es1, hwo, vs.rank, by simp, by simp,
      rfl, fun e => absurd rfl e, fun _ => rfl, fun _ => rfl⟩
  · have hcl := tensor_clone_ok h a src t s hne vs.toWf ht (by rw [vs.rank]; exact hsh) hdd
    have hu : Heap.tensor (Heap.mk (retarget h.datas t.data s.data)
        (h.tensors.set a (some (clonedCell t s)))) (some a)
        = Except.ok (clonedCell t s) := tensor_set_same _ _ a _ halt
    have hs2 : Heap.tensor (Heap.mk (retarget h.datas t.data s.data)
        (h.tensors.set a (some (clonedCell t s)))) src = Except.ok s := by
      rw [tensor_set_other _ _ a _ src s (fun e => hne e.symm)]
      exact (tensor_datas_irrel _ _ _ _ _).mp vs.live
    have hcshape : (clonedCell t s).shape = (r : Int) :: (c : Int) :: List.drop 2 t.shape := by
      simp [clonedCell, vs.rank, hshape]
    rw [hcl, bind_ok, select_tail_other _ a src (clonedCell t s) s c index r _ hu hcshape
      (by simp [clonedCell, vs.rank]) hs2 vs.shape1 (fun e => hne e.symm) hw]
    refine ⟨_, _, ds, rfl, tensor_set_same _ _ a _ (by simpa using halt), rfl, es1, hwo, vs.rank,
      by simp, by simp, rfl, ?_, ?_, ?_⟩
    · intro _
      simp only [List.set_set]
      rw [tensor_set_other _ _ a _ src s (fun e => hne e.symm)]
      exact (tensor_datas_irrel _ _ _ _ _).mp vs.live
    · intro x
      apply cell_congr
      simp only [es1]
      exact retarget_target _ _ _
    · intro d
      exact retarget_elems _ _ _ d

/-- Writing a logical element through `tensor_set_at_` is writing its cell. -/
theorem tensor_set_at_ok (h : Heap α) (p : TPtr) (t : Tensor) (d : Nat) (x : Nat) (v : α)
    (hl : h.tensor p = Except.ok t) (hd : t.data = some d) (hx : (x : Int) < t.length)
    (hoff : 0 ≤ t.offset) (hmax : t.offset + t.length ≤ 2147483648)
    (hc : (h.cell d (t.offset + x)).isSome) :
    ∃ h2, tensor_set_at_ h p v x = Except.ok h2 ∧ h2.tensors = h.tensors ∧
      (∀ e : Nat, (h2.datas[e]?).map (fun b => (b.refcount, b.freed, b.elems.length))
        = (h.datas[e]?).map (fun b => (b.refcount, b.freed, b.elems.length))) ∧
      ∀ b j, h2.cell b j = if b = d ∧ j = t.offset + x then some v else h.cell b j := by
  have hw : wrap32 ((x : Int) + t.offset) = t.offset + x := by
    rw [wrap32_eq _ (by omega) (by omega)]; ring
  obtain ⟨h2, e2, t2, c2⟩ := rawSet_ok h { buf := d, off := 0 } (t.offset + x) v
    (by simpa using hc)
  have hmeta : ∀ e : Nat, (h2.datas[e]?).map (fun b => (b.refcount, b.freed, b.elems.length))
        = (h.datas[e]?).map (fun b => (b.refcount, b.freed, b.elems.length)) := by
    intro e
    unfold rawSet data_insert at e2
    rw [buffer_some] at e2
    cases hdd : h.datas[d]? with
    | none => simp [hdd] at e2
    | some b =>
      simp only [hdd, zero_add] at e2
      split at e2
      · simp at e2
      · simp only [bind_ok] at e2
        split at e2
        · simp at e2
        · split at e2
          · simp only [pure_eq_ok, Except.ok.injEq] at e2
            rw [← e2]
            simp only [List.getElem?_set]
            by_cases hde : d = e
            · subst hde
              have hlt : d < h.datas.length := by
                rcases lt_or_ge d h.datas.length with h1 | h1
                · exact h1
                · rw [List.getElem?_eq_none h1] at hdd; cases hdd
              simp [hdd, hlt]
            · simp [hde]
          · simp at e2
  refine ⟨h2, ?_, t2, hmeta, ?_⟩
  · unfold tensor_set_at_
    unfold rawSet at e2
    simp only [zero_add] at e2
    simp [hl, hx, hd, hw, e2]
  · intro b j
    rw [c2]
    simp

/-- Claim C4. For a well-formed rank-2 tensor `src` of shape `[r, c]`, an index
with `0 ≤ index < r` and any live tensor `dest` (possibly `src` itself),
`tensor_select` returns; afterwards `dest` references the buffer `src`
referenced, at offset `src.offset + index * c`, with shape `[c, 1]` and length
`c`; its logical element `j` is the cell of the former logical element
`index * c + j` of `src` (reads agree, and with two distinct tensors a write
through either is read back through the other); no buffer content changes. -/
theorem tensor_select_row (h : Heap α) (dest src : TPtr) (t s : Tensor) (r c : Nat)
    (index : Int)
    (vs : View h src s r c) (ht : h.tensor dest = Except.ok t) (hsh : 2 ≤ t.shape.length)
    (hdd : t.data = none ∨ ∃ d b, t.data = some d ∧ h.datas[d]? = some b ∧ b.freed = false)
    (hi0 : 0 ≤ index) (hi1 : index < r) :
    ∃ h2 t2, tensor_select h dest src index = Except.ok h2 ∧ h2.tensor dest = Except.ok t2 ∧
      t2.data = s.data ∧ t2.offset = s.offset + index * c ∧
      t2.ndims = 2 ∧ t2.shape[0]? = some (c : Int) ∧ t2.shape[1]? = some 1 ∧ t2.length = c ∧
      (∀ j : Nat, j < c → ∃ v, tensor_get_at_ h src (index * c + j) = Except.ok v ∧
          tensor_get_at_ h2 dest j = Except.ok v) ∧
      (dest ≠ src → ∀ (j : Nat) (v : α), j < c →
          (∃ h3, tensor_set_at_ h2 dest v j = Except.ok h3 ∧
            tensor_get_at_ h3 src (index * c + j) = Except.ok v) ∧
          (∃ h3, tensor_set_at_ h2 src v (index * c + j) = Except.ok h3 ∧
            tensor_get_at_ h3 dest j = Except.ok v)) ∧
      (∀ d : Nat, (h2.datas[d]?).map Data.elems = (h.datas[d]?).map Data.elems) := by
  obtain ⟨h2, t2, ds, e2, hl2, hdat, hsd, hoff2, hnd, hs0, hs1, hlen2, hsrc2, hcell, helems⟩ :=
    tensor_select_core h dest src t s r c index vs ht hsh hdd hi0 hi1
  obtain ⟨_, bs, es1, es2, es3, es4, es5⟩ := vs.buf
  have hoff := vs.off
  have hlen := vs.len
  lift index to ℕ using hi0 with k
  have hk : k < r := by exact_mod_cast hi1
  have hkc : ∀ j : Nat, j < c → k * c + j < r * c := fun j hj => idx_lt k j r c hk hj
  have hcast : ∀ j : Nat, (k : Int) * (c : Int) + (j : Int) = ((k * c + j : Nat) : Int) := by
    intro j; push_cast; ring
  have hkcI : ∀ j : Nat, j < c → ((k * c + j : Nat) : Int) < (r : Int) * (c : Int) := by
    intro j hj; exact_mod_cast hkc j hj
  have hd2 : t2.data = some ds := by rw [hdat, hsd]
  have hsome : ∀ j : Nat, j < c → (h.cell ds (s.offset + ((k * c + j : Nat) : Int))).isSome :=
    fun j hj => vs.cell_isSome ds hsd _ (hkc j hj)
  have haddr : ∀ j : Nat, t2.offset + (j : Int) = s.offset + ((k * c + j : Nat) : Int) := by
    intro j; rw [hoff2]; push_cast; ring
  have hb2 : ∀ j : Nat, j < c → 0 ≤ t2.offset ∧ t2.offset + t2.length ≤ 2147483648 := by
    intro j hj
    have := hkcI j hj
    have h0 : 0 ≤ (k : Int) * (c : Int) := by positivity
    rw [hoff2, hlen2]
    constructor
    · omega
    · have := hkcI 0 (by omega)
      have hc1 : (k : Int) * c + c ≤ (r : Int) * c := by nlinarith
      omega
  refine ⟨h2, t2, e2, hl2, hdat, hoff2, hnd, hs0, hs1, hlen2, ?_, ?_, helems⟩
  · intro j hj
    have hs := hsome j hj
    cases hv : h.cell ds (s.offset + ((k * c + j : Nat) : Int)) with
    | none => rw [hv] at hs; cases hs
    | some v =>
      refine ⟨v, ?_, ?_⟩
      · rw [hcast]
        exact tensor_get_at_of_cell h src s ds _ v vs.live hsd (by rw [hlen]; exact hkcI j hj)
          hoff (by omega) hv
      · exact tensor_get_at_of_cell h2 dest t2 ds j v hl2 hd2 (by rw [hlen2]; exact_mod_cast hj)
          (hb2 j hj).1 (hb2 j hj).2 (by rw [haddr, hcell]; exact hv)
  · intro hne j v hj
    have hs2 := hsrc2 hne
    constructor
    · obtain ⟨h3, e3, t3, _, c3⟩ := tensor_set_at_ok h2 dest t2 ds j v hl2 hd2
        (by rw [hlen2]; exact_mod_cast hj) (hb2 j hj).1 (hb2 j hj).2
        (by rw [haddr, hcell]; exact hsome j hj)
      refine ⟨h3, e3, ?_⟩
      rw [hcast]
      exact tensor_get_at_of_cell h3 src s ds _ v (tensor_ok_of_tensors_eq h2 h3 t3 src s hs2) hsd
        (by rw [hlen]; exact hkcI j hj) hoff (by omega) (by rw [c3, haddr]; simp)
    · obtain ⟨h3, e3, t3, _, c3⟩ := tensor_set_at_ok h2 src s ds (k * c + j) v hs2 hsd
        (by rw [hlen]; exact hkcI j hj) hoff (by omega) (by rw [hcell]; exact hsome j hj)
      refine ⟨h3, by rw [hcast]; exact e3, ?_⟩
      exact tensor_get_at_of_cell h3 dest t2 ds j v (tensor_ok_of_tensors_eq h2 h3 t3 dest t2 hl2)
        hd2 (by rw [hlen2]; exact_mod_cast hj) (hb2 j hj).1 (hb2 j hj).2
        (by rw [c3, haddr]; simp)

/-! ## Clone and select: concrete instances -/

/-- Claim C8 at a concrete input: cloning the `[3, 2]` tensor of `exSel` into the
other tensor of that heap. -/
theorem tensor_clone_alias_witness :
    ∃ h2 t2, tensor_clone exSel (some 1) (some 0) = Except.ok h2 ∧
      h2.tensor (some 1) = Except.ok t2 ∧
      t2.data = (mkTensor 0 3 2 0).data ∧ t2.offset = (mkTensor 0 3 2 0).offset ∧
      t2.ndims = (mkTensor 0 3 2 0).ndims ∧
      (∀ i : Nat, i < (mkTensor 0 3 2 0).ndims.toNat →
        t2.shape[i]? = (mkTensor 0 3 2 0).shape[i]?) ∧
      t2.length = (mkTensor 0 3 2 0).length ∧
      h2.tensor (some 0) = Except.ok (mkTensor 0 3 2 0) ∧
      (∀ d : Nat, (h2.datas[d]?).map Data.elems = (exSel.datas[d]?).map Data.elems) ∧
      ((some 1 : TPtr) = some 0 → h2 = exSel) :=
  tensor_clone_alias exSel (some 1) (some 0) (mkTensor 1 1 2 0) (mkTensor 0 3 2 0)
    ⟨rfl, by decide, by decide, by decide, by decide,
      ⟨0, _, rfl, rfl, rfl, by decide, by decide⟩⟩
    rfl (by decide) (Or.inr ⟨1, _, rfl, rfl, rfl⟩)

/-- Claim C4 at the input of the specification: row 1 of `[[1,2],[3,4],[5,6]]`. -/
theorem tensor_select_row_witness :
    ∃ h2 t2, tensor_select exSel (some 1) (some 0) 1 = Except.ok h2 ∧
      h2.tensor (some 1) = Except.ok t2 ∧
      t2.data = (mkTensor 0 3 2 0).data ∧
      t2.offset = (mkTensor 0 3 2 0).offset + 1 * ((2 : Nat) : Int) ∧
      t2.ndims = 2 ∧ t2.shape[0]? = some ((2 : Nat) : Int) ∧ t2.shape[1]? = some 1 ∧
      t2.length = ((2 : Nat) : Int) ∧
      (∀ j : Nat, j < 2 → ∃ v, tensor_get_at_ exSel (some 0) (1 * ((2 : Nat) : Int) + j)
          = Except.ok v ∧ tensor_get_at_ h2 (some 1) j = Except.ok v) ∧
      ((some 1 : TPtr) ≠ some 0 → ∀ (j : Nat) (v : Int), j < 2 →
          (∃ h3, tensor_set_at_ h2 (some 1) v j = Except.ok h3 ∧
            tensor_get_at_ h3 (some 0) (1 * ((2 : Nat) : Int) + j) = Except.ok v) ∧
          (∃ h3, tensor_set_at_ h2 (some 0) v (1 * ((2 : Nat) : Int) + j) = Except.ok h3 ∧
            tensor_get_at_ h3 (some 1) j = Except.ok v)) ∧
      (∀ d : Nat, (h2.datas[d]?).map Data.elems = (exSel.datas[d]?).map Data.elems) :=
  tensor_select_row exSel (some 1) (some 0) (mkTensor 1 1 2 0) (mkTensor 0 3 2 0) 3 2 1
    ⟨rfl, rfl, rfl, rfl, by decide, by decide, ⟨0, _, rfl, rfl, rfl, by decide, by decide⟩,
      by decide, by decide⟩
    rfl (by decide) (Or.inr ⟨1, _, rfl, rfl, rfl⟩) (by decide) (by decide)

/-- The example of the specification: selecting row 1 of `[[1,2],[3,4],[5,6]]`
gives a `[2, 1]` view at offset 2 of the same buffer, which reads `3, 4`. -/
theorem tensor_select_example :
    tensor_select exSel (some 1) (some 0) 1 = Except.ok
      { datas := [⟨[1, 2, 3, 4, 5, 6], 2, false⟩, ⟨[0, 0], 0, true⟩],
        tensors := [some (mkTensor 0 3 2 0),
          some { data := some 0, shape := [2, 1], ndims := 2, length := 2, offset := 2,
                 strides := [1, 0] }] } ∧
    (tensor_select exSel (some 1) (some 0) 1 >>= fun h2 => tensor_get_at_ h2 (some 1) 0)
      = Except.ok 3 ∧
    (tensor_select exSel (some 1) (some 0) 1 >>= fun h2 => tensor_get_at_ h2 (some 1) 1)
      = Except.ok 4 :=
  ⟨rfl, rfl, rfl⟩

/-- Claim C5 fails on the code: with the index `-1`, out of bounds for the first
axis of a `[3, 2]` tensor, `tensor_select` does not take the fatal path; it
returns a view whose offset is `-2`, before the start of the buffer. -/
theorem tensor_select_negative_index :
    tensor_select exSel (some 1) (some 0) (-1) = Except.ok
      { datas := [⟨[1, 2, 3, 4, 5, 6], 2, false⟩, ⟨[0, 0], 0, true⟩],
        tensors := [some (mkTensor 0 3 2 0),
          some { data := some 0, shape := [2, 1], ndims := 2, length := 2, offset := -2,
                 strides := [1, 0] }] } := by
  rfl

/-- The half of the bounds check that the code does perform: an index at or
beyond `src.shape[0]` takes the fatal path, with the heap untouched. -/
theorem tensor_select_fatal_of_ge (h : Heap α) (dest src : TPtr) (s : Tensor) (r index : Int)
    (hs : h.tensor src = Except.ok s) (h0 : s.shape[0]? = some r) (hge : r ≤ index) :
    tensor_select h dest src index = Except.error (Fault.fatal, h) := by
  unfold tensor_select
  simp [hs, arrGet_of _ _ _ _ h0, hge]

/-! ## `tensor_concat` -/

/-- `tensor_copy_data_` copies `n` logical elements of `src` to the positions
`off, …, off + n - 1` of `dest`, provided the cells involved exist and the
cells written are none of the cells read. -/
theorem tensor_copy_data_spec (h : Heap α) (dest src : TPtr) (td s : Tensor) (dd ds : Nat)
    (n off : Nat)
    (hld : h.tensor dest = Except.ok td) (hls : h.tensor src = Except.ok s)
    (hdd : td.data = some dd) (hsd : s.data = some ds)
    (hn : (n : Int) ≤ s.length) (hoffn : (off : Int) + n ≤ td.length)
    (hso : 0 ≤ s.offset) (hsm : s.offset + s.length ≤ 2147483648)
    (hdo : 0 ≤ td.offset) (hdm : td.offset + td.length ≤ 2147483648)
    (hsrc : ∀ x : Nat, x < n → (h.cell ds (s.offset + x)).isSome)
    (hdst : ∀ x : Nat, x < n → (h.cell dd (td.offset + off + x)).isSome)
    (hdisj : ∀ x y : Nat, x < n → y < n → ¬ (ds = dd ∧ s.offset + x = td.offset + off + y)) :
    ∃ h2, tensor_copy_data_ h dest src n off = Except.ok h2 ∧
      Copied h dd ds (td.offset + off) s.offset n h2 := by
  unfold tensor_copy_data_
  simp only [Int.toNat_ofNat]
  refine forLoop_inv (fun i st => Copied h dd ds (td.offset + off) s.offset i st) n _ h
    ⟨rfl, fun _ => rfl, fun x hx => by omega, fun _ _ _ => rfl⟩ ?_
  intro i st hi ⟨ht, hm, hc, hfr⟩
  have hsi := hsrc i hi
  have hread : st.cell ds (s.offset + i) = h.cell ds (s.offset + i) := by
    apply hfr
    rintro ⟨e1, y, hy, e2⟩
    exact hdisj i y hi (by omega) ⟨e1, e2⟩
  cases hv : h.cell ds (s.offset + i) with
  | none => rw [hv] at hsi; cases hsi
  | some v =>
    have hget : tensor_get_at_ st src i = Except.ok v :=
      tensor_get_at_of_cell st src s ds i v (tensor_ok_of_tensors_eq h st ht src s hls) hsd
        (by omega) hso hsm (by rw [hread]; exact hv)
    have hw : wrap32 ((i : Int) + (off : Int)) = ((off + i : Nat) : Int) := by
      rw [wrap32_eq _ (by omega) (by omega)]; push_cast; ring
    have hcast : td.offset + ((off + i : Nat) : Int) = td.offset + off + i := by
      push_cast; ring
    have hwr : st.cell dd (td.offset + ((off + i : Nat) : Int))
        = h.cell dd (td.offset + off + i) := by
      rw [hcast]
      apply hfr
      rintro ⟨_, y, hy, e2⟩
      omega
    obtain ⟨s2, e2, t2, m2, c2⟩ := tensor_set_at_ok st dest td dd (off + i) v
      (tensor_ok_of_tensors_eq h st ht dest td hld) hdd (by push_cast; omega) hdo hdm
      (by rw [hwr]; exact hdst i hi)
    refine ⟨s2, ?_, t2.trans ht, fun e => (m2 e).trans (hm e), ?_, ?_⟩
    · show (tensor_get_at_ st src i >>= fun v => tensor_set_at_ st dest v _) = _
      rw [hget, bind_ok, hw]
      exact e2
    · intro x hx
      rw [c2]
      by_cases hxi : x = i
      · subst hxi
        have : td.offset + (off : Int) + (x : Int) = td.offset + ((off + x : Nat) : Int) := by
          push_cast; ring
        simp [this, hv]
      · have : ¬ (td.offset + (off : Int) + (x : Int) = td.offset + ((off + i : Nat) : Int)) := by
          push_cast; omega
        simp only [this, and_false, if_false]
        exact hc x (by omega)
    · intro b j hno
      rw [c2]
      have : ¬ (b = dd ∧ j = td.offset + ((off + i : Nat) : Int)) := by
        rintro ⟨e1, e2⟩
        exact hno ⟨e1, i, by omega, by rw [e2]; push_cast; ring⟩
      simp only [this, if_false]
      apply hfr
      rintro ⟨e1, y, hy, e2⟩
      exact hno ⟨e1, y, by omega, e2⟩

theorem cell_get_some (h : Heap α) (d : Nat) (x : Int) (hs : (h.cell d x).isSome) :
    ∃ v, h.cell d x = some v := by
  cases hv : h.cell d x with
  | none => rw [hv] at hs; cases hs
  | some v => exact ⟨v, rfl⟩

/-- With shapes `[ra, c]`, `[rb, c]` and `[ra + rb, c]` every check of
`tensor_concat` passes and the call reduces to its two copies. -/
theorem tensor_concat_unfold (h : Heap α) (dest ta tb : TPtr) (td a b : Tensor)
    (ra rb c : Nat)
    (vd : View h dest td (ra + rb) c) (va : View h ta a ra c) (vb : View h tb b rb c) :
    tensor_concat h dest ta tb = (do
      let h ← tensor_copy_data_ h dest ta a.length 0
      let a ← h.tensor ta
      let b ← h.tensor tb
      tensor_copy_data_ h dest tb b.length a.length) := by
  have hrmax := vd.rmax
  have hwr : wrap32 ((ra : Int) + (rb : Int)) = ((ra + rb : Nat) : Int) := by
    rw [wrap32_eq _ (by omega) (by omega)]; push_cast; rfl
  unfold tensor_concat
  rw [va.live, bind_ok, vb.live, bind_ok, arrGet_of h _ _ _ va.shape1, bind_ok,
    arrGet_of h _ _ _ vb.shape1, bind_ok]
  have hne := vd.ne_none
  simp only [ne_eq, not_true_eq_false, decide_False, TENSOR_CHECK_false, hne, bind_ok]
  rw [vd.live, bind_ok, arrGet_of h _ _ _ vd.shape0, bind_ok, arrGet_of h _ _ _ va.shape0,
    bind_ok, arrGet_of h _ _ _ vb.shape0, bind_ok, hwr]
  simp only [ne_eq, not_true_eq_false, decide_False, TENSOR_CHECK_false, hne, bind_ok]
  rw [arrGet_of h _ _ _ vd.shape1, bind_ok]
  simp only [ne_eq, not_true_eq_false, decide_False, TENSOR_CHECK_false, hne, bind_ok]

/-- Claim C6. For rank-2 tensors `a` of shape `[ra, c]`, `b` of shape `[rb, c]`
and `dest` of shape `[ra + rb, c]` (the shapes that pass the checks of
`tensor_concat`), the range of `dest` being disjoint from those of `a` and `b`,
`tensor_concat` returns; afterwards element `i` of `dest` is element `i` of `a`
and element `a.length + j` of `dest` is element `j` of `b`; the contents of
`a` and `b`, every tensor cell and every reference count are unchanged. -/
theorem tensor_concat_copies (h : Heap α) (dest ta tb : TPtr) (td a b : Tensor)
    (ra rb c : Nat)
    (vd : View h dest td (ra + rb) c) (va : View h ta a ra c) (vb : View h tb b rb c)
    (hda : td.data ≠ a.data ∨ td.offset + td.length ≤ a.offset ∨
      a.offset + a.length ≤ td.offset)
    (hdb : td.data ≠ b.data ∨ td.offset + td.length ≤ b.offset ∨
      b.offset + b.length ≤ td.offset) :
    ∃ h2, tensor_concat h dest ta tb = Except.ok h2 ∧
      (∀ i : Nat, i < ra * c → ∃ v, tensor_get_at_ h ta i = Except.ok v ∧
        tensor_get_at_ h2 dest i = Except.ok v ∧ tensor_get_at_ h2 ta i = Except.ok v) ∧
      (∀ j : Nat, j < rb * c → ∃ v, tensor_get_at_ h tb j = Except.ok v ∧
        tensor_get_at_ h2 dest (a.length + j) = Except.ok v ∧
        tensor_get_at_ h2 tb j = Except.ok v) ∧
      h2.tensors = h.tensors ∧
      (∀ e : Nat, (h2.datas[e]?).map Data.refcount = (h.datas[e]?).map Data.refcount) := by
  obtain ⟨dd, bd, ed1, ed2, ed3, ed4, ed5⟩ := vd.buf
  obtain ⟨da, ba, ea1, ea2, ea3, ea4, ea5⟩ := va.buf
  obtain ⟨db, bb, eb1, eb2, eb3, eb4, eb5⟩ := vb.buf
  have hdoff := vd.off
  have haoff := va.off
  have hboff := vb.off
  have hdlen := vd.len
  have halen := va.len
  have hblen := vb.len
  have hdl : td.length = ((ra * c : Nat) : Int) + ((rb * c : Nat) : Int) := by
    rw [hdlen]; push_cast; ring
  have hal : a.length = ((ra * c : Nat) : Int) := by rw [halen]; push_cast; ring
  have hbl : b.length = ((rb * c : Nat) : Int) := by rw [hblen]; push_cast; ring
  have hdsome : ∀ x : Nat, x < ra * c + rb * c → (h.cell dd (td.offset + x)).isSome := by
    intro x hx
    exact vd.cell_isSome dd ed1 x (by rw [Nat.add_mul]; exact hx)
  -- first copy
  obtain ⟨h1, e1, t1, m1, c1, f1⟩ := tensor_copy_data_spec h dest ta td a dd da (ra * c) 0
    vd.live va.live ed1 ea1 (by omega) (by push_cast at hdl ⊢; omega) haoff (by omega) hdoff
    (by omega)
    (fun x hx => va.cell_isSome da ea1 x hx)
    (fun x hx => by
      have := hdsome x (by omega)
      simpa using this)
    (by
      intro x y hx hy
      rintro ⟨e1, e2⟩
      rcases hda with h1 | h1 | h1
      · apply h1; rw [ed1, ea1, e1]
      · push_cast at e2; omega
      · push_cast at e2; omega)
  have hl1a := tensor_ok_of_tensors_eq h h1 t1 ta a va.live
  have hl1b := tensor_ok_of_tensors_eq h h1 t1 tb b vb.live
  have hl1d := tensor_ok_of_tensors_eq h h1 t1 dest td vd.live
  have hb1 : ∀ x : Nat, x < rb * c → h1.cell db (b.offset + x) = h.cell db (b.offset + x) := by
    intro x hx
    apply f1
    rintro ⟨e1, y, hy, e2⟩
    rcases hdb with h1 | h1 | h1
    · apply h1; rw [ed1, eb1, e1]
    · push_cast at e2; omega
    · push_cast at e2; omega
  have hd1 : ∀ x : Nat, x < rb * c →
      h1.cell dd (td.offset + ((ra * c : Nat) : Int) + x)
        = h.cell dd (td.offset + ((ra * c : Nat) : Int) + x) := by
    intro x hx
    apply f1
    rintro ⟨_, y, hy, e2⟩
    push_cast at e2; omega
  -- second copy
  obtain ⟨h2, e2, t2, m2, c2, f2⟩ := tensor_copy_data_spec h1 dest tb td b dd db (rb * c)
    (ra * c) hl1d hl1b ed1 eb1 (by omega) (by omega) hboff (by omega) hdoff (by omega)
    (fun x hx => by rw [hb1 x hx]; exact vb.cell_isSome db eb1 x hx)
    (fun x hx => by
      rw [hd1 x hx]
      have := hdsome (ra * c + x) (by omega)
      push_cast at this ⊢
      rw [← add_assoc] at this
      exact this)
    (by
      intro x y hx hy
      rintro ⟨e1, e2⟩
      rcases hdb with h1 | h1 | h1
      · apply h1; rw [ed1, eb1, e1]
      · omega
      · omega)
  have hl2a := tensor_ok_of_tensors_eq h1 h2 t2 ta a hl1a
  have hl2b := tensor_ok_of_tensors_eq h1 h2 t2 tb b hl1b
  have hl2d := tensor_ok_of_tensors_eq h1 h2 t2 dest td hl1d
  refine ⟨h2, ?_, ?_, ?_, t2.trans t1, ?_⟩
  · rw [tensor_concat_unfold h dest ta tb td a b ra rb c vd va vb, hal]
    have e1b : tensor_copy_data_ h dest ta ((ra * c : Nat) : Int) 0 = Except.ok h1 := e1
    rw [e1b, bind_ok, hl1a, bind_ok, hl1b, bind_ok, hal, hbl]
    exact e2
  · intro i hi
    obtain ⟨v, hv⟩ := cell_get_some h da _ (va.cell_isSome da ea1 i hi)
    have hA2 : h2.cell da (a.offset + i) = some v := by
      rw [f2, f1, hv]
      · rintro ⟨e1, y, hy, e2⟩
        rcases hda with h1 | h1 | h1
        · apply h1; rw [ed1, ea1, e1]
        · push_cast at e2; omega
        · push_cast at e2; omega
      · rintro ⟨e1, y, hy, e2⟩
        rcases hda with h1 | h1 | h1
        · apply h1; rw [ed1, ea1, e1]
        · omega
        · omega
    have hD2 : h2.cell dd (td.offset + i) = some v := by
      rw [f2]
      · have := c1 i hi
        simp only [Nat.cast_zero, add_zero] at this
        rw [this, hv]
      · rintro ⟨_, y, hy, e2⟩
        omega
    refine ⟨v, ?_, ?_, ?_⟩
    · exact tensor_get_at_of_cell h ta a da i v va.live ea1 (by omega) haoff (by omega) hv
    · exact tensor_get_at_of_cell h2 dest td dd i v hl2d ed1 (by omega) hdoff (by omega) hD2
    · exact tensor_get_at_of_cell h2 ta a da i v hl2a ea1 (by omega) haoff (by omega) hA2
  · intro j hj
    obtain ⟨v, hv⟩ := cell_get_some h db _ (vb.cell_isSome db eb1 j hj)
    have hB2 : h2.cell db (b.offset + j) = some v := by
      rw [f2, hb1 j hj, hv]
      rintro ⟨e1, y, hy, e2⟩
      rcases hdb with h1 | h1 | h1
      · apply h1; rw [ed1, eb1, e1]
      · omega
      · omega
    have hD2 : h2.cell dd (td.offset + ((ra * c + j : Nat) : Int)) = some v := by
      have := c2 j hj
      rw [hb1 j hj, hv] at this
      rw [← this]
      congr 1
      push_cast; ring
    refine ⟨v, ?_, ?_, ?_⟩
    · exact tensor_get_at_of_cell h tb b db j v vb.live eb1 (by omega) hboff (by omega) hv
    · have hc : a.length + (j : Int) = ((ra * c + j : Nat) : Int) := by
        rw [hal]; push_cast; ring
      rw [hc]
      exact tensor_get_at_of_cell h2 dest td dd (ra * c + j) v hl2d ed1 (by push_cast; omega)
        hdoff (by omega) hD2
    · exact tensor_get_at_of_cell h2 tb b db j v hl2b eb1 (by omega) hboff (by omega) hB2
  · intro e
    have := (m2 e).trans (m1 e)
    cases h2e : h2.datas[e]? with
    | none =>
      rw [h2e] at this
      cases he : h.datas[e]? with
      | none => rfl
      | some x => rw [he] at this; simp at this
    | some y =>
      rw [h2e] at this
      cases he : h.datas[e]? with
      | none => rw [he] at this; simp at this
      | some x =>
        rw [he] at this
        simp only [Option.map_some', Option.some.injEq, Prod.mk.injEq] at this
        simp [this.1]

/-- Claim C6 at the input of the specification: `[[1,2]]` and `[[3,4],[5,6]]`
into a `[3, 2]` destination. -/
theorem tensor_concat_copies_witness :
    ∃ h2, tensor_concat exCat (some 2) (some 0) (some 1) = Except.ok h2 ∧
      (∀ i : Nat, i < 1 * 2 → ∃ v, tensor_get_at_ exCat (some 0) i = Except.ok v ∧
        tensor_get_at_ h2 (some 2) i = Except.ok v ∧
        tensor_get_at_ h2 (some 0) i = Except.ok v) ∧
      (∀ j : Nat, j < 2 * 2 → ∃ v, tensor_get_at_ exCat (some 1) j = Except.ok v ∧
        tensor_get_at_ h2 (some 2) ((mkTensor 0 1 2 0).length + j) = Except.ok v ∧
        tensor_get_at_ h2 (some 1) j = Except.ok v) ∧
      h2.tensors = exCat.tensors ∧
      (∀ e : Nat, (h2.datas[e]?).map Data.refcount = (exCat.datas[e]?).map Data.refcount) :=
  tensor_concat_copies exCat (some 2) (some 0) (some 1)
    (mkTensor 2 3 2 0) (mkTensor 0 1 2 0) (mkTensor 1 2 2 0) 1 2 2
    ⟨rfl, rfl, rfl, rfl, by decide, by decide, ⟨2, _, rfl, rfl, rfl, by decide, by decide⟩,
      by decide, by decide⟩
    ⟨rfl, rfl, rfl, rfl, by decide, by decide, ⟨0, _, rfl, rfl, rfl, by decide, by decide⟩,
      by decide, by decide⟩
    ⟨rfl, rfl, rfl, rfl, by decide, by decide, ⟨1, _, rfl, rfl, rfl, by decide, by decide⟩,
      by decide, by decide⟩
    (Or.inl (by decide)) (Or.inl (by decide))

/-- The example of the specification: concatenating `[[1,2]]` and `[[3,4],[5,6]]`
gives `[[1,2],[3,4],[5,6]]` and leaves the operands and the counts alone. -/
theorem tensor_concat_example :
    tensor_concat exCat (some 2) (some 0) (some 1) = Except.ok
      { exCat with datas := [⟨[1, 2], 1, false⟩, ⟨[3, 4, 5, 6], 1, false⟩,
          ⟨[1, 2, 3, 4, 5, 6], 1, false⟩] } := by
  rfl

/-! ## Calls that cannot take the fatal path -/

theorem noFatal_ok {σ : Type} (a : σ) : NoFatal (Except.ok a : Res α σ) := by
  intro h2 e; cases e

theorem noFatal_error (f : Fault) (h : Heap α) {σ : Type} (hf : f ≠ Fault.fatal) :
    NoFatal (Except.error (f, h) : Res α σ) := by
  intro h2 e
  cases e
  exact hf rfl

theorem noFatal_bind {σ τ : Type} (x : Res α σ) (f : σ → Res α τ)
    (hx : NoFatal x) (hf : ∀ a, NoFatal (f a)) : NoFatal (x >>= f) := by
  cases x with
  | error e =>
    intro h2 e2
    exact hx h2 (by simpa using e2)
  | ok a => exact hf a

theorem noFatal_forLoop {σ : Type} (n : Nat) (body : Nat → σ → Res α σ) (s : σ)
    (hb : ∀ i st, NoFatal (body i st)) : NoFatal (forLoop n body s) := by
  induction n with
  | zero => exact noFatal_ok s
  | succ k ih =>
    rw [forLoop_succ]
    exact noFatal_bind _ _ ih (fun a => hb k a)

theorem noFatal_tensor (h : Heap α) (p : TPtr) : NoFatal (h.tensor p) := by
  unfold Heap.tensor
  split
  · exact noFatal_error _ _ (by decide)
  · split
    · exact noFatal_ok _
    · exact noFatal_error _ _ (by decide)

theorem noFatal_buffer (h : Heap α) (d : Option Nat) : NoFatal (h.buffer d) := by
  unfold Heap.buffer
  split
  · exact noFatal_error _ _ (by decide)
  · split
    · split
      · exact noFatal_error _ _ (by decide)
      · exact noFatal_ok _
    · exact noFatal_error _ _ (by decide)

theorem noFatal_c_assert (h : Heap α) (c : Bool) : NoFatal (c_assert h c) := by
  unfold c_assert
  split
  · exact noFatal_ok _
  · exact noFatal_error _ _ (by decide)

theorem noFatal_data_get (h : Heap α) (d : Option Nat) (i : Int) : NoFatal (data_get h d i) := by
  unfold data_get
  refine noFatal_bind _ _ (noFatal_buffer h d) (fun r => ?_)
  dsimp only
  split
  · exact noFatal_error _ _ (by decide)
  · split
    · exact noFatal_ok _
    · exact noFatal_error _ _ (by decide)

theorem noFatal_data_insert (h : Heap α) (d : Option Nat) (v : α) (i : Int) :
    NoFatal (data_insert h d v i) := by
  unfold data_insert
  refine noFatal_bind _ _ (noFatal_buffer h d) (fun r => ?_)
  dsimp only
  split
  · exact noFatal_error _ _ (by decide)
  · split
    · exact noFatal_ok _
    · exact noFatal_error _ _ (by decide)

theorem noFatal_tensor_get_at_ (h : Heap α) (p : TPtr) (i : Int) :
    NoFatal (tensor_get_at_ h p i) := by
  unfold tensor_get_at_
  exact noFatal_bind _ _ (noFatal_tensor h p) (fun t =>
    noFatal_bind _ _ (noFatal_c_assert _ _) (fun _ => noFatal_data_get _ _ _))

theorem noFatal_tensor_set_at_ (h : Heap α) (p : TPtr) (v : α) (i : Int) :
    NoFatal (tensor_set_at_ h p v i) := by
  unfold tensor_set_at_
  exact noFatal_bind _ _ (noFatal_tensor h p) (fun t =>
    noFatal_bind _ _ (noFatal_c_assert _ _) (fun _ => noFatal_data_insert _ _ _ _))

theorem noFatal_tensor_copy_data_ (h : Heap α) (dest src : TPtr) (length offset : Int) :
    NoFatal (tensor_copy_data_ h dest src length offset) := by
  unfold tensor_copy_data_
  exact noFatal_forLoop _ _ _ (fun i st =>
    noFatal_bind _ _ (noFatal_tensor_get_at_ _ _ _) (fun v => noFatal_tensor_set_at_ _ _ _ _))

/-- Claim C7. For live tensors `dest`, `a`, `b` with shape components
`[rd, cd]`, `[ra, ca]`, `[rb, cb]`, `tensor_concat` takes the fatal path exactly
when `ca ≠ cb` or `rd ≠ ra + rb` or `cd ≠ ca`; and when it does, the heap at
that moment is the initial heap: nothing has been written. -/
theorem tensor_concat_fatal_iff (h : Heap α) (dest ta tb : TPtr) (td a b : Tensor)
    (rd cd ra ca rb cb : Nat)
    (sd : Shaped h dest td rd cd) (sa : Shaped h ta a ra ca) (sb : Shaped h tb b rb cb) :
    ((∃ h2, tensor_concat h dest ta tb = Except.error (Fault.fatal, h2))
      ↔ (ca ≠ cb ∨ rd ≠ ra + rb ∨ cd ≠ ca)) ∧
    (∀ h2, tensor_concat h dest ta tb = Except.error (Fault.fatal, h2) → h2 = h) := by
  have hne : dest ≠ none := by
    intro e
    have := sd.live
    rw [e] at this
    cases this
  have hra := sa.rmax
  have hrb := sb.rmax
  have hrd := sd.rmax
  have hwr : ((rd : Int) = wrap32 ((ra : Int) + (rb : Int))) ↔ rd = ra + rb := by
    unfold wrap32
    constructor
    · intro e; omega
    · intro e; omega
  have key : tensor_concat h dest ta tb =
      if ca ≠ cb ∨ rd ≠ ra + rb ∨ cd ≠ ca then Except.error (Fault.fatal, h)
      else (do
        let h ← tensor_copy_data_ h dest ta a.length 0
        let a ← h.tensor ta
        let b ← h.tensor tb
        tensor_copy_data_ h dest tb b.length a.length) := by
    unfold tensor_concat
    rw [sa.live, bind_ok, sb.live, bind_ok, arrGet_of h _ _ _ sa.shape1, bind_ok,
      arrGet_of h _ _ _ sb.shape1, bind_ok]
    by_cases h1 : ca = cb
    · subst h1
      simp only [ne_eq, not_true_eq_false, decide_False, TENSOR_CHECK_false, hne, bind_ok,
        false_or]
      rw [sd.live, bind_ok, arrGet_of h _ _ _ sd.shape0, bind_ok, arrGet_of h _ _ _ sa.shape0,
        bind_ok, arrGet_of h _ _ _ sb.shape0, bind_ok]
      by_cases h2 : rd = ra + rb
      · have hd2 : decide ((rd : Int) ≠ wrap32 ((ra : Int) + (rb : Int))) = false := by
          rw [decide_eq_false_iff_not]
          exact fun hx => hx (hwr.mpr h2)
        rw [hd2, TENSOR_CHECK_false, bind_ok, arrGet_of h _ _ _ sd.shape1, bind_ok]
        by_cases h3 : cd = ca
        · subst h3
          simp only [h2, ne_eq, not_true_eq_false, decide_False, TENSOR_CHECK_false, bind_ok,
            if_false, or_self]
        · have h3i : ¬ ((cd : Int) = (ca : Int)) := by exact_mod_cast h3
          simp only [h3i, h3, ne_eq, not_false_eq_true, decide_True, TENSOR_CHECK_true,
            bind_error, if_true, or_true]
      · have hd2 : decide ((rd : Int) ≠ wrap32 ((ra : Int) + (rb : Int))) = true := by
          rw [decide_eq_true_iff]
          exact fun e => h2 (hwr.mp e)
        rw [hd2, TENSOR_CHECK_true, bind_error]
        simp only [h2, ne_eq, not_false_eq_true, true_or, or_true, if_true]
    · have h1i : ¬ ((ca : Int) = (cb : Int)) := by exact_mod_cast h1
      simp only [ne_eq, h1i, h1, not_false_eq_true, decide_True, TENSOR_CHECK_true, bind_error,
        true_or, if_true]
  have hnf : NoFatal (do
        let h ← tensor_copy_data_ h dest ta a.length 0
        let a ← h.tensor ta
        let b ← h.tensor tb
        tensor_copy_data_ h dest tb b.length a.length) :=
    noFatal_bind _ _ (noFatal_tensor_copy_data_ _ _ _ _ _) (fun h1 =>
      noFatal_bind _ _ (noFatal_tensor _ _) (fun _ =>
        noFatal_bind _ _ (noFatal_tensor _ _) (fun _ => noFatal_tensor_copy_data_ _ _ _ _ _)))
  rw [key]
  by_cases hc : ca ≠ cb ∨ rd ≠ ra + rb ∨ cd ≠ ca
  · rw [if_pos hc]
    refine ⟨⟨fun _ => hc, fun _ => ⟨h, rfl⟩⟩, ?_⟩
    intro h2 e
    cases e
    rfl
  · rw [if_neg hc]
    refine ⟨⟨fun ⟨h2, e⟩ => absurd e (hnf h2), fun e => absurd e hc⟩, ?_⟩
    intro h2 e
    exact absurd e (hnf h2)

/-- Claim C7 at a concrete input: operands of shape `[2, 2]` and a destination
of shape `[2, 3]`. -/
theorem tensor_concat_fatal_iff_witness :
    ((∃ h2, tensor_concat exMismatch (some 2) (some 0) (some 1) = Except.error (Fault.fatal, h2))
      ↔ (2 ≠ 2 ∨ 2 ≠ 2 + 2 ∨ 3 ≠ 2)) ∧
    (∀ h2, tensor_concat exMismatch (some 2) (some 0) (some 1) = Except.error (Fault.fatal, h2)
      → h2 = exMismatch) :=
  tensor_concat_fatal_iff exMismatch (some 2) (some 0) (some 1)
    (mkTensor 2 2 3 0) (mkTensor 0 2 2 0) (mkTensor 1 2 2 0) 2 3 2 2 2 2
    ⟨rfl, rfl, rfl, by decide, by decide⟩ ⟨rfl, rfl, rfl, by decide, by decide⟩
    ⟨rfl, rfl, rfl, by decide, by decide⟩

/-! ## `tensor_init` -/

theorem badAxis_succ (n : Nat) (shape : List Int) (v : Int) (hv : shape[n]? = some v) :
    BadAxis (n + 1) shape ↔ BadAxis n shape ∨ v < 1 := by
  constructor
  · rintro ⟨i, hi, w, hw, hlt⟩
    by_cases hin : i = n
    · subst hin
      rw [hv] at hw
      cases hw
      exact Or.inr hlt
    · exact Or.inl ⟨i, by omega, w, hw, hlt⟩
  · rintro (⟨i, hi, w, hw, hlt⟩ | hlt)
    · exact ⟨i, by omega, w, hw, hlt⟩
    · exact ⟨n, by omega, v, hv, hlt⟩

/-- The loop of `check_size` stops on the fatal path at the first component
below 1, and completes when there is none. -/
theorem check_loop_eq (h : Heap α) (shape : List Int) (n : Nat) (hn : n ≤ shape.length) :
    (forLoop n (fun i _ => do
      let v ← arrGet h shape i
      _shape_check h v) () = Except.error (Fault.fatal, h) ∧ BadAxis n shape) ∨
    (forLoop n (fun i _ => do
      let v ← arrGet h shape i
      _shape_check h v) () = Except.ok () ∧ ¬ BadAxis n shape) := by
  induction n with
  | zero =>
    right
    exact ⟨rfl, fun ⟨i, hi, _⟩ => by omega⟩
  | succ k ih =>
    obtain ⟨v, hv⟩ := getElem?_of_lt shape k (by omega)
    rw [forLoop_succ, badAxis_succ k shape v hv]
    rcases ih (by omega) with ⟨e, hb⟩ | ⟨e, hb⟩
    · left
      rw [e]
      exact ⟨rfl, Or.inl hb⟩
    · rw [e, bind_ok, arrGet_of h shape k v hv, bind_ok]
      unfold _shape_check
      by_cases hlt : v < 1
      · left
        rw [if_pos hlt]
        exact ⟨rfl, Or.inr hlt⟩
      · right
        rw [if_neg hlt]
        exact ⟨rfl, fun hx => hx.elim hb hlt⟩

theorem shapeProd_pos (shape : List Int) (n : Nat) (hn : n ≤ shape.length)
    (hg : ¬ BadAxis n shape) : 1 ≤ shapeProd n shape := by
  induction n with
  | zero => simp [shapeProd]
  | succ k ih =>
    obtain ⟨v, hv⟩ := getElem?_of_lt shape k (by omega)
    rw [badAxis_succ k shape v hv] at hg
    push_neg at hg
    have h1 := ih (by omega) hg.1
    rw [shapeProd_succ k shape v hv]
    nlinarith [hg.2]

theorem tensor_append_get (ds : List (Data α)) (ts : List (Option Tensor)) (t : Tensor) :
    Heap.tensor { datas := ds, tensors := ts ++ [some t] } (some ts.length) = Except.ok t := by
  rw [tensor_ok_iff]
  exact ⟨ts.length, rfl, by simp⟩

/-- When the checks pass, `tensor_init` appends one buffer and one cell. -/
theorem tensor_init_ok (MAX_DIM : Int) (h : Heap α) (ndims : Int) (shape : List Int)
    (junk : Nat → Int) (fill : Nat → α) (hlen : MAX_DIM.toNat ≤ shape.length)
    (h1 : 1 ≤ ndims) (h2 : ndims ≤ MAX_DIM) (hg : ¬ BadAxis ndims.toNat shape) :
    tensor_init MAX_DIM h ndims shape junk fill = Except.ok
      (some h.tensors.length,
        { datas := h.datas ++
            [⟨(List.range (wrap32 (shapeProd ndims.toNat shape)).toNat).map fill, 1, false⟩],
          tensors := h.tensors ++ [some (initCell MAX_DIM ndims shape junk h.datas.length)] }) := by
  have hn : ndims.toNat ≤ MAX_DIM.toNat := by omega
  have hchk : ¬ (ndims < 1 ∨ ndims > MAX_DIM) := by omega
  have hloop : forLoop ndims.toNat (fun i _ => do
      let v ← arrGet h shape i
      _shape_check h v) () = Except.ok () := by
    rcases check_loop_eq h shape ndims.toNat (by omega) with ⟨_, hb⟩ | ⟨e, _⟩
    · exact absurd hb hg
    · exact e
  have hcopy := shape_copy_eq h ndims.toNat shape
    (Tensor.mk none ((List.range MAX_DIM.toNat).map junk) ndims 0 0 [0, 0]) (by omega)
    (by simp; omega)
  simp only [pure_eq_ok] at hcopy
  unfold tensor_init tensor_shallow_init check_size
  simp only [hchk, decide_False, TENSOR_CHECK_false, bind_ok, hloop, pure_eq_ok, hcopy,
    calculate_length_eq h ndims shape (by omega)]
  simp only [bind_ok, pure_eq_ok, arrSet, List.length_cons, List.length_nil,
    Nat.zero_lt_succ, if_true, List.set_cons_zero, Nat.one_lt_succ_succ, Nat.lt_add_one,
    zero_add, Nat.one_lt_ofNat, List.set_cons_succ, tensor_append_get, data_init]
  rw [setTensor_ok _ h.tensors.length _ _ (tensor_append_get _ _ _)]
  simp [initCell]
theorem tensor_init_fatal (MAX_DIM : Int) (h : Heap α) (ndims : Int) (shape : List Int)
    (junk : Nat → Int) (fill : Nat → α) (hlen : MAX_DIM.toNat ≤ shape.length)
    (hbad : ndims < 1 ∨ ndims > MAX_DIM ∨ BadAxis ndims.toNat shape) :
    tensor_init MAX_DIM h ndims shape junk fill = Except.error (Fault.fatal, h) := by
  unfold tensor_init tensor_shallow_init check_size
  by_cases hchk : ndims < 1 ∨ ndims > MAX_DIM
  · simp only [hchk, decide_True, TENSOR_CHECK_true, bind_error]
  · have hb : BadAxis ndims.toNat shape := by
      rcases hbad with h1 | h1 | h1
      · exact absurd (Or.inl h1) hchk
      · exact absurd (Or.inr h1) hchk
      · exact h1
    have hloop : forLoop ndims.toNat (fun i _ => do
        let v ← arrGet h shape i
        _shape_check h v) () = Except.error (Fault.fatal, h) := by
      rcases check_loop_eq h shape ndims.toNat (by omega) with ⟨e, _⟩ | ⟨_, hg⟩
      · exact e
      · exact absurd hb hg
    simp only [hchk, decide_False, TENSOR_CHECK_false, bind_ok, hloop, bind_error]

/-- Claim C10, amended. For a shape array of at least `MAX_DIM` entries,
`tensor_init` takes the fatal path exactly when `ndims < 1`, `ndims > MAX_DIM`
or some component below `ndims` is smaller than 1. Otherwise, provided the
product of the first `ndims` components fits in an `int`, it returns a new
tensor with that `ndims`, those components, length equal to their product,
offset 0 and a new buffer of that capacity whose reference count is 1. -/
theorem tensor_init_spec (MAX_DIM : Int) (h : Heap α) (ndims : Int) (shape : List Int)
    (junk : Nat → Int) (fill : Nat → α) (hlen : MAX_DIM.toNat ≤ shape.length) :
    ((∃ h2, tensor_init MAX_DIM h ndims shape junk fill = Except.error (Fault.fatal, h2))
      ↔ (ndims < 1 ∨ ndims > MAX_DIM ∨ BadAxis ndims.toNat shape)) ∧
    (¬ (ndims < 1 ∨ ndims > MAX_DIM ∨ BadAxis ndims.toNat shape) →
      shapeProd ndims.toNat shape ≤ 2147483647 →
      ∃ p h2 t d b, tensor_init MAX_DIM h ndims shape junk fill = Except.ok (p, h2) ∧
        (∀ u, h.tensor p ≠ Except.ok u) ∧ h2.tensor p = Except.ok t ∧
        t.ndims = ndims ∧ (∀ i : Nat, i < ndims.toNat → t.shape[i]? = shape[i]?) ∧
        t.length = shapeProd ndims.toNat shape ∧ t.offset = 0 ∧
        t.data = some d ∧ h.datas[d]? = none ∧ h2.datas[d]? = some b ∧
        (b.elems.length : Int) = t.length ∧ b.refcount = 1 ∧ b.freed = false) := by
  constructor
  · constructor
    · rintro ⟨h2, e⟩
      by_contra hgood
      push_neg at hgood
      rw [tensor_init_ok MAX_DIM h ndims shape junk fill hlen (by omega) (by omega) hgood.2.2] at e
      cases e
    · intro hbad
      exact ⟨h, tensor_init_fatal MAX_DIM h ndims shape junk fill hlen hbad⟩
  · intro hgood hfit
    push_neg at hgood
    have hn : ndims.toNat ≤ shape.length := by omega
    have hpos := shapeProd_pos shape ndims.toNat hn hgood.2.2
    have hw : wrap32 (shapeProd ndims.toNat shape) = shapeProd ndims.toNat shape :=
      wrap32_eq _ (by omega) hfit
    refine ⟨some h.tensors.length, _, initCell MAX_DIM ndims shape junk h.datas.length,
      h.datas.length,
      ⟨(List.range (wrap32 (shapeProd ndims.toNat shape)).toNat).map fill, 1, false⟩,
      tensor_init_ok MAX_DIM h ndims shape junk fill hlen (by omega) (by omega) hgood.2.2,
      ?_, tensor_append_get _ _ _, rfl, ?_, hw, rfl, rfl, ?_, ?_, ?_, rfl, rfl⟩
    · intro u hu
      have := tensor_lt_length h _ u hu
      omega
    · intro i hi
      exact take_append_drop_get _ _ _ i hi hn
    · simp
    · simp
    · simp only [List.length_map, List.length_range, initCell, hw]
      omega

/-- Claim C10 at a concrete input: `MAX_DIM = 2`, `ndims = 2`, shape `[3, 2]`, on
the empty heap. -/
theorem tensor_init_spec_witness :
    ((∃ h2, tensor_init 2 emptyHeap 2 [3, 2] (fun _ => 0) (fun _ => 0)
        = Except.error (Fault.fatal, h2))
      ↔ ((2 : Int) < 1 ∨ (2 : Int) > 2 ∨ BadAxis (2 : Int).toNat [3, 2])) ∧
    (¬ ((2 : Int) < 1 ∨ (2 : Int) > 2 ∨ BadAxis (2 : Int).toNat [3, 2]) →
      shapeProd (2 : Int).toNat [3, 2] ≤ 2147483647 →
      ∃ p h2 t d b, tensor_init 2 emptyHeap 2 [3, 2] (fun _ => 0) (fun _ => 0)
          = Except.ok (p, h2) ∧
        (∀ u, emptyHeap.tensor p ≠ Except.ok u) ∧ h2.tensor p = Except.ok t ∧
        t.ndims = 2 ∧ (∀ i : Nat, i < (2 : Int).toNat → t.shape[i]? = [3, 2][i]?) ∧
        t.length = shapeProd (2 : Int).toNat [3, 2] ∧ t.offset = 0 ∧
        t.data = some d ∧ emptyHeap.datas[d]? = none ∧ h2.datas[d]? = some b ∧
        (b.elems.length : Int) = t.length ∧ b.refcount = 1 ∧ b.freed = false) :=
  tensor_init_spec 2 emptyHeap 2 [3, 2] (fun _ => 0) (fun _ => 0) (by decide)

/-- Claim C10 fails as stated: for the shape `[65536, 65536]`, every component
of which is at least 1, `tensor_init` returns a tensor of length `0` on a
buffer of capacity `0`, while the product of the components is `4294967296`. -/
theorem tensor_init_length_overflow :
    tensor_init 2 emptyHeap 2 [65536, 65536] (fun _ => 0) (fun _ => 0) = Except.ok
      (some 0, { datas := [⟨[], 1, false⟩],
                 tensors := [some { data := some 0, shape := [65536, 65536], ndims := 2,
                                    length := 0, offset := 0, strides := [1, 0] }] }) ∧
    shapeProd 2 [65536, 65536] = 4294967296 ∧
    ¬ (∃ p h2 t, tensor_init 2 emptyHeap 2 [65536, 65536] (fun _ => 0) (fun _ => 0)
        = Except.ok (p, h2) ∧ h2.tensor p = Except.ok t ∧
        t.length = shapeProd 2 [65536, 65536]) := by
  have e : tensor_init 2 emptyHeap 2 [65536, 65536] (fun _ => 0) (fun _ => 0) = Except.ok
      (some 0, { datas := [⟨[], 1, false⟩],
                 tensors := [some { data := some 0, shape := [65536, 65536], ndims := 2,
                                    length := 0, offset := 0, strides := [1, 0] }] }) := by
    rfl
  refine ⟨e, by decide, ?_⟩
  rintro ⟨p, h2, t, e1, e2, e3⟩
  rw [e] at e1
  cases e1
  cases e2
  revert e3
  decide

/-! ## Filling a new tensor -/

theorem wrap32_le (x : Int) : wrap32 x ≤ 2147483647 := by
  unfold wrap32; omega

theorem wrap32_ge (x : Int) : -2147483648 ≤ wrap32 x := by
  unfold wrap32; omega

/-- A loop that stores `g i` in every logical element `i < n` of a tensor
returns, and afterwards element `i` reads `g i`. -/
theorem fill_loop_spec (h : Heap α) (p : TPtr) (t : Tensor) (d : Nat) (n : Nat) (g : Nat → α)
    (hl : h.tensor p = Except.ok t) (hd : t.data = some d)
    (hn : ∀ x : Nat, x < n → (x : Int) < t.length)
    (hoff : 0 ≤ t.offset) (hmax : t.offset + t.length ≤ 2147483648)
    (hc : ∀ x : Nat, x < n → (h.cell d (t.offset + x)).isSome) :
    ∃ h2, forLoop n (fun i h => tensor_set_at_ h p (g i) i) h = Except.ok h2 ∧
      h2.tensors = h.tensors ∧
      ∀ i : Nat, i < n → tensor_get_at_ h2 p i = Except.ok (g i) := by
  obtain ⟨h2, e2, t2, c2, _⟩ := forLoop_inv (fun i st => Filled h d t.offset n g i st) n
    (fun i h => tensor_set_at_ h p (g i) i) h
    ⟨rfl, fun x hx => by omega, hc⟩
    (by
      intro i st hi ⟨ht, hv, hs⟩
      obtain ⟨s2, e2, t2, _, c2⟩ := tensor_set_at_ok st p t d i (g i)
        (tensor_ok_of_tensors_eq h st ht p t hl) hd (hn i hi) hoff hmax (hs i hi)
      refine ⟨s2, e2, t2.trans ht, ?_, ?_⟩
      · intro x hx
        rw [c2]
        by_cases hxi : x = i
        · subst hxi; simp
        · have : ¬ (t.offset + (x : Int) = t.offset + (i : Int)) := by omega
          simp only [this, and_false, if_false]
          exact hv x (by omega)
      · intro x hx
        rw [c2]
        split
        · rfl
        · exact hs x hx)
  refine ⟨h2, e2, t2, ?_⟩
  intro i hi
  exact tensor_get_at_of_cell h2 p t d i (g i) (tensor_ok_of_tensors_eq h h2 t2 p t hl) hd
    (hn i hi) hoff hmax (c2 i hi)

/-- After a successful `tensor_init`, filling the new tensor with `g` returns
and every logical element `i` below the length reads `g i`. -/
theorem init_then_fill (MAX_DIM : Int) (h : Heap α) (ndims : Int) (shape : List Int)
    (junk : Nat → Int) (fill : Nat → α) (g : Nat → α) (hlen : MAX_DIM.toNat ≤ shape.length)
    (hok : ¬ (ndims < 1 ∨ ndims > MAX_DIM ∨ BadAxis ndims.toNat shape)) :
    ∃ p h1 h2 t, tensor_init MAX_DIM h ndims shape junk fill = Except.ok (p, h1) ∧
      h1.tensor p = Except.ok t ∧
      forLoop t.length.toNat (fun i h => tensor_set_at_ h p (g i) i) h1 = Except.ok h2 ∧
      h2.tensor p = Except.ok t ∧
      ∀ i : Nat, (i : Int) < t.length → tensor_get_at_ h2 p i = Except.ok (g i) := by
  push_neg at hok
  have e1 := tensor_init_ok MAX_DIM h ndims shape junk fill hlen (by omega) (by omega) hok.2.2
  have hL := wrap32_le (shapeProd ndims.toNat shape)
  have hlive : Heap.tensor
      (Heap.mk (h.datas ++
        [⟨(List.range (wrap32 (shapeProd ndims.toNat shape)).toNat).map fill, 1, false⟩])
        (h.tensors ++ [some (initCell MAX_DIM ndims shape junk h.datas.length)]))
      (some h.tensors.length)
      = Except.ok (initCell MAX_DIM ndims shape junk h.datas.length) := tensor_append_get _ _ _
  obtain ⟨h2, e2, t2, r2⟩ := fill_loop_spec _ (some h.tensors.length)
    (initCell MAX_DIM ndims shape junk h.datas.length) h.datas.length
    (wrap32 (shapeProd ndims.toNat shape)).toNat g hlive rfl
    (by intro x hx; simp only [initCell]; omega) (by simp [initCell])
    (by simp only [initCell]; omega)
    (by
      intro x hx
      have hb : (Heap.mk (h.datas ++
          [⟨(List.range (wrap32 (shapeProd ndims.toNat shape)).toNat).map fill, 1, false⟩])
          (h.tensors ++ [some (initCell MAX_DIM ndims shape junk h.datas.length)])).datas[
            h.datas.length]?
          = some ⟨(List.range (wrap32 (shapeProd ndims.toNat shape)).toNat).map fill, 1, false⟩ := by
        simp
      have := cell_of_buffer _ h.datas.length _ hb rfl x (by simpa using hx)
      have e0 : (initCell MAX_DIM ndims shape junk h.datas.length).offset + (x : Int) = (x : Int) := by
        simp [initCell]
      rw [e0, this]; rfl)
  refine ⟨_, _, h2, _, e1, hlive, e2, tensor_ok_of_tensors_eq _ h2 t2 _ _ hlive, ?_⟩
  intro i hi
  exact r2 i (by simp only [initCell] at hi; omega)

/-! ## `randn` and `tensor_rand` -/

theorem randn_bounds (RAND_MAX r : Nat) (hr : r < RAND_MAX) :
    -1 ≤ randn RAND_MAX r ∧ randn RAND_MAX r < 1 := by
  unfold randn
  have hpos : (0 : ℚ) < (RAND_MAX : ℚ) := by
    have : 0 < RAND_MAX := by omega
    exact_mod_cast this
  have hnum : (((2 * r) % 4294967296 : Nat) : ℚ) < 2 * (RAND_MAX : ℚ) := by
    have h1 : (2 * r) % 4294967296 < 2 * RAND_MAX := by
      have := Nat.mod_le (2 * r) 4294967296
      omega
    exact_mod_cast h1
  have hnn : (0 : ℚ) ≤ (((2 * r) % 4294967296 : Nat) : ℚ) := by positivity
  constructor
  · have : (0 : ℚ) ≤ (((2 * r) % 4294967296 : Nat) : ℚ) / (RAND_MAX : ℚ) :=
      div_nonneg hnn hpos.le
    linarith
  · have : (((2 * r) % 4294967296 : Nat) : ℚ) / (RAND_MAX : ℚ) < 2 := by
      rw [div_lt_iff₀ hpos]
      exact hnum
    linarith

/-- Claim C16 fails as stated: the generator can return `r = 0`, and then `randn`
is exactly `-1`, which is not strictly inside the open interval `(-1, 1)`. -/
theorem randn_attains_minus_one :
    (0 : Nat) < 2147483647 ∧ randn 2147483647 0 = -1 ∧
    ¬ (-1 < randn 2147483647 0 ∧ randn 2147483647 0 < 1) := by
  have e : randn 2147483647 0 = -1 := by
    unfold randn
    norm_num
  refine ⟨by decide, e, ?_⟩
  rw [e]
  intro hx
  exact absurd hx.1 (lt_irrefl _)

/-! ## Element-wise operations: the validation path -/

theorem noFatal_data_raw_ptr (h : Heap α) (d : Option Nat) : NoFatal (data_raw_ptr h d) := by
  unfold data_raw_ptr
  exact noFatal_bind _ _ (noFatal_buffer h d) (fun r => noFatal_ok _)

theorem noFatal_tensor_data (h : Heap α) (p : TPtr) : NoFatal (tensor_data h p) := by
  unfold tensor_data
  exact noFatal_bind _ _ (noFatal_tensor h p) (fun t =>
    noFatal_bind _ _ (noFatal_data_raw_ptr _ _) (fun _ => noFatal_ok _))

theorem noFatal_rawGet (h : Heap α) (p : RawPtr) (i : Int) : NoFatal (rawGet h p i) :=
  noFatal_data_get _ _ _

theorem noFatal_rawSet (h : Heap α) (p : RawPtr) (i : Int) (v : α) : NoFatal (rawSet h p i v) :=
  noFatal_data_insert _ _ _ _

theorem noFatal_point_wise (op : α → α → α) (h : Heap α) (a b c : RawPtr) (n : Nat) :
    NoFatal (point_wise op h a b c n) := by
  unfold point_wise
  exact noFatal_forLoop _ _ _ (fun i st =>
    noFatal_bind _ _ (noFatal_rawGet _ _ _) (fun x =>
      noFatal_bind _ _ (noFatal_rawGet _ _ _) (fun y => noFatal_rawSet _ _ _ _)))

/-- The validation of `tensor_binary_point_wise_op`: the fatal path is taken
exactly when the operand shapes differ, and then with the heap untouched. -/
theorem binary_op_fatal_iff (op : α → α → α) (h : Heap α) (dest ta tb : TPtr) (a b : Tensor)
    (ra ca rb cb : Nat) (sa : Shaped h ta a ra ca) (sb : Shaped h tb b rb cb) :
    ((∃ h2, tensor_binary_point_wise_op op h dest ta tb = Except.error (Fault.fatal, h2))
      ↔ (ra ≠ rb ∨ ca ≠ cb)) ∧
    (∀ h2, tensor_binary_point_wise_op op h dest ta tb = Except.error (Fault.fatal, h2)
      → h2 = h) := by
  have key : tensor_binary_point_wise_op op h dest ta tb =
      if ra ≠ rb ∨ ca ≠ cb then Except.error (Fault.fatal, h)
      else (do
        let pa ← tensor_data h ta
        let pb ← tensor_data h tb
        let pc ← tensor_data h dest
        point_wise op h pa pb pc (toUnsigned a.length)) := by
    unfold tensor_binary_point_wise_op
    rw [sa.live, bind_ok, sb.live, bind_ok, arrGet_of h _ _ _ sa.shape0, bind_ok,
      arrGet_of h _ _ _ sb.shape0, bind_ok]
    by_cases h1 : ra = rb
    · subst h1
      simp only [ne_eq, not_true_eq_false, if_false, false_or]
      rw [arrGet_of h _ _ _ sa.shape1, bind_ok, arrGet_of h _ _ _ sb.shape1, bind_ok]
      by_cases h2 : ca = cb
      · subst h2
        simp only [not_true_eq_false, if_false]
      · have h2i : ¬ ((ca : Int) = (cb : Int)) := by exact_mod_cast h2
        simp only [h2i, h2, not_false_eq_true, if_true]
    · have h1i : ¬ ((ra : Int) = (rb : Int)) := by exact_mod_cast h1
      simp only [ne_eq, h1i, h1, not_false_eq_true, if_true, true_or]
  have hnf : NoFatal (do
        let pa ← tensor_data h ta
        let pb ← tensor_data h tb
        let pc ← tensor_data h dest
        point_wise op h pa pb pc (toUnsigned a.length)) :=
    noFatal_bind _ _ (noFatal_tensor_data _ _) (fun _ =>
      noFatal_bind _ _ (noFatal_tensor_data _ _) (fun _ =>
        noFatal_bind _ _ (noFatal_tensor_data _ _) (fun _ => noFatal_point_wise _ _ _ _ _ _)))
  rw [key]
  by_cases hc : ra ≠ rb ∨ ca ≠ cb
  · rw [if_pos hc]
    refine ⟨⟨fun _ => hc, fun _ => ⟨h, rfl⟩⟩, ?_⟩
    intro h2 e
    cases e
    rfl
  · rw [if_neg hc]
    refine ⟨⟨fun ⟨h2, e⟩ => absurd e (hnf h2), fun e => absurd e hc⟩, ?_⟩
    intro h2 e
    exact absurd e (hnf h2)

/-- Claim C13. For a non-null `dest` and live tensors `a`, `b` with shape
components `[ra, ca]` and `[rb, cb]`, `tensor_plus` and `tensor_mul` take the
fatal path exactly when `ra ≠ rb` or `ca ≠ cb`, and when they do the heap at
that moment is the initial heap: no element of `dest` has been written. -/
theorem tensor_plus_mul_fatal_iff [Add α] [Mul α] (h : Heap α) (dest ta tb : TPtr)
    (a b : Tensor) (ra ca rb cb : Nat) (hne : dest ≠ none)
    (sa : Shaped h ta a ra ca) (sb : Shaped h tb b rb cb) :
    (((∃ h2, tensor_plus h dest ta tb = Except.error (Fault.fatal, h2)) ↔ (ra ≠ rb ∨ ca ≠ cb)) ∧
      (∀ h2, tensor_plus h dest ta tb = Except.error (Fault.fatal, h2) → h2 = h)) ∧
    (((∃ h2, tensor_mul h dest ta tb = Except.error (Fault.fatal, h2)) ↔ (ra ≠ rb ∨ ca ≠ cb)) ∧
      (∀ h2, tensor_mul h dest ta tb = Except.error (Fault.fatal, h2) → h2 = h)) := by
  have e1 : tensor_plus h dest ta tb
      = tensor_binary_point_wise_op (fun x y => x + y) h dest ta tb := by
    unfold tensor_plus
    simp only [hne, decide_False, TENSOR_CHECK_false, bind_ok]
  have e2 : tensor_mul h dest ta tb
      = tensor_binary_point_wise_op (fun x y => x * y) h dest ta tb := by
    unfold tensor_mul
    simp only [hne, decide_False, TENSOR_CHECK_false, bind_ok]
  rw [e1, e2]
  exact ⟨binary_op_fatal_iff _ h dest ta tb a b ra ca rb cb sa sb,
    binary_op_fatal_iff _ h dest ta tb a b ra ca rb cb sa sb⟩

/-- Claim C13 at a concrete input: operands of shape `[1, 2]` and `[2, 2]`. -/
theorem tensor_plus_mul_fatal_iff_witness :
    (((∃ h2, tensor_plus exCat (some 2) (some 0) (some 1) = Except.error (Fault.fatal, h2))
        ↔ (1 ≠ 2 ∨ 2 ≠ 2)) ∧
      (∀ h2, tensor_plus exCat (some 2) (some 0) (some 1) = Except.error (Fault.fatal, h2)
        → h2 = exCat)) ∧
    (((∃ h2, tensor_mul exCat (some 2) (some 0) (some 1) = Except.error (Fault.fatal, h2))
        ↔ (1 ≠ 2 ∨ 2 ≠ 2)) ∧
      (∀ h2, tensor_mul exCat (some 2) (some 0) (some 1) = Except.error (Fault.fatal, h2)
        → h2 = exCat)) :=
  tensor_plus_mul_fatal_iff exCat (some 2) (some 0) (some 1)
    (mkTensor 0 1 2 0) (mkTensor 1 2 2 0) 1 2 2 2 (by decide)
    ⟨rfl, rfl, rfl, by decide, by decide⟩ ⟨rfl, rfl, rfl, by decide, by decide⟩

/-! ## Element-wise and unary operations: what the validation accepts -/

/-- Claim C20 fails on the code: `tensor_plus` (and `tensor_mul`) never look at
the destination. With operands of shape `[2, 2]` and a destination of length 1
the call passes validation and the kernel writes four cells, three of them
beyond the logical range `[0, 1)` of the destination. -/
theorem tensor_plus_writes_beyond_dest :
    (∃ td, exSmallDest.tensor (some 2) = Except.ok td ∧ td.length = 1 ∧ td.offset = 0) ∧
    tensor_plus exSmallDest (some 2) (some 0) (some 1) = Except.ok
      { exSmallDest with datas := [⟨[1, 2, 3, 4], 1, false⟩, ⟨[5, 6, 7, 8], 1, false⟩,
          ⟨[6, 8, 10, 12], 1, false⟩] } ∧
    tensor_mul exSmallDest (some 2) (some 0) (some 1) = Except.ok
      { exSmallDest with datas := [⟨[1, 2, 3, 4], 1, false⟩, ⟨[5, 6, 7, 8], 1, false⟩,
          ⟨[5, 12, 21, 32], 1, false⟩] } :=
  ⟨⟨_, rfl, rfl, rfl⟩, rfl, rfl⟩

/-- Claim C15, amended. For live tensors `dest` and `src`, `tensor_sigmoid` and
`tensor_tanh` (any scalar function) take the fatal path, with the heap
untouched, whenever the lengths of `dest` and `src` differ. -/
theorem tensor_sigmoid_fatal_of_length (f : α → α) (h : Heap α) (dest src : TPtr)
    (t s : Tensor) (ht : h.tensor dest = Except.ok t) (hs : h.tensor src = Except.ok s)
    (hne : t.length ≠ s.length) :
    tensor_sigmoid f h dest src = Except.error (Fault.fatal, h) := by
  have hd : dest ≠ none := by
    intro e; rw [e] at ht; cases ht
  have hsn : src ≠ none := by
    intro e; rw [e] at hs; cases hs
  unfold tensor_sigmoid tensor_unary_point_wise_op
  simp only [hd, hsn, decide_False, TENSOR_CHECK_false, bind_ok, ht, hs, ne_eq, hne,
    not_false_eq_true, decide_True, TENSOR_CHECK_true, bind_error]

/-- Claim C15 at a concrete input: a destination of length 2 and a source of
length 6. -/
theorem tensor_sigmoid_fatal_of_length_witness :
    tensor_sigmoid (fun x => x + 1) exSel (some 1) (some 0) = Except.error (Fault.fatal, exSel) :=
  tensor_sigmoid_fatal_of_length (fun x => x + 1) exSel (some 1) (some 0)
    (mkTensor 1 1 2 0) (mkTensor 0 3 2 0) rfl rfl (by decide)

/-- Claim C15 fails as stated: with a destination of shape `[2, 3]` and a source
of shape `[3, 2]` both axes differ, but the lengths agree and the call is
accepted: it returns, the destination now aliasing the source. -/
theorem tensor_sigmoid_accepts_shape_mismatch :
    (∃ td s, exUnary.tensor (some 1) = Except.ok td ∧ exUnary.tensor (some 0) = Except.ok s ∧
      td.shape[0]? = some 2 ∧ s.shape[0]? = some 3 ∧
      td.shape[1]? = some 3 ∧ s.shape[1]? = some 2) ∧
    tensor_sigmoid (fun x => x + 1) exUnary (some 1) (some 0) = Except.ok
      { datas := [⟨[2, 3, 4, 5, 6, 7], 2, false⟩, ⟨[0, 0, 0, 0, 0, 0], 0, true⟩],
        tensors := [some (mkTensor 0 3 2 0), some (mkTensor 0 3 2 0)] } :=
  ⟨⟨_, _, rfl, rfl, rfl, rfl, rfl, rfl⟩, rfl⟩

/-! ## Element-wise operations: the result -/

/-- The kernels `matrix_addition` and `hadamard_product`: when element `i` of
either operand is never a cell written for an earlier index, the call returns
and cell `i` of `c` holds `op a[i] b[i]` computed from the initial values. -/
theorem point_wise_spec (op : α → α → α) (h : Heap α) (a b c : RawPtr) (n : Nat)
    (hA : ∀ x : Nat, x < n → (h.cell a.buf (a.off + x)).isSome)
    (hB : ∀ x : Nat, x < n → (h.cell b.buf (b.off + x)).isSome)
    (hC : ∀ x : Nat, x < n → (h.cell c.buf (c.off + x)).isSome)
    (hac : ∀ i x : Nat, x < i → i < n → ¬ (a.buf = c.buf ∧ a.off + i = c.off + x))
    (hbc : ∀ i x : Nat, x < i → i < n → ¬ (b.buf = c.buf ∧ b.off + i = c.off + x)) :
    ∃ h2, point_wise op h a b c n = Except.ok h2 ∧ Pointwise op h a b c n h2 := by
  unfold point_wise
  refine forLoop_inv (fun i st => Pointwise op h a b c i st) n _ h
    ⟨rfl, fun x hx => by omega, fun _ _ _ => rfl⟩ ?_
  intro i st hi ⟨ht, hv, hfr⟩
  obtain ⟨u, hu⟩ := cell_get_some h _ _ (hA i hi)
  obtain ⟨v, hv2⟩ := cell_get_some h _ _ (hB i hi)
  have hx : st.cell a.buf (a.off + i) = some u := by
    rw [hfr]
    · exact hu
    · rintro ⟨e1, x, hx, e2⟩
      exact hac i x hx hi ⟨e1, e2⟩
  have hy : st.cell b.buf (b.off + i) = some v := by
    rw [hfr]
    · exact hv2
    · rintro ⟨e1, x, hx, e2⟩
      exact hbc i x hx hi ⟨e1, e2⟩
  have hz : (st.cell c.buf (c.off + i)).isSome := by
    rw [hfr]
    · exact hC i hi
    · rintro ⟨_, x, hx, e2⟩
      omega
  obtain ⟨s2, e2, t2, c2⟩ := rawSet_ok st c i (op u v) hz
  refine ⟨s2, ?_, t2.trans ht, ?_, ?_⟩
  · show (rawGet st a i >>= fun x => rawGet st b i >>= fun y => rawSet st c i (op x y)) = _
    rw [rawGet_of_cell _ _ _ _ hx, bind_ok, rawGet_of_cell _ _ _ _ hy, bind_ok]
    exact e2
  · intro x hx
    by_cases hxi : x = i
    · subst hxi
      refine ⟨u, v, hu, hv2, ?_⟩
      rw [c2]; simp
    · obtain ⟨u2, v2, e1, e3, e4⟩ := hv x (by omega)
      refine ⟨u2, v2, e1, e3, ?_⟩
      rw [c2]
      have : ¬ (c.off + (x : Int) = c.off + (i : Int)) := by omega
      simp only [this, and_false, if_false]
      exact e4
  · intro bb idx hno
    rw [c2]
    have : ¬ (bb = c.buf ∧ idx = c.off + (i : Int)) := by
      rintro ⟨e1, e2⟩
      exact hno ⟨e1, i, by omega, e2⟩
    simp only [this, if_false]
    apply hfr
    rintro ⟨e1, y, hy, e2⟩
    exact hno ⟨e1, y, by omega, e2⟩

theorem toUnsigned_of_nat (n : Nat) (hn : n ≤ 2147483647) : toUnsigned (n : Int) = n := by
  unfold toUnsigned
  omega

/-- The element-wise wrapper on well-formed tensors of equal shape. -/
theorem binary_op_spec (op : α → α → α) (h : Heap α) (dest ta tb : TPtr) (td a b : Tensor)
    (r c rd cd : Nat)
    (vd : View h dest td rd cd) (va : View h ta a r c) (vb : View h tb b r c)
    (hlen : a.length ≤ td.length)
    (hda : (td.data = a.data ∧ td.offset = a.offset) ∨ td.data ≠ a.data ∨
      td.offset + td.length ≤ a.offset ∨ a.offset + a.length ≤ td.offset)
    (hdb : (td.data = b.data ∧ td.offset = b.offset) ∨ td.data ≠ b.data ∨
      td.offset + td.length ≤ b.offset ∨ b.offset + b.length ≤ td.offset) :
    ∃ h2, tensor_binary_point_wise_op op h dest ta tb = Except.ok h2 ∧
      h2.tensors = h.tensors ∧
      ∀ i : Nat, i < r * c → ∃ x y, tensor_get_at_ h ta i = Except.ok x ∧
        tensor_get_at_ h tb i = Except.ok y ∧ tensor_get_at_ h2 dest i = Except.ok (op x y) := by
  obtain ⟨dd, bd, ed1, ed2, ed3, ed4, ed5⟩ := vd.buf
  obtain ⟨da, ba, ea1, ea2, ea3, ea4, ea5⟩ := va.buf
  obtain ⟨db, bb, eb1, eb2, eb3, eb4, eb5⟩ := vb.buf
  have hdoff := vd.off
  have haoff := va.off
  have hboff := vb.off
  have halen := va.len
  have hblen := vb.len
  have hrc := va.len_le
  have hal : a.length = ((r * c : Nat) : Int) := by rw [halen]; push_cast; ring
  have hbl : b.length = ((r * c : Nat) : Int) := by rw [hblen]; push_cast; ring
  have hcC : ∀ x : Nat, x < r * c → (h.cell dd (td.offset + x)).isSome := by
    intro x hx
    have hb : (td.offset + x).toNat < bd.elems.length := by omega
    have := cell_of_buffer h dd bd ed2 ed3 (td.offset + x).toNat hb
    rw [Int.toNat_of_nonneg (by omega)] at this
    rw [this]; rfl
  obtain ⟨h2, e2, t2, r2, _⟩ := point_wise_spec op h
    { buf := da, off := a.offset } { buf := db, off := b.offset } { buf := dd, off := td.offset }
    (r * c) (fun x hx => va.cell_isSome da ea1 x hx) (fun x hx => vb.cell_isSome db eb1 x hx) hcC
    (by
      intro i x hx hi
      rintro ⟨e1, e2⟩
      simp only at e1 e2
      rcases hda with ⟨_, h1⟩ | h1 | h1 | h1
      · omega
      · apply h1; rw [ed1, ea1, e1]
      · omega
      · omega)
    (by
      intro i x hx hi
      rintro ⟨e1, e2⟩
      simp only at e1 e2
      rcases hdb with ⟨_, h1⟩ | h1 | h1 | h1
      · omega
      · apply h1; rw [ed1, eb1, e1]
      · omega
      · omega)
  refine ⟨h2, ?_, t2, ?_⟩
  · unfold tensor_binary_point_wise_op
    rw [va.live, bind_ok, vb.live, bind_ok, arrGet_of h _ _ _ va.shape0, bind_ok,
      arrGet_of h _ _ _ vb.shape0, bind_ok]
    simp only [ne_eq, not_true_eq_false, if_false]
    rw [arrGet_of h _ _ _ va.shape1, bind_ok, arrGet_of h _ _ _ vb.shape1, bind_ok]
    simp only [not_true_eq_false, if_false]
    rw [va.data_ptr da ea1, bind_ok, vb.data_ptr db eb1, bind_ok, vd.data_ptr dd ed1, bind_ok,
      hal, toUnsigned_of_nat _ hrc]
    exact e2
  · intro i hi
    have hi2 : ((i : Nat) : Int) < ((r * c : Nat) : Int) := by exact_mod_cast hi
    obtain ⟨x, y, ex, ey, ez⟩ := r2 i hi
    refine ⟨x, y, ?_, ?_, ?_⟩
    · exact tensor_get_at_of_cell h ta a da i x va.live ea1 (by omega) haoff (by omega) ex
    · exact tensor_get_at_of_cell h tb b db i y vb.live eb1 (by omega) hboff (by omega) ey
    · exact tensor_get_at_of_cell h2 dest td dd i _
        (tensor_ok_of_tensors_eq h h2 t2 dest td vd.live) ed1 (by omega) hdoff (by omega) ez

/-- Claim C12. For well-formed rank-2 tensors `a` and `b` of equal shape and a
well-formed `dest` with `dest.length ≥ a.length` whose range starts where that
of each operand starts, or is disjoint from it, `tensor_plus` returns with
element `i` of `dest` equal to `a[i] + b[i]` and `tensor_mul` with `a[i] * b[i]`
(operand values taken before the call), for every `i < a.length`; no tensor
cell changes. -/
theorem tensor_plus_mul_elementwise [Add α] [Mul α] (h : Heap α) (dest ta tb : TPtr)
    (td a b : Tensor) (r c rd cd : Nat)
    (vd : View h dest td rd cd) (va : View h ta a r c) (vb : View h tb b r c)
    (hlen : a.length ≤ td.length)
    (hda : (td.data = a.data ∧ td.offset = a.offset) ∨ td.data ≠ a.data ∨
      td.offset + td.length ≤ a.offset ∨ a.offset + a.length ≤ td.offset)
    (hdb : (td.data = b.data ∧ td.offset = b.offset) ∨ td.data ≠ b.data ∨
      td.offset + td.length ≤ b.offset ∨ b.offset + b.length ≤ td.offset) :
    (∃ h2, tensor_plus h dest ta tb = Except.ok h2 ∧ h2.tensors = h.tensors ∧
      ∀ i : Nat, i < r * c → ∃ x y, tensor_get_at_ h ta i = Except.ok x ∧
        tensor_get_at_ h tb i = Except.ok y ∧ tensor_get_at_ h2 dest i = Except.ok (x + y)) ∧
    (∃ h2, tensor_mul h dest ta tb = Except.ok h2 ∧ h2.tensors = h.tensors ∧
      ∀ i : Nat, i < r * c → ∃ x y, tensor_get_at_ h ta i = Except.ok x ∧
        tensor_get_at_ h tb i = Except.ok y ∧ tensor_get_at_ h2 dest i = Except.ok (x * y)) := by
  have hne := vd.ne_none
  have e1 : tensor_plus h dest ta tb
      = tensor_binary_point_wise_op (fun x y => x + y) h dest ta tb := by
    unfold tensor_plus
    simp only [hne, decide_False, TENSOR_CHECK_false, bind_ok]
  have e2 : tensor_mul h dest ta tb
      = tensor_binary_point_wise_op (fun x y => x * y) h dest ta tb := by
    unfold tensor_mul
    simp only [hne, decide_False, TENSOR_CHECK_false, bind_ok]
  rw [e1, e2]
  exact ⟨binary_op_spec _ h dest ta tb td a b r c rd cd vd va vb hlen hda hdb,
    binary_op_spec _ h dest ta tb td a b r c rd cd vd va vb hlen hda hdb⟩

/-- Claim C12 at a concrete input: `[[1,2],[3,4]]` and `[[5,6],[7,8]]` into a
`2 × 2` destination on a buffer of its own. -/
theorem tensor_plus_mul_elementwise_witness :
    (∃ h2, tensor_plus exMat (some 2) (some 0) (some 1) = Except.ok h2 ∧
      h2.tensors = exMat.tensors ∧
      ∀ i : Nat, i < 2 * 2 → ∃ x y, tensor_get_at_ exMat (some 0) i = Except.ok x ∧
        tensor_get_at_ exMat (some 1) i = Except.ok y ∧
        tensor_get_at_ h2 (some 2) i = Except.ok (x + y)) ∧
    (∃ h2, tensor_mul exMat (some 2) (some 0) (some 1) = Except.ok h2 ∧
      h2.tensors = exMat.tensors ∧
      ∀ i : Nat, i < 2 * 2 → ∃ x y, tensor_get_at_ exMat (some 0) i = Except.ok x ∧
        tensor_get_at_ exMat (some 1) i = Except.ok y ∧
        tensor_get_at_ h2 (some 2) i = Except.ok (x * y)) :=
  tensor_plus_mul_elementwise exMat (some 2) (some 0) (some 1)
    (mkTensor 2 2 2 0) (mkTensor 0 2 2 0) (mkTensor 1 2 2 0) 2 2 2 2
    ⟨rfl, rfl, rfl, rfl, by decide, by decide, ⟨2, _, rfl, rfl, rfl, by decide, by decide⟩,
      by decide, by decide⟩
    ⟨rfl, rfl, rfl, rfl, by decide, by decide, ⟨0, _, rfl, rfl, rfl, by decide, by decide⟩,
      by decide, by decide⟩
    ⟨rfl, rfl, rfl, rfl, by decide, by decide, ⟨1, _, rfl, rfl, rfl, by decide, by decide⟩,
      by decide, by decide⟩
    (by decide) (Or.inr (Or.inl (by decide))) (Or.inr (Or.inl (by decide)))

/-- The element-wise sum in place: `a + b` written over `a` itself. -/
theorem tensor_plus_in_place_example :
    tensor_plus exMat (some 0) (some 0) (some 1) = Except.ok
      { exMat with datas := [⟨[6, 8, 10, 12], 1, false⟩, ⟨[5, 6, 7, 8], 1, false⟩,
          ⟨[9, 9, 9, 9], 1, false⟩] } := by
  rfl

/-! ## Inversion of the elementary operations -/

theorem forLoop_ok_inv {ε σ : Type} (P : σ → Prop) (n : Nat) (body : Nat → σ → Except ε σ)
    (hP : ∀ i s s2, P s → body i s = Except.ok s2 → P s2) (s s2 : σ) (h0 : P s)
    (e : forLoop n body s = Except.ok s2) : P s2 := by
  induction n generalizing s2 with
  | zero =>
    cases e
    exact h0
  | succ k ih =>
    rw [forLoop_succ, bind_eq_ok] at e
    obtain ⟨s1, e1, e2⟩ := e
    exact hP k s1 s2 (ih s1 e1) e2

theorem TENSOR_CHECK_eq_ok (h : Heap α) (c : Bool) (u : Unit)
    (e : TENSOR_CHECK h c = Except.ok u) : c = false := by
  cases c with
  | false => rfl
  | true => cases e

theorem setTensor_eq_ok (h h2 : Heap α) (p : TPtr) (t : Tensor)
    (e : h.setTensor p t = Except.ok h2) :
    ∃ a t0, p = some a ∧ h.tensors[a]? = some (some t0) ∧
      h2 = { h with tensors := h.tensors.set a (some t) } := by
  unfold Heap.setTensor at e
  cases p with
  | none => cases e
  | some a =>
    cases hq : h.tensors[a]? with
    | none => simp [hq] at e
    | some o =>
      cases o with
      | none => simp [hq] at e
      | some t0 =>
        simp only [hq] at e
        cases e
        exact ⟨a, t0, rfl, hq, rfl⟩

theorem buffer_eq_ok (h : Heap α) (d : Option Nat) (r : Nat × Data α)
    (e : h.buffer d = Except.ok r) :
    d = some r.1 ∧ h.datas[r.1]? = some r.2 ∧ r.2.freed = false := by
  unfold Heap.buffer at e
  cases d with
  | none => cases e
  | some n =>
    cases hq : h.datas[n]? with
    | none => simp [hq] at e
    | some b =>
      simp only [hq] at e
      by_cases hf : b.freed = true
      · simp [hf] at e
      · simp only [hf] at e
        cases e
        exact ⟨rfl, hq, by simpa using hf⟩

theorem data_dec_eq_ok (h h2 : Heap α) (d : Option Nat) (e : data_dec h d = Except.ok h2) :
    LiveAt h.datas d ∧ h2 = { h with datas := decOpt h.datas d } := by
  unfold data_dec at e
  rw [bind_eq_ok] at e
  obtain ⟨r, e1, e2⟩ := e
  obtain ⟨hd, hb, hf⟩ := buffer_eq_ok h d r e1
  refine ⟨⟨r.1, r.2, hd, hb, hf⟩, ?_⟩
  cases e2
  subst hd
  simp [decOpt, decAt, hb]

theorem data_inc_eq_ok (h h2 : Heap α) (d : Option Nat) (e : data_inc h d = Except.ok h2) :
    ∃ n, d = some n ∧ LiveAt h.datas d ∧ h2 = { h with datas := incAt h.datas n } := by
  unfold data_inc at e
  rw [bind_eq_ok] at e
  obtain ⟨r, e1, e2⟩ := e
  obtain ⟨hd, hb, hf⟩ := buffer_eq_ok h d r e1
  refine ⟨r.1, hd, ⟨r.1, r.2, hd, hb, hf⟩, ?_⟩
  cases e2
  simp [incAt, hb]

theorem tensor_set_size_data (h : Heap α) (t t2 : Tensor) (ndims : Int) (shape : List Int)
    (length : Int) (e : tensor_set_size h t ndims shape length = Except.ok t2) :
    t2.data = t.data := by
  unfold tensor_set_size at e
  simp only [bind_eq_ok, pure_eq_ok] at e
  obtain ⟨t1, e1, len, _, _, _, e4⟩ := e
  cases e4
  refine forLoop_ok_inv (fun (u : Tensor) => u.data = t.data) _ _ ?_ _ t1 ?_ e1
  · intro i s s2 hs es
    simp only [bind_eq_ok] at es
    obtain ⟨v, _, sh, _, e3⟩ := es
    cases e3
    exact hs
  · show t.data = t.data
    rfl


/-! ## Unary operations in place -/

theorem data_insert_eq_ok (h h2 : Heap α) (d : Option Nat) (v : α) (idx : Int)
    (e : data_insert h d v idx = Except.ok h2) :
    ∃ n b, d = some n ∧ h.datas[n]? = some b ∧ b.freed = false ∧ 0 ≤ idx ∧
      idx.toNat < b.elems.length ∧
      h2 = { h with datas := h.datas.set n ⟨b.elems.set idx.toNat v, b.refcount, b.freed⟩ } := by
  unfold data_insert at e
  rw [bind_eq_ok] at e
  obtain ⟨r, e1, e2⟩ := e
  obtain ⟨hd, hb, hf⟩ := buffer_eq_ok h d r e1
  dsimp only at e2
  split at e2
  · cases e2
  · rename_i hneg
    split at e2
    · rename_i hlt
      cases e2
      exact ⟨r.1, r.2, hd, hb, hf, by omega, hlt, rfl⟩
    · cases e2

theorem rawSet_raw (h h2 : Heap α) (p : RawPtr) (i : Int) (v : α)
    (e : rawSet h p i v = Except.ok h2) (d : Nat) (j : Int) :
    h2.raw d j = if d = p.buf ∧ j = p.off + i then some v else h.raw d j := by
  unfold rawSet at e
  obtain ⟨n, b, hd, hb, hf, h0, hlt, e2⟩ := data_insert_eq_ok h h2 _ v _ e
  cases hd
  subst e2
  have hn : p.buf < h.datas.length := by
    rcases lt_or_ge p.buf h.datas.length with h1 | h1
    · exact h1
    · rw [List.getElem?_eq_none h1] at hb; cases hb
  unfold Heap.raw
  simp only [List.getElem?_set]
  by_cases hdn : p.buf = d
  · subst hdn
    simp only [hn, if_true, hb, true_and]
    by_cases hj : j = p.off + i
    · subst hj
      have : ¬ (p.off + i < 0) := by omega
      simp [this, hlt]
    · simp only [hj, if_false]
      by_cases hj0 : j < 0
      · simp [hj0]
      · have : (p.off + i).toNat ≠ j.toNat := by omega
        simp [hj0, List.getElem?_set, this]
  · have hdn2 : ¬ d = p.buf := fun x => hdn x.symm
    simp [hdn, hdn2]

/-- The kernels `vector_sigmoid` / `vector_tanh` on a readable range: the call
returns, cell `i` holds `f` of its former value, nothing else changes. -/
theorem vector_map_spec (f : α → α) (h : Heap α) (a : RawPtr) (n : Nat)
    (hA : ∀ x : Nat, x < n → (h.cell a.buf (a.off + x)).isSome) :
    ∃ h2, vector_map f h a n = Except.ok h2 ∧ Mapped f h a n h2 := by
  unfold vector_map
  simp only [Int.toNat_ofNat]
  refine forLoop_inv (fun i st => Mapped f h a i st) n _ h
    ⟨rfl, fun x hx => by omega, fun _ _ _ => rfl, fun _ _ _ => rfl⟩ ?_
  intro i st hi ⟨ht, hv, hfr, hraw⟩
  obtain ⟨u, hu⟩ := cell_get_some h _ _ (hA i hi)
  have hx : st.cell a.buf (a.off + i) = some u := by
    rw [hfr]
    · exact hu
    · rintro ⟨_, x, hx, e2⟩
      omega
  obtain ⟨s2, e2, t2, c2⟩ := rawSet_ok st a i (f u) (by rw [hx]; rfl)
  have r2 := rawSet_raw st s2 a i (f u) e2
  refine ⟨s2, ?_, t2.trans ht, ?_, ?_, ?_⟩
  · show (rawGet st a i >>= fun x => rawSet st a i (f x)) = _
    rw [rawGet_of_cell _ _ _ _ hx, bind_ok]
    exact e2
  · intro x hx2
    by_cases hxi : x = i
    · subst hxi
      refine ⟨u, hu, ?_⟩
      rw [c2]; simp
    · obtain ⟨w, e1, e3⟩ := hv x (by omega)
      refine ⟨w, e1, ?_⟩
      rw [c2]
      have : ¬ (a.off + (x : Int) = a.off + (i : Int)) := by omega
      simp only [this, and_false, if_false]
      exact e3
  · intro bb idx hno
    rw [c2]
    have : ¬ (bb = a.buf ∧ idx = a.off + (i : Int)) := by
      rintro ⟨e1, e2⟩
      exact hno ⟨e1, i, by omega, e2⟩
    simp only [this, if_false]
    apply hfr
    rintro ⟨e1, y, hy, e2⟩
    exact hno ⟨e1, y, by omega, e2⟩
  · intro bb idx hno
    rw [r2]
    have : ¬ (bb = a.buf ∧ idx = a.off + (i : Int)) := by
      rintro ⟨e1, e2⟩
      exact hno ⟨e1, i, by omega, e2⟩
    simp only [this, if_false]
    apply hraw
    rintro ⟨e1, y, hy, e2⟩
    exact hno ⟨e1, y, by omega, e2⟩

theorem raw_congr (h1 h2 : Heap α) (d : Nat)
    (e : (h1.datas[d]?).map Data.elems = (h2.datas[d]?).map Data.elems) (j : Int) :
    h1.raw d j = h2.raw d j := by
  unfold Heap.raw
  cases h1d : h1.datas[d]? with
  | none =>
    rw [h1d] at e
    cases h2d : h2.datas[d]? with
    | none => rfl
    | some d2 => rw [h2d] at e; simp at e
  | some d1 =>
    rw [h1d] at e
    cases h2d : h2.datas[d]? with
    | none => rw [h2d] at e; simp at e
    | some d2 =>
      rw [h2d] at e
      simp only [Option.map_some', Option.some.injEq] at e
      simp only [e]

theorem live_of_map_eq (l1 l2 : List (Data α)) (d : Nat) (b : Data α)
    (e : (l1[d]?).map (fun d => (d.freed, d.elems)) = (l2[d]?).map (fun d => (d.freed, d.elems)))
    (hb : l2[d]? = some b) (hf : b.freed = false) :
    ∃ b1, l1[d]? = some b1 ∧ b1.freed = false := by
  rw [hb] at e
  cases h1 : l1[d]? with
  | none => rw [h1] at e; simp at e
  | some b1 =>
    rw [h1] at e
    simp only [Option.map_some', Option.some.injEq, Prod.mk.injEq] at e
    exact ⟨b1, rfl, by rw [e.1, hf]⟩

/-- A well-formed tensor after `tensor_clone(dest, src)`: the heap reached, the
cell of `dest` and the cells of the buffer of `src`. -/
theorem tensor_clone_frame (h : Heap α) (dest src : TPtr) (t s : Tensor)
    (hs : Wf h src s) (ht : h.tensor dest = Except.ok t)
    (hsh : s.ndims.toNat ≤ t.shape.length)
    (hdd : t.data = none ∨ ∃ d b, t.data = some d ∧ h.datas[d]? = some b ∧ b.freed = false) :
    ∃ h1 t1 ds, tensor_clone h dest src = Except.ok h1 ∧ h1.tensor dest = Except.ok t1 ∧
      s.data = some ds ∧ t1.data = s.data ∧ t1.offset = s.offset ∧ t1.ndims = s.ndims ∧
      (∀ i : Nat, i < s.ndims.toNat → t1.shape[i]? = s.shape[i]?) ∧ t1.length = s.length ∧
      h1.tensor src = Except.ok s ∧ (∀ x, h1.cell ds x = h.cell ds x) ∧
      (∀ d j, h1.raw d j = h.raw d j) ∧ (∃ b1, h1.datas[ds]? = some b1 ∧ b1.freed = false) := by
  obtain ⟨ds, bs, es1, es2, es3, es4, es5⟩ := hs.buf
  by_cases hne : dest = src
  · subst hne
    have e : t = s := by
      have := hs.live
      rw [ht] at this
      cases this; rfl
    subst e
    refine ⟨h, t, ds, ?_, ht, es1, rfl, rfl, rfl, fun _ _ => rfl, rfl, ht, fun _ => rfl,
      fun _ _ => rfl, ⟨bs, es2, es3⟩⟩
    unfold tensor_clone
    simp
  · obtain ⟨a, ea, _⟩ := (tensor_ok_iff h dest t).mp ht
    subst ea
    have halt := tensor_lt_length h a t ht
    refine ⟨_, clonedCell t s, ds, tensor_clone_ok h a src t s hne hs ht hsh hdd,
      tensor_set_same _ _ a _ halt, es1, rfl, rfl, rfl, ?_, rfl, ?_, ?_, ?_, ?_⟩
    · intro i hi
      exact take_append_drop_get _ _ _ i hi hs.dims
    · rw [tensor_set_other _ _ a _ src s (fun e => hne e.symm)]
      exact (tensor_datas_irrel _ _ _ _ _).mp hs.live
    · intro x
      apply cell_congr
      simp only [es1]
      exact retarget_target _ _ _
    · intro d j
      apply raw_congr
      exact retarget_elems _ _ _ d
    · refine live_of_map_eq _ h.datas ds bs ?_ es2 es3
      simp only [es1]
      exact retarget_target _ _ _

/-! ## Inversion of `tensor_clone` -/

/-- Inversion of a loop with an invariant indexed by the completed iterations. -/
theorem forLoop_ok_idx {ε σ : Type} (P : Nat → σ → Prop) (n : Nat)
    (body : Nat → σ → Except ε σ)
    (hP : ∀ i s s2, i < n → P i s → body i s = Except.ok s2 → P (i + 1) s2) (s s2 : σ)
    (h0 : P 0 s) (e : forLoop n body s = Except.ok s2) : P n s2 := by
  induction n generalizing s2 with
  | zero =>
    cases e
    exact h0
  | succ k ih =>
    rw [forLoop_succ, bind_eq_ok] at e
    obtain ⟨s1, e1, e2⟩ := e
    exact hP k s1 s2 (Nat.lt_succ_self k)
      (ih (fun i s s2 hi => hP i s s2 (Nat.lt_succ_of_lt hi)) s1 e1) e2

theorem arrGet_eq_ok (h : Heap α) (arr : List Int) (i : Nat) (v : Int)
    (e : arrGet h arr i = Except.ok v) : arr[i]? = some v := by
  unfold arrGet at e
  cases ha : arr[i]? with
  | none => rw [ha] at e; cases e
  | some w => rw [ha] at e; cases e; rfl

theorem arrSet_eq_ok (h : Heap α) (arr arr2 : List Int) (i : Nat) (v : Int)
    (e : arrSet h arr i v = Except.ok arr2) : i < arr.length ∧ arr2 = arr.set i v := by
  unfold arrSet at e
  split at e
  · rename_i hi
    cases e
    exact ⟨hi, rfl⟩
  · cases e

theorem c_assert_eq_ok (h : Heap α) (c : Bool) (u : Unit)
    (e : c_assert h c = Except.ok u) : c = true := by
  cases c with
  | false => cases e
  | true => rfl

theorem set_same_getElem {β : Type} (l : List β) (a : Nat) (x : β) (h : l[a]? = some x) :
    l = l.set a x := by
  apply List.ext_getElem?
  intro i
  by_cases hi : a = i
  · subst hi
    rcases lt_or_ge a l.length with h1 | h1
    · simp [List.getElem?_set, h1, h]
    · rw [List.getElem?_eq_none h1] at h; cases h
  · simp [List.getElem?_set, hi]

theorem tensor_get_after_set (ds : List (Data α)) (ts : List (Option Tensor)) (a : Nat)
    (t t2 : Tensor) (ha : a < ts.length)
    (e : Heap.tensor { datas := ds, tensors := ts.set a (some t) } (some a) = Except.ok t2) :
    t2 = t := by
  rw [tensor_set_same _ _ a _ ha] at e
  cases e
  rfl

/-- The copy loop shared by `tensor_set_size` and `tensor_shallow_init`, read
backwards: if it returns, the first `n` components come from `shape`. -/
theorem shape_copy_eq_ok (h : Heap α) (n : Nat) (shape : List Int) (t t2 : Tensor)
    (e : forLoop n (fun i (t : Tensor) => do
      let v ← arrGet h shape i
      let s ← arrSet h t.shape i v
      pure { t with shape := s }) t = Except.ok t2) :
    t2.data = t.data ∧ t2.ndims = t.ndims ∧ t2.length = t.length ∧ t2.offset = t.offset ∧
    t2.strides = t.strides ∧ t2.shape.length = t.shape.length ∧
    (∀ j : Nat, j < n → t2.shape[j]? = shape[j]? ∧ j < shape.length ∧ j < t.shape.length) ∧
    (∀ j : Nat, n ≤ j → t2.shape[j]? = t.shape[j]?) := by
  refine forLoop_ok_idx (fun i (u : Tensor) =>
    u.data = t.data ∧ u.ndims = t.ndims ∧ u.length = t.length ∧ u.offset = t.offset ∧
    u.strides = t.strides ∧ u.shape.length = t.shape.length ∧
    (∀ j : Nat, j < i → u.shape[j]? = shape[j]? ∧ j < shape.length ∧ j < t.shape.length) ∧
    (∀ j : Nat, i ≤ j → u.shape[j]? = t.shape[j]?)) n _ ?_ t t2
    ⟨rfl, rfl, rfl, rfl, rfl, rfl, fun j hj => by omega, fun _ _ => rfl⟩ e
  intro i u u2 _ ⟨p1, p2, p3, p4, p5, p6, p7, p8⟩ eb
  simp only [bind_eq_ok, pure_eq_ok] at eb
  obtain ⟨v, e1, sh, e2, e3⟩ := eb
  have g1 := arrGet_eq_ok h _ _ _ e1
  obtain ⟨g2, g3⟩ := arrSet_eq_ok h _ _ _ _ e2
  cases e3
  subst g3
  have hil : i < shape.length := by
    rcases lt_or_ge i shape.length with h1 | h1
    · exact h1
    · rw [List.getElem?_eq_none h1] at g1; cases g1
  refine ⟨p1, p2, p3, p4, p5, by simpa using p6, ?_, ?_⟩
  · intro j hj
    by_cases hji : j = i
    · subst hji
      refine ⟨?_, hil, by omega⟩
      simp [List.getElem?_set, g2, g1]
    · obtain ⟨q1, q2, q3⟩ := p7 j (by omega)
      refine ⟨?_, q2, q3⟩
      have : ¬ i = j := fun x => hji x.symm
      simp only [List.getElem?_set, this, if_false]
      exact q1
  · intro j hj
    have : ¬ i = j := by omega
    simp only [List.getElem?_set, this, if_false]
    exact p8 j (by omega)

/-- What a successful `tensor_set_size` has done. -/
theorem tensor_set_size_eq_ok (h : Heap α) (t t2 : Tensor) (ndims : Int) (shape : List Int)
    (length : Int) (e : tensor_set_size h t ndims shape length = Except.ok t2) :
    t2.data = t.data ∧ t2.ndims = ndims ∧ t2.length = length ∧ t2.offset = t.offset ∧
    t2.strides = t.strides ∧ t2.shape.length = t.shape.length ∧
    (∀ j : Nat, j < ndims.toNat → t2.shape[j]? = shape[j]?) ∧
    (∀ j : Nat, ndims.toNat ≤ j → t2.shape[j]? = t.shape[j]?) ∧
    ndims.toNat ≤ shape.length ∧ ndims.toNat ≤ t.shape.length ∧
    length = wrap32 (shapeProd ndims.toNat shape) := by
  unfold tensor_set_size at e
  simp only [bind_eq_ok, pure_eq_ok] at e
  obtain ⟨t1, e1, len, e2, u, e3, e4⟩ := e
  obtain ⟨p1, p2, p3, p4, p5, p6, p7, p8⟩ := shape_copy_eq_ok h _ _ _ _ e1
  have hn : ndims.toNat ≤ shape.length ∧ ndims.toNat ≤ t.shape.length := by
    rcases Nat.eq_zero_or_pos ndims.toNat with h0 | h0
    · rw [h0]; exact ⟨Nat.zero_le _, Nat.zero_le _⟩
    · obtain ⟨_, q2, q3⟩ := p7 (ndims.toNat - 1) (by omega)
      exact ⟨by omega, by simp only at q3; omega⟩
  rw [calculate_length_eq h ndims shape hn.1] at e2
  cases e2
  have e5 := c_assert_eq_ok _ _ _ e3
  simp only [decide_eq_true_eq] at e5
  cases e4
  exact ⟨p1, p2, e5, p4, p5, p6, fun j hj => (p7 j hj).1, p8, hn.1, hn.2, e5.symm⟩

theorem liveAt_decOpt (ds : List (Data α)) (old new : Option Nat) (hne : old ≠ new)
    (hl : LiveAt (decOpt ds old) new) : LiveAt ds new := by
  obtain ⟨n, b, e1, e2, e3⟩ := hl
  subst e1
  cases old with
  | none => exact ⟨n, b, rfl, e2, e3⟩
  | some o =>
    have hon : o ≠ n := fun x => hne (by rw [x])
    simp only [decOpt] at e2
    rw [decAt_get] at e2
    cases hd : ds[n]? with
    | none => rw [hd] at e2; simp at e2
    | some b0 =>
      rw [hd] at e2
      simp only [Option.map_some', hon.symm, if_false, Option.some.injEq] at e2
      subst e2
      exact ⟨n, b0, rfl, hd, e3⟩

/-- What a successful `tensor_clone` has done. -/
theorem tensor_clone_rel (h h2 : Heap α) (self src : TPtr)
    (e : tensor_clone h self src = Except.ok h2) : CloneRel h h2 self src := by
  unfold tensor_clone at e
  by_cases hne : self = src
  · left
    simp only [hne, ne_eq, not_true_eq_false, if_false, pure_eq_ok] at e
    cases e
    exact ⟨hne, rfl⟩
  · right
    simp only [ne_eq, hne, not_false_eq_true, if_true, bind_eq_ok] at e
    obtain ⟨s, hs, e⟩ := e
    unfold tensor_copy_from_data at e
    simp only [bind_eq_ok] at e
    obtain ⟨u, e0, t, ht, e⟩ := e
    have hoff := TENSOR_CHECK_eq_ok _ _ _ e0
    simp only [decide_eq_false_iff_not, not_lt] at hoff
    obtain ⟨a, ha, hat⟩ := (tensor_ok_iff h self t).mp ht
    subst ha
    have halt := tensor_lt_length h a t ht
    have tail : ∀ hm : Heap α, hm.tensors = h.tensors.set a (some { t with data := s.data }) →
        hm.datas = retarget h.datas t.data s.data → RetOK h.datas t.data s.data →
        (∃ tm, hm.tensor (some a) = Except.ok tm ∧ ∃ ts,
          tensor_set_size hm tm s.ndims s.shape s.length = Except.ok ts ∧
          hm.setTensor (some a) { ts with offset := s.offset } = Except.ok h2) →
        ∃ a2 t s t2, some a = some a2 ∧ h.tensors[a2]? = some (some t) ∧
          h.tensor src = Except.ok s ∧ h2.tensors = h.tensors.set a2 (some t2) ∧
          h2.datas = retarget h.datas t.data s.data ∧ RetOK h.datas t.data s.data ∧
          Cloned t2 s := by
      intro hm m1 m2 m3 ⟨tm, etm, ts, ess, efin⟩
      have hmh : hm = Heap.mk hm.datas (h.tensors.set a (some { t with data := s.data })) := by
        cases hm
        simp only at m1
        simp only [m1]
      have : tm = { t with data := s.data } := by
        rw [hmh] at etm
        exact tensor_get_after_set _ _ a _ _ halt etm
      subst this
      obtain ⟨q1, q2, q3, q4, q5, q6, q7, q8, q9, q10, q11⟩ :=
        tensor_set_size_eq_ok _ _ _ _ _ _ ess
      obtain ⟨a2, t0, ea, _, e6⟩ := setTensor_eq_ok _ _ _ _ efin
      cases ea
      refine ⟨a, t, s, { ts with offset := s.offset }, rfl, hat, hs, ?_, ?_, m3,
        q1, q2, q3, rfl, q7, hoff⟩
      · rw [e6]
        simp only [m1, List.set_set]
      · rw [e6]
        exact m2
    by_cases hd : t.data = s.data
    · rw [if_neg (not_not.mpr hd)] at e
      simp only [pure_eq_ok, bind_ok, bind_eq_ok] at e
      refine ⟨hne, tail h ?_ (by simp [retarget, hd]) (Or.inl hd) e⟩
      have : ({ t with data := s.data } : Tensor) = t := by rw [← hd]
      rw [this]
      exact set_same_getElem _ _ _ hat
    · by_cases hnone : t.data = none
      · rw [if_pos hd, if_neg (not_not.mpr hnone)] at e
        simp only [pure_eq_ok, bind_ok, bind_eq_ok] at e
        obtain ⟨h1b, es, hm, ei, e⟩ := e
        obtain ⟨n, en, hl, e5⟩ := data_inc_eq_ok _ _ _ ei
        obtain ⟨a2, t0, ea, _, e6⟩ := setTensor_eq_ok _ _ _ _ es
        cases ea
        subst e6
        subst e5
        refine ⟨hne, tail _ rfl ?_ (Or.inr ⟨Or.inl hnone, hl⟩) e⟩
        simp [retarget, hnone, en]
      · rw [if_pos hd, if_pos hnone] at e
        simp only [pure_eq_ok, bind_ok, bind_eq_ok] at e
        obtain ⟨h1, ed, h1b, es, hm, ei, e⟩ := e
        obtain ⟨n, en, hl, e5⟩ := data_inc_eq_ok _ _ _ ei
        obtain ⟨a2, t0, ea, _, e6⟩ := setTensor_eq_ok _ _ _ _ es
        cases ea
        obtain ⟨hl0, e7⟩ := data_dec_eq_ok _ _ _ ed
        subst e7
        subst e6
        subst e5
        obtain ⟨o, b, eo, hb1, hb2⟩ := hl0
        refine ⟨hne, tail _ rfl ?_ (Or.inr ⟨Or.inr ⟨o, b, eo, hb1, hb2⟩, liveAt_decOpt _ _ _ hd hl⟩) e⟩
        have hon : ¬ (some o = some n) := by rw [← eo, ← en]; exact hd
        simp only [retarget, eo, en, hon, if_false, decOpt]

theorem rawGet_eq_ok (h : Heap α) (p : RawPtr) (i : Int) (v : α)
    (e : rawGet h p i = Except.ok v) : h.cell p.buf (p.off + i) = some v := by
  rw [rawGet_eq] at e
  cases hc : h.cell p.buf (p.off + i) with
  | none => rw [hc] at e; cases e
  | some w => rw [hc] at e; cases e; rfl

/-- What a successful `vector_sigmoid` / `vector_tanh` has done. -/
theorem vector_map_eq_ok (f : α → α) (h h2 : Heap α) (a : RawPtr) (n : Int)
    (e : vector_map f h a n = Except.ok h2) : Mapped f h a n.toNat h2 := by
  unfold vector_map at e
  refine forLoop_ok_idx (fun i st => Mapped f h a i st) n.toNat _ ?_ h h2
    ⟨rfl, fun x hx => by omega, fun _ _ _ => rfl, fun _ _ _ => rfl⟩ e
  intro i st s2 hi ⟨ht, hv, hfr, hraw⟩ eb
  rw [bind_eq_ok] at eb
  obtain ⟨u, e1, e2⟩ := eb
  have hx := rawGet_eq_ok _ _ _ _ e1
  have hu : h.cell a.buf (a.off + i) = some u := by
    rw [← hfr]
    · exact hx
    · rintro ⟨_, x, hx, e2⟩
      omega
  obtain ⟨s3, e3, t2, c2⟩ := rawSet_ok st a i (f u) (by rw [hx]; rfl)
  rw [e2] at e3
  cases e3
  have r2 := rawSet_raw st s2 a i (f u) e2
  refine ⟨t2.trans ht, ?_, ?_, ?_⟩
  · intro x hx2
    by_cases hxi : x = i
    · subst hxi
      refine ⟨u, hu, ?_⟩
      rw [c2]; simp
    · obtain ⟨w, e1, e3⟩ := hv x (by omega)
      refine ⟨w, e1, ?_⟩
      rw [c2]
      have : ¬ (a.off + (x : Int) = a.off + (i : Int)) := by omega
      simp only [this, and_false, if_false]
      exact e3
  · intro bb idx hno
    rw [c2]
    have : ¬ (bb = a.buf ∧ idx = a.off + (i : Int)) := by
      rintro ⟨e1, e2⟩
      exact hno ⟨e1, i, by omega, e2⟩
    simp only [this, if_false]
    apply hfr
    rintro ⟨e1, y, hy, e2⟩
    exact hno ⟨e1, y, by omega, e2⟩
  · intro bb idx hno
    rw [r2]
    have : ¬ (bb = a.buf ∧ idx = a.off + (i : Int)) := by
      rintro ⟨e1, e2⟩
      exact hno ⟨e1, i, by omega, e2⟩
    simp only [this, if_false]
    apply hraw
    rintro ⟨e1, y, hy, e2⟩
    exact hno ⟨e1, y, by omega, e2⟩

theorem tensor_data_eq_ok (h : Heap α) (p : TPtr) (r : RawPtr)
    (e : tensor_data h p = Except.ok r) :
    ∃ t d b, h.tensor p = Except.ok t ∧ t.data = some d ∧ h.datas[d]? = some b ∧
      b.freed = false ∧ r = { buf := d, off := 0 + t.offset } := by
  unfold tensor_data data_raw_ptr at e
  simp only [bind_eq_ok, pure_eq_ok] at e
  obtain ⟨t, e1, q, ⟨bb, e2, e3⟩, e4⟩ := e
  obtain ⟨g1, g2, g3⟩ := buffer_eq_ok _ _ _ e2
  cases e3
  cases e4
  exact ⟨t, bb.1, bb.2, e1, g1, g2, g3, rfl⟩

/-- After a successful `tensor_clone(dest, src)`: the cell of `dest`, the cell of
`src`, and the contents of the buffers. -/
theorem tensor_clone_inv_frame (h h1 : Heap α) (dest src : TPtr) (s t1 : Tensor)
    (hs : h.tensor src = Except.ok s) (e : tensor_clone h dest src = Except.ok h1)
    (ht1 : h1.tensor dest = Except.ok t1) :
    t1.data = s.data ∧ t1.offset = s.offset ∧ t1.ndims = s.ndims ∧ t1.length = s.length ∧
    (∀ i : Nat, i < s.ndims.toNat → t1.shape[i]? = s.shape[i]?) ∧
    h1.tensor src = Except.ok s ∧
    (∀ d, s.data = some d → ∀ x, h1.cell d x = h.cell d x) ∧
    (∀ d j, h1.raw d j = h.raw d j) := by
  rcases tensor_clone_rel h h1 dest src e with ⟨e1, e2⟩ | ⟨hne, a, t, s2, t2, ea, hat, hs2, m1, m2, m3, c⟩
  · subst e1
    subst e2
    rw [hs] at ht1
    cases ht1
    exact ⟨rfl, rfl, rfl, rfl, fun _ _ => rfl, hs, fun _ _ _ => rfl, fun _ _ => rfl⟩
  · subst ea
    rw [hs] at hs2
    cases hs2
    have halt := tensor_lt_length h a t ((tensor_ok_iff h _ t).mpr ⟨a, rfl, hat⟩)
    have hh1 : h1 = Heap.mk h1.datas (h.tensors.set a (some t2)) := by
      cases h1
      simp only at m1
      simp only [m1]
    have : t1 = t2 := by
      rw [hh1] at ht1
      exact tensor_get_after_set _ _ a _ _ halt ht1
    subst this
    obtain ⟨c1, c2, c3, c4, c5, _⟩ := c
    refine ⟨c1, c4, c2, c3, c5, ?_, ?_, ?_⟩
    · rw [hh1, tensor_set_other _ _ a _ src s (fun e => hne e.symm)]
      exact (tensor_datas_irrel _ _ _ _ _).mp hs
    · intro d hd x
      apply cell_congr
      rw [m2, hd]
      exact retarget_target _ _ _
    · intro d j
      apply raw_congr
      rw [m2]
      exact retarget_elems _ _ _ d

theorem tensor_get_at_of_cell2 (h : Heap α) (p : TPtr) (t : Tensor) (d : Nat) (x : Nat) (v : α)
    (hl : h.tensor p = Except.ok t) (hd : t.data = some d) (hx : (x : Int) < t.length)
    (hmax : t.offset + t.length ≤ 2147483648)
    (hc : h.cell d (t.offset + x) = some v) :
    tensor_get_at_ h p x = Except.ok v := by
  have h0 : 0 ≤ t.offset + x := by
    by_contra hneg
    unfold Heap.cell at hc
    cases hb : h.datas[d]? with
    | none => rw [hb] at hc; cases hc
    | some b =>
      rw [hb] at hc
      have : t.offset + (x : Int) < 0 := by omega
      simp [this] at hc
  unfold tensor_get_at_
  rw [hl, bind_ok]
  have hw : wrap32 ((x : Int) + t.offset) = t.offset + x := by
    rw [wrap32_eq _ (by omega) (by omega)]; ring
  have := rawGet_of_cell h { buf := d, off := 0 } (t.offset + x) v (by simpa using hc)
  unfold rawGet at this
  simp only [zero_add] at this
  simp only [hx, decide_True, c_assert_true, bind_ok, hd, hw]
  exact this

/-- Claim C14: whenever `tensor_sigmoid(dest, src)` (`tensor_tanh` is the same
code with another scalar function `f`) returns, `dest` references the buffer of
`src` with the offset, rank, shape and length of `src`, the cell of `src` is
unchanged, every buffer position `src.offset + i` with `i < src.length` holds
`f` of its former value (also when read through `src`), and every buffer
position outside that range holds what it held before. -/
theorem tensor_sigmoid_in_place (f : α → α) (h h2 : Heap α) (dest src : TPtr) (s : Tensor)
    (hs : h.tensor src = Except.ok s)
    (e : tensor_sigmoid f h dest src = Except.ok h2) :
    ∃ t2 d, h2.tensor dest = Except.ok t2 ∧ h2.tensor src = Except.ok s ∧
      s.data = some d ∧ t2.data = s.data ∧ t2.offset = s.offset ∧ t2.ndims = s.ndims ∧
      t2.length = s.length ∧
      (∀ i : Nat, i < s.ndims.toNat → t2.shape[i]? = s.shape[i]?) ∧
      (∀ i : Nat, (i : Int) < s.length → ∃ v, h.cell d (s.offset + i) = some v ∧
        h2.cell d (s.offset + i) = some (f v) ∧
        (s.offset + s.length ≤ 2147483648 → tensor_get_at_ h src i = Except.ok v ∧
          tensor_get_at_ h2 src i = Except.ok (f v))) ∧
      (∀ bb j, ¬ (bb = d ∧ s.offset ≤ j ∧ j < s.offset + s.length) →
        h2.raw bb j = h.raw bb j) := by
  unfold tensor_sigmoid tensor_unary_point_wise_op at e
  simp only [bind_eq_ok] at e
  obtain ⟨_, _, _, _, t0, _, s0, hs0, _, _, h1, ec, p, ep, t1, ht1, em⟩ := e
  obtain ⟨t1b, d, b, g1, g2, g3, g4, g5⟩ := tensor_data_eq_ok _ _ _ ep
  rw [ht1] at g1
  cases g1
  subst g5
  obtain ⟨c1, c2, c3, c4, c5, c6, c7, c8⟩ := tensor_clone_inv_frame h h1 dest src s t1 hs ec ht1
  obtain ⟨m1, m2, m3, m4⟩ := vector_map_eq_ok f h1 h2 _ _ em
  have hsd : s.data = some d := by rw [← c1]; exact g2
  have hsrc2 := tensor_ok_of_tensors_eq h1 h2 m1 src s c6
  refine ⟨t1, d, tensor_ok_of_tensors_eq h1 h2 m1 dest t1 ht1, hsrc2, hsd, c1, c2, c3, c4, c5,
    ?_, ?_⟩
  · intro i hi
    obtain ⟨v, e1, e2⟩ := m2 i (by omega)
    simp only [zero_add, c2] at e1 e2
    rw [c7 d hsd] at e1
    refine ⟨v, e1, e2, fun hmax => ⟨?_, ?_⟩⟩
    · exact tensor_get_at_of_cell2 h src s d i v hs hsd hi hmax e1
    · exact tensor_get_at_of_cell2 h2 src s d i (f v) hsrc2 hsd hi hmax e2
  · intro bb j hno
    rw [m4, c8]
    rintro ⟨e1, x, hx, e2⟩
    simp only [zero_add, c2] at e2
    exact hno ⟨e1, by omega, by omega⟩

/-- Claim C14 at a concrete input: a `[3, 2]` source holding `1 … 6`, a `[2, 3]`
destination on another buffer, and `x ↦ x + 1` as the scalar function. -/
theorem tensor_sigmoid_in_place_witness :
    ∃ t2 d, exUnaryOut.tensor (some 1) = Except.ok t2 ∧
      exUnaryOut.tensor (some 0) = Except.ok (mkTensor 0 3 2 0) ∧
      (mkTensor 0 3 2 0).data = some d ∧ t2.data = (mkTensor 0 3 2 0).data ∧
      t2.offset = (mkTensor 0 3 2 0).offset ∧ t2.ndims = (mkTensor 0 3 2 0).ndims ∧
      t2.length = (mkTensor 0 3 2 0).length ∧
      (∀ i : Nat, i < (mkTensor 0 3 2 0).ndims.toNat →
        t2.shape[i]? = (mkTensor 0 3 2 0).shape[i]?) ∧
      (∀ i : Nat, (i : Int) < (mkTensor 0 3 2 0).length →
        ∃ v, exUnary.cell d ((mkTensor 0 3 2 0).offset + i) = some v ∧
        exUnaryOut.cell d ((mkTensor 0 3 2 0).offset + i) = some ((fun x : Int => x + 1) v) ∧
        ((mkTensor 0 3 2 0).offset + (mkTensor 0 3 2 0).length ≤ 2147483648 →
          tensor_get_at_ exUnary (some 0) i = Except.ok v ∧
          tensor_get_at_ exUnaryOut (some 0) i = Except.ok ((fun x : Int => x + 1) v))) ∧
      (∀ bb j, ¬ (bb = d ∧ (mkTensor 0 3 2 0).offset ≤ j ∧
          j < (mkTensor 0 3 2 0).offset + (mkTensor 0 3 2 0).length) →
        exUnaryOut.raw bb j = exUnary.raw bb j) :=
  tensor_sigmoid_in_place (fun x : Int => x + 1) exUnary exUnaryOut (some 1) (some 0)
    (mkTensor 0 3 2 0) rfl rfl

/-- On well-formed operands of equal length `tensor_sigmoid` / `tensor_tanh`
returns: no check fails and every access is inside the buffer. -/
theorem tensor_sigmoid_returns (f : α → α) (h : Heap α) (dest src : TPtr) (t s : Tensor)
    (hs : Wf h src s) (ht : h.tensor dest = Except.ok t)
    (hsh : s.ndims.toNat ≤ t.shape.length)
    (hdd : t.data = none ∨ ∃ d b, t.data = some d ∧ h.datas[d]? = some b ∧ b.freed = false)
    (hlen : t.length = s.length) :
    ∃ h2, tensor_sigmoid f h dest src = Except.ok h2 := by
  obtain ⟨h1, t1, ds, ec, ht1, es1, c1, c2, c3, c4, c5, c6, c7, c8, b1, hb1, hf1⟩ :=
    tensor_clone_frame h dest src t s hs ht hsh hdd
  obtain ⟨ds2, bs, g1, g2, g3, g4, g5⟩ := hs.buf
  rw [es1] at g1
  cases g1
  have hd : dest ≠ none := by
    rintro rfl
    cases ht
  have hsn : src ≠ none := by
    rintro rfl
    cases hs.live
  have hcell : ∀ x : Nat, x < s.length.toNat → (h1.cell ds (s.offset + x)).isSome := by
    intro x hx
    rw [c7]
    unfold Heap.cell
    have h0 := hs.off
    have h2 : ¬ (s.offset + (x : Int) < 0) := by omega
    have h3 : (s.offset + (x : Int)).toNat < bs.elems.length := by omega
    simp [g2, g3, h2, List.getElem?_eq_getElem h3]
  obtain ⟨h2, e2, _⟩ := vector_map_spec f h1 { buf := ds, off := 0 + s.offset } s.length.toNat
    (by intro x hx; simpa using hcell x hx)
  refine ⟨h2, ?_⟩
  unfold tensor_sigmoid tensor_unary_point_wise_op tensor_data data_raw_ptr
  simp only [hd, hsn, decide_False, TENSOR_CHECK_false, bind_ok, ht, hs.live, hlen, ne_eq,
    not_true_eq_false, ec, ht1, c1, es1, buffer_some, hb1, hf1, pure_eq_ok, c2, c5]
  unfold vector_map
  unfold vector_map at e2
  rw [Int.toNat_ofNat] at e2
  simp only [Bool.false_eq_true, if_false, bind_ok]
  exact e2


/-! ## `tensor_concat`: the bounds assertions -/

theorem noAssert_ok {σ : Type} (a : σ) : NoAssert (Except.ok a : Res α σ) := by
  intro h2 e; cases e

theorem noAssert_error (f : Fault) (h : Heap α) {σ : Type} (hf : f ≠ Fault.assertion) :
    NoAssert (Except.error (f, h) : Res α σ) := by
  intro h2 e
  cases e
  exact hf rfl

theorem noAssert_bind {σ τ : Type} (x : Res α σ) (f : σ → Res α τ)
    (hx : NoAssert x) (hf : ∀ a, x = Except.ok a → NoAssert (f a)) : NoAssert (x >>= f) := by
  cases x with
  | error e =>
    intro h2 e2
    rw [bind_error] at e2
    cases e2
    exact hx h2 rfl
  | ok a => exact hf a rfl

/-- Loop rule for the absence of assertion failures, with an invariant of the
states the loop goes through. -/
theorem noAssert_forLoop {σ : Type} (P : σ → Prop) (n : Nat) (body : Nat → σ → Res α σ) (s : σ)
    (h0 : P s)
    (hb : ∀ i st, i < n → P st → NoAssert (body i st) ∧ ∀ st2, body i st = Except.ok st2 → P st2) :
    NoAssert (forLoop n body s) ∧ ∀ s2, forLoop n body s = Except.ok s2 → P s2 := by
  induction n with
  | zero =>
    refine ⟨noAssert_ok s, ?_⟩
    intro s2 e
    cases e
    exact h0
  | succ k ih =>
    obtain ⟨i1, i2⟩ := ih (fun i st hi => hb i st (Nat.lt_succ_of_lt hi))
    rw [forLoop_succ]
    refine ⟨noAssert_bind _ _ i1 (fun a ea => (hb k a (Nat.lt_succ_self k) (i2 a ea)).1), ?_⟩
    intro s2 e
    rw [bind_eq_ok] at e
    obtain ⟨s1, e1, e2⟩ := e
    exact (hb k s1 (Nat.lt_succ_self k) (i2 s1 e1)).2 s2 e2

theorem noAssert_buffer (h : Heap α) (d : Option Nat) : NoAssert (h.buffer d) := by
  unfold Heap.buffer
  split
  · exact noAssert_error _ _ (by decide)
  · split
    · split
      · exact noAssert_error _ _ (by decide)
      · exact noAssert_ok _
    · exact noAssert_error _ _ (by decide)

theorem noAssert_data_get (h : Heap α) (d : Option Nat) (i : Int) : NoAssert (data_get h d i) := by
  unfold data_get
  refine noAssert_bind _ _ (noAssert_buffer h d) (fun r _ => ?_)
  dsimp only
  split
  · exact noAssert_error _ _ (by decide)
  · split
    · exact noAssert_ok _
    · exact noAssert_error _ _ (by decide)

theorem noAssert_data_insert (h : Heap α) (d : Option Nat) (v : α) (i : Int) :
    NoAssert (data_insert h d v i) := by
  unfold data_insert
  refine noAssert_bind _ _ (noAssert_buffer h d) (fun r _ => ?_)
  dsimp only
  split
  · exact noAssert_error _ _ (by decide)
  · split
    · exact noAssert_ok _
    · exact noAssert_error _ _ (by decide)

/-- A read at a position below the length passes the assertion of `tensor_get_at_`. -/
theorem noAssert_tensor_get_at_ (h : Heap α) (p : TPtr) (t : Tensor) (pos : Int)
    (ht : h.tensor p = Except.ok t) (hp : pos < t.length) :
    NoAssert (tensor_get_at_ h p pos) := by
  unfold tensor_get_at_
  rw [ht, bind_ok]
  simp only [hp, decide_True, c_assert_true, bind_ok]
  exact noAssert_data_get _ _ _

/-- A write at a position below the length passes the assertion of
`tensor_set_at_`, and leaves every tensor cell as it was. -/
theorem noAssert_tensor_set_at_ (h : Heap α) (p : TPtr) (t : Tensor) (v : α) (pos : Int)
    (ht : h.tensor p = Except.ok t) (hp : pos < t.length) :
    NoAssert (tensor_set_at_ h p v pos) ∧
    ∀ h2, tensor_set_at_ h p v pos = Except.ok h2 → h2.tensors = h.tensors := by
  unfold tensor_set_at_
  rw [ht, bind_ok]
  simp only [hp, decide_True, c_assert_true, bind_ok]
  refine ⟨noAssert_data_insert _ _ _ _, ?_⟩
  intro h2 e
  obtain ⟨n, b, _, _, _, _, _, e2⟩ := data_insert_eq_ok _ _ _ _ _ e
  rw [e2]

/-- The copy loop with every position below the length of the tensor it indexes. -/
theorem noAssert_tensor_copy_data_ (h : Heap α) (dest src : TPtr) (td ts : Tensor)
    (length offset : Int) (hd : h.tensor dest = Except.ok td) (hs : h.tensor src = Except.ok ts)
    (hr : ∀ i : Nat, (i : Int) < length → (i : Int) < ts.length ∧
      wrap32 (i + offset) < td.length) :
    NoAssert (tensor_copy_data_ h dest src length offset) ∧
    ∀ h2, tensor_copy_data_ h dest src length offset = Except.ok h2 →
      h2.tensors = h.tensors := by
  unfold tensor_copy_data_
  refine noAssert_forLoop (fun st => st.tensors = h.tensors) _ _ h rfl ?_
  intro i st hi hst
  have hd2 := tensor_ok_of_tensors_eq h st hst dest td hd
  have hs2 := tensor_ok_of_tensors_eq h st hst src ts hs
  obtain ⟨r1, r2⟩ := hr i (by omega)
  refine ⟨noAssert_bind _ _ (noAssert_tensor_get_at_ st src ts i hs2 r1)
    (fun v _ => (noAssert_tensor_set_at_ st dest td v _ hd2 r2).1), ?_⟩
  intro st2 e
  rw [bind_eq_ok] at e
  obtain ⟨v, _, e2⟩ := e
  rw [(noAssert_tensor_set_at_ st dest td v _ hd2 r2).2 st2 e2, hst]

/-- When the three checks of `tensor_concat` pass, the call is its two copies. -/
theorem tensor_concat_passed (h : Heap α) (dest ta tb : TPtr) (td a b : Tensor)
    (rd cd ra ca rb cb : Nat)
    (sd : Shaped h dest td rd cd) (sa : Shaped h ta a ra ca) (sb : Shaped h tb b rb cb)
    (hc1 : (ca : Int) = cb) (hc2 : (rd : Int) = wrap32 ((ra : Int) + rb)) (hc3 : (cd : Int) = ca) :
    tensor_concat h dest ta tb = (do
      let h ← tensor_copy_data_ h dest ta a.length 0
      let a ← h.tensor ta
      let b ← h.tensor tb
      tensor_copy_data_ h dest tb b.length a.length) := by
  have hne : dest ≠ none := by
    intro e
    have := sd.live
    rw [e] at this
    cases this
  unfold tensor_concat
  rw [sa.live, bind_ok, sb.live, bind_ok, arrGet_of h _ _ _ sa.shape1, bind_ok,
    arrGet_of h _ _ _ sb.shape1, bind_ok]
  simp only [hc1, ne_eq, not_true_eq_false, decide_False, TENSOR_CHECK_false, hne, bind_ok]
  rw [sd.live, bind_ok, arrGet_of h _ _ _ sd.shape0, bind_ok, arrGet_of h _ _ _ sa.shape0,
    bind_ok, arrGet_of h _ _ _ sb.shape0, bind_ok, ← hc2]
  simp only [ne_eq, not_true_eq_false, decide_False, TENSOR_CHECK_false, hne, bind_ok]
  rw [arrGet_of h _ _ _ sd.shape1, bind_ok]
  simp only [hc3, hc1, ne_eq, not_true_eq_false, decide_False, TENSOR_CHECK_false, hne, bind_ok]

theorem forLoop_congr {ε σ : Type} (n : Nat) (b1 b2 : Nat → σ → Except ε σ) (s : σ)
    (hb : ∀ i st, i < n → b1 i st = b2 i st) : forLoop n b1 s = forLoop n b2 s := by
  induction n with
  | zero => rfl
  | succ k ih =>
    rw [forLoop_succ, forLoop_succ, ih (fun i st hi => hb i st (Nat.lt_succ_of_lt hi))]
    congr 1
    funext st
    exact hb k st (Nat.lt_succ_self k)

theorem bind_congr_ok {ε σ τ : Type} (x : Except ε σ) (f g : σ → Except ε τ)
    (hfg : ∀ a, x = Except.ok a → f a = g a) : (x >>= f) = (x >>= g) := by
  cases x with
  | error e => rfl
  | ok a => exact hfg a rfl

/-- Claim C19. Rank-2 tensors `dest`, `a`, `b` with shape components `[rd, cd]`,
`[ra, ca]`, `[rb, cb]`, each of length `shape[0] * shape[1]` (an `int`), for which
the three checks of `tensor_concat` pass. Then `dest.length = a.length + b.length`,
and the call is exactly this sequence of accessor calls: for `i < a.length`,
`tensor_get_at_(a, i)` followed by `tensor_set_at_(dest, _, i)`, then for
`i < b.length`, `tensor_get_at_(b, i)` followed by
`tensor_set_at_(dest, _, i + a.length)`. Each position passed is non-negative and
below the length of the tensor it indexes, and the call never ends on a failed
assertion. -/
theorem tensor_concat_positions (h : Heap α) (dest ta tb : TPtr) (td a b : Tensor)
    (rd cd ra ca rb cb : Nat)
    (sd : Shaped h dest td rd cd) (sa : Shaped h ta a ra ca) (sb : Shaped h tb b rb cb)
    (hld : td.length = (rd : Int) * cd) (hla : a.length = (ra : Int) * ca)
    (hlb : b.length = (rb : Int) * cb) (hmax : td.length ≤ 2147483647)
    (hc1 : (ca : Int) = cb) (hc2 : (rd : Int) = wrap32 ((ra : Int) + rb)) (hc3 : (cd : Int) = ca) :
    td.length = a.length + b.length ∧
    tensor_concat h dest ta tb = (do
      let h1 ← forLoop a.length.toNat (fun i st => do
        let v ← tensor_get_at_ st ta (i : Int)
        tensor_set_at_ st dest v (i : Int)) h
      forLoop b.length.toNat (fun i st => do
        let v ← tensor_get_at_ st tb (i : Int)
        tensor_set_at_ st dest v ((i : Int) + a.length)) h1) ∧
    (∀ i : Nat, i < a.length.toNat →
      (0 ≤ (i : Int) ∧ (i : Int) < a.length) ∧ (0 ≤ (i : Int) ∧ (i : Int) < td.length)) ∧
    (∀ i : Nat, i < b.length.toNat →
      (0 ≤ (i : Int) ∧ (i : Int) < b.length) ∧
      (0 ≤ (i : Int) + a.length ∧ (i : Int) + a.length < td.length)) ∧
    (∀ h2, tensor_concat h dest ta tb ≠ Except.error (Fault.assertion, h2)) := by
  have hra := sa.rmax
  have hrb := sb.rmax
  have hrd := sd.rmax
  have hrd2 : (rd : Int) = (ra : Int) + rb := by
    rw [hc2]
    unfold wrap32 at hc2 ⊢
    omega
  have hsum : td.length = a.length + b.length := by
    rw [hld, hla, hlb, hrd2, hc3, ← hc1]
    ring
  have ha0 : 0 ≤ a.length := by
    rw [hla]
    exact Int.mul_nonneg (Int.ofNat_nonneg _) (Int.ofNat_nonneg _)
  have hb0 : 0 ≤ b.length := by
    rw [hlb]
    exact Int.mul_nonneg (Int.ofNat_nonneg _) (Int.ofNat_nonneg _)
  have w1 : ∀ i : Nat, (i : Int) < a.length → wrap32 ((i : Int) + 0) = (i : Int) := by
    intro i hi
    rw [wrap32_eq ((i : Int) + 0) (by omega) (by omega)]
    omega
  have w2 : ∀ i : Nat, (i : Int) < b.length →
      wrap32 ((i : Int) + a.length) = (i : Int) + a.length := by
    intro i hi
    exact wrap32_eq ((i : Int) + a.length) (by omega) (by omega)
  have e1 : tensor_copy_data_ h dest ta a.length 0 =
      forLoop a.length.toNat (fun i st => do
        let v ← tensor_get_at_ st ta (i : Int)
        tensor_set_at_ st dest v (i : Int)) h := by
    unfold tensor_copy_data_
    apply forLoop_congr
    intro i st hi
    show (tensor_get_at_ st ta i >>= fun v => tensor_set_at_ st dest v (wrap32 ((i : Int) + 0))) = _
    rw [w1 i (by omega)]
  have e2 : ∀ h1 : Heap α, tensor_copy_data_ h1 dest tb b.length a.length =
      forLoop b.length.toNat (fun i st => do
        let v ← tensor_get_at_ st tb (i : Int)
        tensor_set_at_ st dest v ((i : Int) + a.length)) h1 := by
    intro h1
    unfold tensor_copy_data_
    apply forLoop_congr
    intro i st hi
    show (tensor_get_at_ st tb i >>= fun v =>
      tensor_set_at_ st dest v (wrap32 ((i : Int) + a.length))) = _
    rw [w2 i (by omega)]
  obtain ⟨n1, t1⟩ := noAssert_tensor_copy_data_ h dest ta td a a.length 0 sd.live sa.live
    (fun i hi => ⟨hi, by rw [w1 i hi]; omega⟩)
  have hpass := tensor_concat_passed h dest ta tb td a b rd cd ra ca rb cb sd sa sb hc1 hc2 hc3
  refine ⟨hsum, ?_, fun i hi => ⟨⟨by omega, by omega⟩, ⟨by omega, by omega⟩⟩,
    fun i hi => ⟨⟨by omega, by omega⟩, ⟨by omega, by omega⟩⟩, ?_⟩
  · rw [hpass, ← e1]
    apply bind_congr_ok
    intro h1 eh1
    have ha1 := tensor_ok_of_tensors_eq h h1 (t1 h1 eh1) ta a sa.live
    have hb1 := tensor_ok_of_tensors_eq h h1 (t1 h1 eh1) tb b sb.live
    rw [ha1, bind_ok, hb1, bind_ok]
    exact e2 h1
  · rw [hpass]
    refine noAssert_bind _ _ n1 (fun h1 eh1 => ?_)
    have hd1 := tensor_ok_of_tensors_eq h h1 (t1 h1 eh1) dest td sd.live
    have ha1 := tensor_ok_of_tensors_eq h h1 (t1 h1 eh1) ta a sa.live
    have hb1 := tensor_ok_of_tensors_eq h h1 (t1 h1 eh1) tb b sb.live
    rw [ha1, bind_ok, hb1, bind_ok]
    exact (noAssert_tensor_copy_data_ h1 dest tb td b b.length a.length hd1 hb1
      (fun i hi => ⟨hi, by rw [w2 i hi]; omega⟩)).1

/-- Claim C19 at a concrete input: `[1, 2]` and `[2, 2]` operands into a `[3, 2]`
destination. -/
theorem tensor_concat_positions_witness :
    (mkTensor 2 3 2 0).length = (mkTensor 0 1 2 0).length + (mkTensor 1 2 2 0).length ∧
    tensor_concat exCat (some 2) (some 0) (some 1) = (do
      let h1 ← forLoop (mkTensor 0 1 2 0).length.toNat (fun i st => do
        let v ← tensor_get_at_ st (some 0) (i : Int)
        tensor_set_at_ st (some 2) v (i : Int)) exCat
      forLoop (mkTensor 1 2 2 0).length.toNat (fun i st => do
        let v ← tensor_get_at_ st (some 1) (i : Int)
        tensor_set_at_ st (some 2) v ((i : Int) + (mkTensor 0 1 2 0).length)) h1) ∧
    (∀ i : Nat, i < (mkTensor 0 1 2 0).length.toNat →
      (0 ≤ (i : Int) ∧ (i : Int) < (mkTensor 0 1 2 0).length) ∧
      (0 ≤ (i : Int) ∧ (i : Int) < (mkTensor 2 3 2 0).length)) ∧
    (∀ i : Nat, i < (mkTensor 1 2 2 0).length.toNat →
      (0 ≤ (i : Int) ∧ (i : Int) < (mkTensor 1 2 2 0).length) ∧
      (0 ≤ (i : Int) + (mkTensor 0 1 2 0).length ∧
        (i : Int) + (mkTensor 0 1 2 0).length < (mkTensor 2 3 2 0).length)) ∧
    (∀ h2, tensor_concat exCat (some 2) (some 0) (some 1)
      ≠ Except.error (Fault.assertion, h2)) :=
  tensor_concat_positions exCat (some 2) (some 0) (some 1)
    (mkTensor 2 3 2 0) (mkTensor 0 1 2 0) (mkTensor 1 2 2 0) 3 2 1 2 2 2
    ⟨rfl, rfl, rfl, by decide, by decide⟩ ⟨rfl, rfl, rfl, by decide, by decide⟩
    ⟨rfl, rfl, rfl, by decide, by decide⟩ (by decide) (by decide) (by decide) (by decide)
    (by decide) (by decide) (by decide)

/-! ## Inversion of `tensor_select` and `tensor_init` -/

theorem setTensor_set_eq_ok (ds : List (Data α)) (ts : List (Option Tensor)) (a : Nat)
    (x t : Tensor) (h2 : Heap α) (ha : a < ts.length)
    (e : Heap.setTensor (Heap.mk ds (ts.set a (some x))) (some a) t = Except.ok h2) :
    h2 = Heap.mk ds (ts.set a (some t)) := by
  rcases tensor_set_set ds ts a (some x) t ha with e2 | e2
  · rw [e2] at e
    cases e
    rfl
  · cases e2

theorem tensor_src_after_set (ds : List (Data α)) (ts : List (Option Tensor)) (a : Nat)
    (x u s sb : Tensor) (src : TPtr) (ha : a < ts.length)
    (hu : ts[a]? = some (some u)) (hs : Heap.tensor (Heap.mk ds ts) src = Except.ok s)
    (e : Heap.tensor (Heap.mk ds (ts.set a (some x))) src = Except.ok sb) :
    (src = some a ∧ sb = x ∧ s = u) ∨ (src ≠ some a ∧ sb = s) := by
  by_cases hsa : src = some a
  · left
    subst hsa
    refine ⟨rfl, tensor_get_after_set _ _ a _ _ ha e, ?_⟩
    rw [tensor_ok_iff] at hs
    obtain ⟨a2, e1, e2⟩ := hs
    cases e1
    simp only at e2
    rw [hu] at e2
    cases e2
    rfl
  · right
    refine ⟨hsa, ?_⟩
    rw [tensor_set_other _ _ a _ src sb hsa] at e
    rw [hs] at e
    cases e
    rfl

/-- Read `calculate_length` backwards: when it returns, the components exist
and the result is their product reduced to the range of an `int`. -/
theorem calculate_length_eq_ok (h : Heap α) (ndims : Int) (shape : List Int) (len : Int)
    (e : calculate_length h ndims shape = Except.ok len) :
    ndims.toNat ≤ shape.length ∧ len = wrap32 (shapeProd ndims.toNat shape) := by
  have hn : ndims.toNat ≤ shape.length := by
    unfold calculate_length at e
    refine (forLoop_ok_idx (fun i (_ : Int) => i ≤ shape.length) ndims.toNat _ ?_ 1 len
      (Nat.zero_le _) e)
    intro i s s2 _ _ eb
    simp only [bind_eq_ok, pure_eq_ok] at eb
    obtain ⟨v, e1, _⟩ := eb
    have g1 := arrGet_eq_ok h _ _ _ e1
    rcases lt_or_ge i shape.length with h1 | h1
    · exact h1
    · rw [List.getElem?_eq_none h1] at g1; cases g1
  rw [calculate_length_eq h ndims shape hn] at e
  cases e
  exact ⟨hn, rfl⟩

/-- What a successful `tensor_select` has done: a clone, then the cell of
`self` gets its offset advanced by `index * src->shape[1]`, its first two shape
components set to `src->shape[1]` and `1`, and its length recomputed. -/
theorem tensor_select_rel (h h2 : Heap α) (self src : TPtr) (index : Int)
    (e : tensor_select h self src index = Except.ok h2) :
    ∃ s0 r hm a u s c, h.tensor src = Except.ok s0 ∧ s0.shape[0]? = some r ∧ index < r ∧
      tensor_clone h self src = Except.ok hm ∧ self = some a ∧
      hm.tensors[a]? = some (some u) ∧ hm.tensor src = Except.ok s ∧ s.shape[1]? = some c ∧
      1 < u.shape.length ∧ u.ndims.toNat ≤ u.shape.length ∧
      h2 = Heap.mk hm.datas (hm.tensors.set a (some
        (Tensor.mk u.data ((u.shape.set 0 c).set 1 1) u.ndims
          (wrap32 (shapeProd u.ndims.toNat ((u.shape.set 0 c).set 1 1)))
          (wrap32 (u.offset + wrap32 (index * c))) u.strides))) := by
  unfold tensor_select at e
  simp only [bind_eq_ok] at e
  obtain ⟨s0, hs0, r, hr, _, hchk, e⟩ := e
  have hsn : src ≠ none := by
    rintro rfl
    cases hs0
  simp only [hsn, if_false, bind_eq_ok] at e
  obtain ⟨hm, ec, s, hs, c, hc, u, hu, hb, eb, sb, hsb, c2, hc2, u1, hu1, sh, esh, hc_, ec_,
    u2, hu2, sh2, esh2, hd, ed, u3, hu3, len, elen, efin⟩ := e
  have hir := TENSOR_CHECK_eq_ok _ _ _ hchk
  simp only [ge_iff_le, decide_eq_false_iff_not, not_le] at hir
  obtain ⟨a, ea, hua⟩ := (tensor_ok_iff hm self u).mp hu
  subst ea
  have halt := tensor_lt_length hm a u hu
  cases hm with
  | mk ds ts =>
  simp only at hua halt
  obtain ⟨a2, t0, ea, _, e6⟩ := setTensor_eq_ok _ _ _ _ eb
  cases ea
  have e6b : hb = Heap.mk ds (ts.set a (some { u with offset := wrap32 (u.offset + wrap32 (index * c)) })) := e6
  subst e6b
  have g1 := arrGet_eq_ok _ _ _ _ hc
  have g2 := arrGet_eq_ok _ _ _ _ hc2
  have hcc : c2 = c := by
    rcases tensor_src_after_set ds ts a _ u s sb src halt hua hs hsb with ⟨_, q2, q3⟩ | ⟨_, q2⟩
    · subst q2
      subst q3
      simp only at g2
      rw [g1] at g2
      cases g2
      rfl
    · subst q2
      rw [g1] at g2
      cases g2
      rfl
  subst hcc
  have := tensor_get_after_set _ _ a _ _ halt hu1
  subst this
  obtain ⟨k1, k2⟩ := arrSet_eq_ok _ _ _ _ _ esh
  subst k2
  have := setTensor_set_eq_ok ds ts a _ _ _ halt ec_
  subst this
  have := tensor_get_after_set _ _ a _ _ halt hu2
  subst this
  obtain ⟨k3, k4⟩ := arrSet_eq_ok _ _ _ _ _ esh2
  subst k4
  have := setTensor_set_eq_ok ds ts a _ _ _ halt ed
  subst this
  have := tensor_get_after_set _ _ a _ _ halt hu3
  subst this
  obtain ⟨k5, k6⟩ := calculate_length_eq_ok _ _ _ _ elen
  subst k6
  have := setTensor_set_eq_ok ds ts a _ _ _ halt efin
  subst this
  refine ⟨s0, r, Heap.mk ds ts, a, u, s, c2, hs0, arrGet_eq_ok _ _ _ _ hr, hir, ec, rfl, hua,
    hs, g1, ?_, ?_, rfl⟩
  · simpa using k3
  · simpa using k5

/-- What a successful `tensor_init` has done. -/
theorem tensor_init_eq_ok (MAX_DIM : Int) (h h2 : Heap α) (ndims : Int) (shape : List Int)
    (junk : Nat → Int) (fill : Nat → α) (p : TPtr) (hlen : MAX_DIM.toNat ≤ shape.length)
    (e : tensor_init MAX_DIM h ndims shape junk fill = Except.ok (p, h2)) :
    1 ≤ ndims ∧ ndims ≤ MAX_DIM ∧ ¬ BadAxis ndims.toNat shape ∧ p = some h.tensors.length ∧
    h2 = Heap.mk
      (h.datas ++ [⟨(List.range (wrap32 (shapeProd ndims.toNat shape)).toNat).map fill, 1, false⟩])
      (h.tensors ++ [some (initCell MAX_DIM ndims shape junk h.datas.length)]) := by
  by_cases hbad : ndims < 1 ∨ ndims > MAX_DIM ∨ BadAxis ndims.toNat shape
  · rw [tensor_init_fatal MAX_DIM h ndims shape junk fill hlen hbad] at e
    cases e
  · push_neg at hbad
    rw [tensor_init_ok MAX_DIM h ndims shape junk fill hlen (by omega) (by omega) hbad.2.2] at e
    cases e
    exact ⟨by omega, by omega, hbad.2.2, rfl, rfl⟩

/-! ## The length invariant -/

theorem shapeProd_congr (n : Nat) (l1 l2 : List Int) (e : ∀ i : Nat, i < n → l1[i]? = l2[i]?) :
    shapeProd n l1 = shapeProd n l2 := by
  unfold shapeProd
  congr 1
  apply List.ext_getElem?
  intro i
  by_cases hi : i < n
  · simp only [List.getElem?_take, hi, if_true]
    exact e i hi
  · simp only [List.getElem?_take, hi, if_false]

theorem lenInv_of_eq (t2 s : Tensor) (hn : t2.ndims = s.ndims) (hl : t2.length = s.length)
    (hsh : ∀ i : Nat, i < s.ndims.toNat → t2.shape[i]? = s.shape[i]?) (hs : LenInv s) :
    LenInv t2 := by
  obtain ⟨p1, p2, p3⟩ := hs
  refine ⟨?_, ?_, by rw [hl]; exact p3⟩
  · rw [hl, hn, p1]
    exact (shapeProd_congr _ _ _ hsh).symm
  · intro i hi
    rw [hn] at hi
    rw [hsh i hi]
    exact p2 i hi

theorem not_badAxis_of_ge (n : Nat) (shape : List Int)
    (hg : ∀ i : Nat, i < n → ∃ v, shape[i]? = some v ∧ 1 ≤ v) : ¬ BadAxis n shape := by
  rintro ⟨i, hi, v, hv, hlt⟩
  obtain ⟨w, hw, h1⟩ := hg i hi
  rw [hv] at hw
  cases hw
  omega

theorem ge_of_not_badAxis (n : Nat) (shape : List Int) (hn : n ≤ shape.length)
    (hg : ¬ BadAxis n shape) : ∀ i : Nat, i < n → ∃ v, shape[i]? = some v ∧ 1 ≤ v := by
  intro i hi
  obtain ⟨v, hv⟩ := getElem?_of_lt shape i (by omega)
  refine ⟨v, hv, ?_⟩
  by_contra hlt
  exact hg ⟨i, hi, v, hv, by omega⟩

theorem lenInv_components_le (s : Tensor) (hs : LenInv s) :
    s.ndims.toNat ≤ s.shape.length := by
  obtain ⟨_, p2, _⟩ := hs
  rcases Nat.eq_zero_or_pos s.ndims.toNat with h0 | h0
  · rw [h0]; exact Nat.zero_le _
  · obtain ⟨v, hv, _⟩ := p2 (s.ndims.toNat - 1) (by omega)
    rcases lt_or_ge (s.ndims.toNat - 1) s.shape.length with h1 | h1
    · omega
    · rw [List.getElem?_eq_none h1] at hv; cases hv

/-- Under the length invariant `calculate_length` recomputes the stored length. -/
theorem lenInv_wrap (s : Tensor) (hs : LenInv s) :
    wrap32 (shapeProd s.ndims.toNat s.shape) = s.length := by
  have hn := lenInv_components_le s hs
  obtain ⟨p1, p2, p3⟩ := hs
  have hpos := shapeProd_pos s.shape s.ndims.toNat hn (not_badAxis_of_ge _ _ p2)
  rw [← p1] at hpos ⊢
  exact wrap32_eq _ (by omega) p3

theorem lenInv_initCell (MAX_DIM : Int) (ndims : Int) (shape : List Int) (junk : Nat → Int)
    (d : Nat) (hlen : MAX_DIM.toNat ≤ shape.length) (h1 : 1 ≤ ndims) (h2 : ndims ≤ MAX_DIM)
    (hg : ¬ BadAxis ndims.toNat shape) (hfit : shapeProd ndims.toNat shape ≤ 2147483647) :
    LenInv (initCell MAX_DIM ndims shape junk d) := by
  have hn : ndims.toNat ≤ shape.length := by omega
  have hpos := shapeProd_pos shape ndims.toNat hn hg
  have hw : wrap32 (shapeProd ndims.toNat shape) = shapeProd ndims.toNat shape :=
    wrap32_eq _ (by omega) hfit
  have hsh : ∀ i : Nat, i < ndims.toNat →
      (initCell MAX_DIM ndims shape junk d).shape[i]? = shape[i]? := by
    intro i hi
    simp only [initCell]
    rw [List.getElem?_append_left (by simp; omega), List.getElem?_take, if_pos hi]
  refine ⟨?_, ?_, ?_⟩
  · show wrap32 (shapeProd ndims.toNat shape) = shapeProd ndims.toNat _
    rw [hw]
    exact (shapeProd_congr _ _ _ hsh).symm
  · intro i hi
    have hi2 : i < ndims.toNat := hi
    rw [hsh i hi2]
    exact ge_of_not_badAxis _ _ hn hg i hi2
  · show wrap32 (shapeProd ndims.toNat shape) ≤ 2147483647
    rw [hw]
    exact hfit

/-- The cell that `tensor_select` leaves in `self`, for a rank-2 source that
satisfies the length invariant, satisfies it as well. -/
theorem lenInv_selected (u s : Tensor) (c : Int) (off : Int) (hs : LenInv s) (h2 : s.ndims = 2)
    (hn : u.ndims = s.ndims) (hc : s.shape[1]? = some c) (hlen : 1 < u.shape.length) :
    LenInv (Tensor.mk u.data ((u.shape.set 0 c).set 1 1) u.ndims
      (wrap32 (shapeProd u.ndims.toNat ((u.shape.set 0 c).set 1 1))) off u.strides) := by
  obtain ⟨p1, p2, p3⟩ := hs
  rw [h2] at p1 p2
  obtain ⟨r, hr, hr1⟩ := p2 0 (by decide)
  obtain ⟨c2, hc2, hc1⟩ := p2 1 (by decide)
  rw [hc] at hc2
  cases hc2
  obtain ⟨rest, hshape⟩ := shape_two s.shape r c hr hc
  have hprod : s.length = r * c := by
    rw [p1, hshape]
    simp [shapeProd]
  have hcm : c ≤ 2147483647 := by nlinarith
  obtain ⟨x, y, rest2, hu⟩ : ∃ x y rest2, u.shape = x :: y :: rest2 := by
    match hus : u.shape with
    | [] => rw [hus] at hlen; simp at hlen
    | [x] => rw [hus] at hlen; simp at hlen
    | x :: y :: rest2 => exact ⟨x, y, rest2, rfl⟩
  have hnd : u.ndims.toNat = 2 := by rw [hn, h2]; rfl
  have hval : shapeProd u.ndims.toNat ((u.shape.set 0 c).set 1 1) = c := by
    rw [hnd, hu]
    simp [shapeProd]
  have hw : wrap32 c = c := wrap32_eq _ (by omega) hcm
  refine ⟨?_, ?_, ?_⟩
  · show wrap32 (shapeProd u.ndims.toNat ((u.shape.set 0 c).set 1 1))
      = shapeProd u.ndims.toNat ((u.shape.set 0 c).set 1 1)
    rw [hval, hw]
  · intro i hi
    have hi2 : i < 2 := by
      have : i < u.ndims.toNat := hi
      omega
    show ∃ v, ((u.shape.set 0 c).set 1 1)[i]? = some v ∧ 1 ≤ v
    rw [hu]
    rcases Nat.lt_succ_iff_lt_or_eq.mp hi2 with h0 | h1
    · have : i = 0 := by omega
      subst this
      exact ⟨c, by simp, hc1⟩
    · subst h1
      exact ⟨1, by simp, le_refl _⟩
  · show wrap32 (shapeProd u.ndims.toNat ((u.shape.set 0 c).set 1 1)) ≤ 2147483647
    rw [hval, hw]
    exact hcm

/-- A successful `tensor_clone(dest, src)` leaves every cell other than that of
`dest` as it was. -/
theorem tensor_clone_other (h h1 : Heap α) (dest src q : TPtr) (t : Tensor)
    (e : tensor_clone h dest src = Except.ok h1) (hq : q ≠ dest) :
    h1.tensor q = Except.ok t ↔ h.tensor q = Except.ok t := by
  rcases tensor_clone_rel h h1 dest src e with ⟨_, e2⟩ | ⟨_, a, t0, s, t2, ea, _, _, m1, _⟩
  · rw [e2]
  · subst ea
    rw [tensor_ok_iff, tensor_ok_iff, m1]
    constructor
    · rintro ⟨b, e1, e2⟩
      subst e1
      have : a ≠ b := fun x => hq (by rw [x])
      refine ⟨b, rfl, ?_⟩
      rw [List.getElem?_set_ne this] at e2
      exact e2
    · rintro ⟨b, e1, e2⟩
      subst e1
      have : a ≠ b := fun x => hq (by rw [x])
      refine ⟨b, rfl, ?_⟩
      rw [List.getElem?_set_ne this]
      exact e2

theorem noAssert_TENSOR_CHECK (h : Heap α) (c : Bool) : NoAssert (TENSOR_CHECK h c) := by
  unfold TENSOR_CHECK
  split
  · exact noAssert_error _ _ (by decide)
  · exact noAssert_ok _

theorem noAssert_tensor (h : Heap α) (p : TPtr) : NoAssert (h.tensor p) := by
  unfold Heap.tensor
  split
  · exact noAssert_error _ _ (by decide)
  · split
    · exact noAssert_ok _
    · exact noAssert_error _ _ (by decide)

theorem noAssert_setTensor (h : Heap α) (p : TPtr) (t : Tensor) : NoAssert (h.setTensor p t) := by
  unfold Heap.setTensor
  split
  · exact noAssert_error _ _ (by decide)
  · split
    · exact noAssert_ok _
    · exact noAssert_error _ _ (by decide)

theorem noAssert_data_dec (h : Heap α) (d : Option Nat) : NoAssert (data_dec h d) := by
  unfold data_dec
  exact noAssert_bind _ _ (noAssert_buffer h d) (fun r _ => noAssert_ok _)

theorem noAssert_data_inc (h : Heap α) (d : Option Nat) : NoAssert (data_inc h d) := by
  unfold data_inc
  exact noAssert_bind _ _ (noAssert_buffer h d) (fun r _ => noAssert_ok _)

theorem noAssert_arrGet (h : Heap α) (l : List Int) (i : Nat) : NoAssert (arrGet h l i) := by
  unfold arrGet
  split
  · exact noAssert_ok _
  · exact noAssert_error _ _ (by decide)

theorem noAssert_arrSet (h : Heap α) (l : List Int) (i : Nat) (v : Int) :
    NoAssert (arrSet h l i v) := by
  unfold arrSet
  split
  · exact noAssert_ok _
  · exact noAssert_error _ _ (by decide)

/-- The assertion `self->length == length` of `tensor_set_size` holds whenever
the arguments are the rank, shape and length of a tensor that satisfies the
length invariant. -/
theorem noAssert_tensor_set_size (h : Heap α) (t s : Tensor) (hs : LenInv s) :
    NoAssert (tensor_set_size h t s.ndims s.shape s.length) := by
  unfold tensor_set_size
  refine noAssert_bind _ _ ?_ (fun t1 _ => noAssert_bind _ _ ?_ (fun len e => ?_))
  · exact (noAssert_forLoop (fun _ => True) _ _ _ trivial (fun i st _ _ =>
      ⟨noAssert_bind _ _ (noAssert_arrGet _ _ _) (fun v _ =>
        noAssert_bind _ _ (noAssert_arrSet _ _ _ _) (fun _ _ => noAssert_ok _)),
       fun _ _ => trivial⟩)).1
  · unfold calculate_length
    exact (noAssert_forLoop (fun _ => True) _ _ _ trivial (fun i st _ _ =>
      ⟨noAssert_bind _ _ (noAssert_arrGet _ _ _) (fun v _ => noAssert_ok _),
       fun _ _ => trivial⟩)).1
  · obtain ⟨_, e2⟩ := calculate_length_eq_ok _ _ _ _ e
    rw [lenInv_wrap s hs] at e2
    subst e2
    simp only [decide_True, c_assert_true, bind_ok]
    exact noAssert_ok _

theorem noAssert_tensor_clone (h : Heap α) (dest src : TPtr) (s : Tensor)
    (hsrc : h.tensor src = Except.ok s) (hs : LenInv s) : NoAssert (tensor_clone h dest src) := by
  unfold tensor_clone
  split
  · rw [hsrc, bind_ok]
    unfold tensor_copy_from_data
    have tail : ∀ hm : Heap α, NoAssert (do
        let t ← hm.tensor dest
        let t ← tensor_set_size hm t s.ndims s.shape s.length
        hm.setTensor dest { t with offset := s.offset }) := fun hm =>
      noAssert_bind _ _ (noAssert_tensor _ _) (fun t _ =>
        noAssert_bind _ _ (noAssert_tensor_set_size _ _ _ hs) (fun _ _ =>
          noAssert_setTensor _ _ _))
    refine noAssert_bind _ _ (noAssert_TENSOR_CHECK _ _) (fun _ _ =>
      noAssert_bind _ _ (noAssert_tensor _ _) (fun t _ => ?_))
    by_cases hd : t.data = s.data
    · rw [if_neg (not_not.mpr hd)]
      exact tail h
    · rw [if_pos hd]
      by_cases hnone : t.data = none
      · rw [if_neg (not_not.mpr hnone)]
        exact noAssert_bind _ _ (noAssert_ok _) (fun _ _ =>
          noAssert_bind _ _ (noAssert_setTensor _ _ _) (fun _ _ =>
            noAssert_bind _ _ (noAssert_data_inc _ _) (fun hm _ => tail hm)))
      · rw [if_pos hnone]
        exact noAssert_bind _ _ (noAssert_data_dec _ _) (fun _ _ =>
          noAssert_bind _ _ (noAssert_setTensor _ _ _) (fun _ _ =>
            noAssert_bind _ _ (noAssert_data_inc _ _) (fun hm _ => tail hm)))
  · exact noAssert_ok _

theorem lenInv_mkTensor (d : Nat) (r c off : Int) (hr : 1 ≤ r) (hc : 1 ≤ c)
    (hfit : r * c ≤ 2147483647) : LenInv (mkTensor d r c off) := by
  refine ⟨by simp [mkTensor, shapeProd], ?_, hfit⟩
  intro i hi
  have hi2 : i < 2 := hi
  rcases Nat.lt_succ_iff_lt_or_eq.mp hi2 with h0 | h1
  · have : i = 0 := by omega
    subst this
    exact ⟨r, rfl, hr⟩
  · subst h1
    exact ⟨c, rfl, hc⟩

theorem noAssert_tensor_select (h : Heap α) (dest src : TPtr) (index : Int) (s : Tensor)
    (hsrc : h.tensor src = Except.ok s) (hs : LenInv s) :
    NoAssert (tensor_select h dest src index) := by
  have hsn : src ≠ none := by
    rintro rfl
    cases hsrc
  unfold tensor_select
  rw [hsrc, bind_ok]
  simp only [hsn, if_false]
  refine noAssert_bind _ _ (noAssert_arrGet _ _ _) (fun _ _ =>
    noAssert_bind _ _ (noAssert_TENSOR_CHECK _ _) (fun _ _ =>
    noAssert_bind _ _ (noAssert_tensor_clone h dest src s hsrc hs) (fun _ _ =>
    noAssert_bind _ _ (noAssert_tensor _ _) (fun _ _ =>
    noAssert_bind _ _ (noAssert_arrGet _ _ _) (fun _ _ =>
    noAssert_bind _ _ (noAssert_tensor _ _) (fun _ _ =>
    noAssert_bind _ _ (noAssert_setTensor _ _ _) (fun _ _ =>
    noAssert_bind _ _ (noAssert_tensor _ _) (fun _ _ =>
    noAssert_bind _ _ (noAssert_arrGet _ _ _) (fun _ _ =>
    noAssert_bind _ _ (noAssert_tensor _ _) (fun _ _ =>
    noAssert_bind _ _ (noAssert_arrSet _ _ _ _) (fun _ _ =>
    noAssert_bind _ _ (noAssert_setTensor _ _ _) (fun _ _ =>
    noAssert_bind _ _ (noAssert_tensor _ _) (fun _ _ =>
    noAssert_bind _ _ (noAssert_arrSet _ _ _ _) (fun _ _ =>
    noAssert_bind _ _ (noAssert_setTensor _ _ _) (fun _ _ =>
    noAssert_bind _ _ (noAssert_tensor _ _) (fun _ _ =>
    noAssert_bind _ _ ?_ (fun _ _ => noAssert_setTensor _ _ _)))))))))))))))))
  unfold calculate_length
  exact (noAssert_forLoop (fun _ => True) _ _ _ trivial (fun i st _ _ =>
    ⟨noAssert_bind _ _ (noAssert_arrGet _ _ _) (fun v _ => noAssert_ok _),
     fun _ _ => trivial⟩)).1

/-- Claim C17. The length invariant (length = product of the first `ndims`
shape components, each at least 1) holds for the tensor that `tensor_init`
returns when the product of the components fits in an `int`; when the source
satisfies it, so does the destination after `tensor_clone`, and after
`tensor_select` for a source of rank 2, every other tensor cell being left as it
was; and for a source that satisfies it, the assertion of `tensor_set_size`
holds: neither `tensor_set_size` on its rank, shape and length, nor
`tensor_clone`, nor `tensor_select` ends on a failed assertion. -/
theorem length_invariant_preserved (MAX_DIM : Int) (h : Heap α) :
    (∀ (ndims : Int) (shape : List Int) (junk : Nat → Int) (fill : Nat → α) (p : TPtr)
        (h2 : Heap α), MAX_DIM.toNat ≤ shape.length →
      shapeProd ndims.toNat shape ≤ 2147483647 →
      tensor_init MAX_DIM h ndims shape junk fill = Except.ok (p, h2) →
      (∃ t, h2.tensor p = Except.ok t ∧ LenInv t) ∧
      ∀ q u, h.tensor q = Except.ok u → h2.tensor q = Except.ok u) ∧
    (∀ (dest src : TPtr) (s : Tensor) (h2 : Heap α), h.tensor src = Except.ok s → LenInv s →
      tensor_clone h dest src = Except.ok h2 →
      (∃ t2, h2.tensor dest = Except.ok t2 ∧ LenInv t2) ∧
      ∀ q u, q ≠ dest → (h2.tensor q = Except.ok u ↔ h.tensor q = Except.ok u)) ∧
    (∀ (dest src : TPtr) (index : Int) (s : Tensor) (h2 : Heap α),
      h.tensor src = Except.ok s → s.ndims = 2 → LenInv s →
      tensor_select h dest src index = Except.ok h2 →
      (∃ t2, h2.tensor dest = Except.ok t2 ∧ LenInv t2) ∧
      ∀ q u, q ≠ dest → (h2.tensor q = Except.ok u ↔ h.tensor q = Except.ok u)) ∧
    (∀ (dest src : TPtr) (index : Int) (s t : Tensor), h.tensor src = Except.ok s → LenInv s →
      (∀ h2, tensor_set_size h t s.ndims s.shape s.length ≠ Except.error (Fault.assertion, h2)) ∧
      (∀ h2, tensor_clone h dest src ≠ Except.error (Fault.assertion, h2)) ∧
      (∀ h2, tensor_select h dest src index ≠ Except.error (Fault.assertion, h2))) := by
  refine ⟨?_, ?_, ?_, ?_⟩
  · intro ndims shape junk fill p h2 hlen hfit e
    obtain ⟨g1, g2, g3, g4, g5⟩ := tensor_init_eq_ok MAX_DIM h h2 ndims shape junk fill p hlen e
    subst g4
    subst g5
    refine ⟨⟨_, tensor_append_get _ _ _, lenInv_initCell MAX_DIM ndims shape junk _ hlen g1 g2 g3 hfit⟩, ?_⟩
    intro q u hq
    rw [tensor_ok_iff] at hq ⊢
    obtain ⟨a, e1, e2⟩ := hq
    refine ⟨a, e1, ?_⟩
    have ha : a < h.tensors.length := by
      rcases lt_or_ge a h.tensors.length with h1 | h1
      · exact h1
      · rw [List.getElem?_eq_none h1] at e2; cases e2
    show (h.tensors ++ _)[a]? = _
    rw [List.getElem?_append_left ha]
    exact e2
  · intro dest src s h2 hsrc hs e
    refine ⟨?_, fun q u hq => tensor_clone_other h h2 dest src q u e hq⟩
    rcases tensor_clone_rel h h2 dest src e with ⟨e1, e2⟩ | ⟨_, a, t0, s2, t2, ea, hat, hs2, m1, _, _, c⟩
    · subst e1
      subst e2
      exact ⟨s, hsrc, hs⟩
    · subst ea
      rw [hsrc] at hs2
      cases hs2
      have halt := tensor_lt_length h a t0 ((tensor_ok_iff h _ t0).mpr ⟨a, rfl, hat⟩)
      refine ⟨t2, ?_, lenInv_of_eq t2 s c.2.1 c.2.2.1 c.2.2.2.2.1 hs⟩
      rw [tensor_ok_iff]
      exact ⟨a, rfl, by rw [m1]; simp [List.getElem?_set, halt]⟩
  · intro dest src index s h2 hsrc hrank hs e
    obtain ⟨s0, r, hm, a, u, s1, c, g1, g2, g3, ec, ea, hu, hs1, hc, hl1, hl2, e2⟩ :=
      tensor_select_rel h h2 dest src index e
    subst ea
    subst e2
    have hum : hm.tensor (some a) = Except.ok u := (tensor_ok_iff hm _ u).mpr ⟨a, rfl, hu⟩
    obtain ⟨c1, c2, c3, c4, c5, c6, _, _⟩ :=
      tensor_clone_inv_frame h hm (some a) src s u hsrc ec hum
    rw [hs1] at c6
    cases c6
    have halt := tensor_lt_length hm a u hum
    refine ⟨⟨_, tensor_set_same _ _ a _ halt, lenInv_selected u _ c _ hs hrank c3 hc hl1⟩, ?_⟩
    intro q v hq
    rw [tensor_set_other _ _ a _ q v hq]
    exact tensor_clone_other h hm (some a) src q v ec hq
  · intro dest src index s t hsrc hs
    exact ⟨noAssert_tensor_set_size h t s hs, noAssert_tensor_clone h dest src s hsrc hs,
      noAssert_tensor_select h dest src index s hsrc hs⟩

/-- Claim C17 at concrete inputs: `tensor_init(2, [3, 2])` on the empty heap,
then a clone and the selection of row 1 of a `[3, 2]` tensor. -/
theorem length_invariant_preserved_witness :
    ((∃ t, exInit.tensor (some 0) = Except.ok t ∧ LenInv t) ∧
      ∀ q u, emptyHeap.tensor q = Except.ok u → exInit.tensor q = Except.ok u) ∧
    ((∃ t2, exSelClone.tensor (some 1) = Except.ok t2 ∧ LenInv t2) ∧
      ∀ q u, q ≠ some 1 → (exSelClone.tensor q = Except.ok u ↔ exSel.tensor q = Except.ok u)) ∧
    ((∃ t2, exSelRow.tensor (some 1) = Except.ok t2 ∧ LenInv t2) ∧
      ∀ q u, q ≠ some 1 → (exSelRow.tensor q = Except.ok u ↔ exSel.tensor q = Except.ok u)) ∧
    ((∀ h2, tensor_set_size exSel (mkTensor 1 1 2 0) (mkTensor 0 3 2 0).ndims
        (mkTensor 0 3 2 0).shape (mkTensor 0 3 2 0).length ≠ Except.error (Fault.assertion, h2)) ∧
      (∀ h2, tensor_clone exSel (some 1) (some 0) ≠ Except.error (Fault.assertion, h2)) ∧
      (∀ h2, tensor_select exSel (some 1) (some 0) 1 ≠ Except.error (Fault.assertion, h2))) :=
  ⟨(length_invariant_preserved 2 emptyHeap).1 2 [3, 2] (fun _ => 0) (fun _ => 0) (some 0) exInit
      (by decide) (by decide) rfl,
   (length_invariant_preserved 2 exSel).2.1 (some 1) (some 0) (mkTensor 0 3 2 0) exSelClone rfl
      (lenInv_mkTensor 0 3 2 0 (by decide) (by decide) (by decide)) rfl,
   (length_invariant_preserved 2 exSel).2.2.1 (some 1) (some 0) 1 (mkTensor 0 3 2 0) exSelRow rfl
      rfl (lenInv_mkTensor 0 3 2 0 (by decide) (by decide) (by decide)) rfl,
   (length_invariant_preserved 2 exSel).2.2.2 (some 1) (some 0) 1 (mkTensor 0 3 2 0)
      (mkTensor 1 1 2 0) rfl (lenInv_mkTensor 0 3 2 0 (by decide) (by decide) (by decide))⟩


/-! ## The range of a view inside its buffer -/

theorem getElem?_some_lt {β : Type} (l : List β) (i : Nat) (x : β) (h : l[i]? = some x) :
    i < l.length := by
  rcases lt_or_ge i l.length with h1 | h1
  · exact h1
  · rw [List.getElem?_eq_none h1] at h; cases h

theorem capEq_refl (ds : List (Data α)) : CapEq ds ds :=
  fun _ b hb => ⟨b, hb, rfl⟩

theorem capEq_trans (d1 d2 d3 : List (Data α)) (h1 : CapEq d1 d2) (h2 : CapEq d2 d3) :
    CapEq d1 d3 := by
  intro d b hb
  obtain ⟨b2, e2, l2⟩ := h1 d b hb
  obtain ⟨b3, e3, l3⟩ := h2 d b2 e2
  exact ⟨b3, e3, by rw [l3, l2]⟩

theorem capEq_append (ds : List (Data α)) (x : Data α) : CapEq ds (ds ++ [x]) := by
  intro d b hb
  refine ⟨b, ?_, rfl⟩
  rw [List.getElem?_append_left (getElem?_some_lt _ _ _ hb)]
  exact hb

theorem capEq_retarget (ds : List (Data α)) (old new : Option Nat) :
    CapEq ds (retarget ds old new) := by
  intro d b hb
  have e := retarget_elems ds old new d
  rw [hb] at e
  cases h2 : (retarget ds old new)[d]? with
  | none => rw [h2] at e; simp at e
  | some b2 =>
    rw [h2] at e
    simp only [Option.map_some', Option.some.injEq] at e
    exact ⟨b2, rfl, by rw [e]⟩

theorem capEq_of_metaEq (ds ds2 : List (Data α)) (e : MetaEq ds ds2) : CapEq ds ds2 := by
  intro d b hb
  have e2 : (ds2.map meta3)[d]? = (ds.map meta3)[d]? := by rw [e]
  rw [List.getElem?_map, List.getElem?_map, hb] at e2
  cases h2 : ds2[d]? with
  | none => rw [h2] at e2; simp at e2
  | some b2 =>
    rw [h2] at e2
    simp only [Option.map_some', Option.some.injEq, meta3, Prod.mk.injEq] at e2
    exact ⟨b2, rfl, e2.2.2⟩

theorem metaEq_refl (ds : List (Data α)) : MetaEq ds ds := rfl

/-- A write into a buffer changes neither its count, nor its flag, nor its capacity. -/
theorem metaEq_set (ds : List (Data α)) (n : Nat) (b : Data α) (i : Nat) (v : α)
    (hb : ds[n]? = some b) : MetaEq ds (ds.set n ⟨b.elems.set i v, b.refcount, b.freed⟩) := by
  unfold MetaEq
  rw [List.map_set]
  have : meta3 (⟨b.elems.set i v, b.refcount, b.freed⟩ : Data α) = meta3 b := by
    simp [meta3]
  rw [this]
  symm
  apply set_same_getElem
  rw [List.getElem?_map, hb]
  rfl

/-- The loop `vector_sigmoid` / `vector_tanh` leaves the tensor cells and the
bookkeeping of every buffer as they were. -/
theorem vector_map_meta (f : α → α) (h h2 : Heap α) (a : RawPtr) (n : Int)
    (e : vector_map f h a n = Except.ok h2) :
    h2.tensors = h.tensors ∧ MetaEq h.datas h2.datas := by
  unfold vector_map at e
  refine forLoop_ok_inv (fun st => st.tensors = h.tensors ∧ MetaEq h.datas st.datas) _ _ ?_ h h2
    ⟨rfl, metaEq_refl _⟩ e
  intro i st s2 ⟨p1, p2⟩ eb
  rw [bind_eq_ok] at eb
  obtain ⟨u, _, e2⟩ := eb
  unfold rawSet at e2
  obtain ⟨n, b, hd, hb, _, _, _, e3⟩ := data_insert_eq_ok _ _ _ _ _ e2
  subst e3
  refine ⟨p1, ?_⟩
  have m := metaEq_set st.datas n b (a.off + (i : Int)).toNat (f u) hb
  unfold MetaEq at m p2 ⊢
  rw [m, p2]

/-- What a successful `tensor_sigmoid` / `tensor_tanh` has done to the cells and
the bookkeeping: a clone, then writes into the shared buffer. -/
theorem tensor_sigmoid_rel (f : α → α) (h h2 : Heap α) (dest src : TPtr)
    (e : tensor_sigmoid f h dest src = Except.ok h2) :
    ∃ h1, tensor_clone h dest src = Except.ok h1 ∧ h2.tensors = h1.tensors ∧
      MetaEq h1.datas h2.datas := by
  unfold tensor_sigmoid tensor_unary_point_wise_op at e
  simp only [bind_eq_ok] at e
  obtain ⟨_, _, _, _, t0, _, s0, hs0, _, _, h1, ec, p, ep, t1, ht1, em⟩ := e
  obtain ⟨m1, m2⟩ := vector_map_meta f h1 h2 _ _ em
  exact ⟨h1, ec, m1, m2⟩

theorem bound2_of_eq (h h2 : Heap α) (t t2 : Tensor) (hc : CapEq h.datas h2.datas)
    (hd : t2.data = t.data) (ho : t2.offset = t.offset) (hn : t2.ndims = t.ndims)
    (hl : t2.length = t.length)
    (hsh : ∀ i : Nat, i < t.ndims.toNat → t2.shape[i]? = t.shape[i]?) (hb : Bound2 h t) :
    Bound2 h2 t2 := by
  obtain ⟨p1, p2, d, b, q1, q2, q3, q4⟩ := hb
  obtain ⟨b2, e2, l2⟩ := hc d b q2
  refine ⟨lenInv_of_eq t2 t hn hl hsh p1, by rw [ho]; exact p2, d, b2, by rw [hd]; exact q1, e2,
    ?_, ?_⟩
  · rw [ho, hl, l2]; exact q3
  · rw [l2]; exact q4

/-- Replacing one cell preserves the invariant when the new cell, if of rank 2,
has its range inside its buffer. -/
theorem rangeInv_set (h h2 : Heap α) (a : Nat) (t2 : Tensor)
    (hts : h2.tensors = h.tensors.set a (some t2)) (hc : CapEq h.datas h2.datas)
    (hinv : RangeInv h) (hnew : t2.ndims = 2 → Bound2 h2 t2) : RangeInv h2 := by
  intro b t hb hrank
  rw [hts, List.getElem?_set] at hb
  by_cases hab : a = b
  · rw [if_pos hab] at hb
    split at hb
    · cases hb
      exact hnew hrank
    · cases hb
  · rw [if_neg hab] at hb
    exact bound2_of_eq h h2 t t hc rfl rfl rfl rfl (fun _ _ => rfl) (hinv b t hb hrank)

theorem rangeInv_same (h h2 : Heap α) (hts : h2.tensors = h.tensors)
    (hc : CapEq h.datas h2.datas) (hinv : RangeInv h) : RangeInv h2 := by
  intro b t hb hrank
  rw [hts] at hb
  exact bound2_of_eq h h2 t t hc rfl rfl rfl rfl (fun _ _ => rfl) (hinv b t hb hrank)

theorem rangeInv_clone (h h2 : Heap α) (dest src : TPtr) (hinv : RangeInv h)
    (e : tensor_clone h dest src = Except.ok h2) : RangeInv h2 := by
  rcases tensor_clone_rel h h2 dest src e with ⟨_, e2⟩ | ⟨_, a, t0, s, t2, ea, hat, hs, m1, m2, _, c⟩
  · rw [e2]; exact hinv
  · have hc : CapEq h.datas h2.datas := by rw [m2]; exact capEq_retarget _ _ _
    refine rangeInv_set h h2 a t2 m1 hc hinv (fun hrank => ?_)
    obtain ⟨c1, c2, c3, c4, c5, _⟩ := c
    obtain ⟨x, _, hx⟩ := (tensor_ok_iff h src s).mp hs
    exact bound2_of_eq h h2 s t2 hc c1 c4 c2 c3 c5 (hinv x s hx (by rw [← c2]; exact hrank))

/-- The arithmetic of `tensor_select` on a rank-2 view inside its buffer: row
`index`, with `0 ≤ index < shape[0]`, is again inside the buffer. -/
theorem bound2_selected (h : Heap α) (u : Tensor) (r c index : Int) (hb : Bound2 h u)
    (h2 : u.ndims = 2) (hr : u.shape[0]? = some r) (hc : u.shape[1]? = some c)
    (hi0 : 0 ≤ index) (hi1 : index < r) (hlen : 1 < u.shape.length) :
    Bound2 h (Tensor.mk u.data ((u.shape.set 0 c).set 1 1) u.ndims
      (wrap32 (shapeProd u.ndims.toNat ((u.shape.set 0 c).set 1 1)))
      (wrap32 (u.offset + wrap32 (index * c))) u.strides) := by
  obtain ⟨p, p0, d, b, q1, q2, q3, q4⟩ := hb
  have hsel := lenInv_selected u u c (wrap32 (u.offset + wrap32 (index * c))) p h2 rfl hc hlen
  obtain ⟨p1, p2, p3⟩ := p
  rw [h2] at p1 p2
  obtain ⟨r2, hr2, hr1⟩ := p2 0 (by decide)
  obtain ⟨c2, hc2, hc1⟩ := p2 1 (by decide)
  rw [hr] at hr2
  rw [hc] at hc2
  cases hr2
  cases hc2
  obtain ⟨rest, hshape⟩ := shape_two u.shape r c hr hc
  have hprod : u.length = r * c := by
    rw [p1, hshape]
    simp [shapeProd]
  have hnd : u.ndims.toNat = 2 := by rw [h2]; rfl
  have hval : shapeProd u.ndims.toNat ((u.shape.set 0 c).set 1 1) = c := by
    rw [hnd, hshape]
    simp [shapeProd]
  have hic0 : 0 ≤ index * c := Int.mul_nonneg hi0 (by omega)
  have hic1 : index * c + c ≤ r * c := by nlinarith
  have hcm : c ≤ 2147483647 := by omega
  have hw : wrap32 c = c := wrap32_eq _ (by omega) hcm
  have hwo : wrap32 (u.offset + wrap32 (index * c)) = u.offset + index * c := by
    rw [wrap32_eq (index * c) (by omega) (by omega), wrap32_eq _ (by omega) (by omega)]
  refine ⟨hsel, ?_, d, b, q1, q2, ?_, q4⟩
  · show 0 ≤ wrap32 (u.offset + wrap32 (index * c))
    rw [hwo]; omega
  · show wrap32 (u.offset + wrap32 (index * c))
      + wrap32 (shapeProd u.ndims.toNat ((u.shape.set 0 c).set 1 1)) ≤ _
    rw [hwo, hval, hw]; omega

theorem rangeInv_select (h h2 : Heap α) (dest src : TPtr) (index : Int) (hinv : RangeInv h)
    (hidx : 0 ≤ index) (e : tensor_select h dest src index = Except.ok h2) : RangeInv h2 := by
  obtain ⟨s0, r, hm, a, u, s1, c, g1, g2, g3, ec, ea, hu, hs1, hc, hl1, hl2, e2⟩ :=
    tensor_select_rel h h2 dest src index e
  subst ea
  subst e2
  have hinvm := rangeInv_clone h hm (some a) src hinv ec
  have hum : hm.tensor (some a) = Except.ok u := (tensor_ok_iff hm _ u).mpr ⟨a, rfl, hu⟩
  obtain ⟨c1, c2, c3, c4, c5, c6, _, _⟩ :=
    tensor_clone_inv_frame h hm (some a) src s0 u g1 ec hum
  rw [hs1] at c6
  cases c6
  refine rangeInv_set hm _ a _ rfl (capEq_refl _) hinvm (fun hrank => ?_)
  have hrank2 : u.ndims = 2 := hrank
  have hsr : s0.ndims.toNat = 2 := by rw [← c3, hrank2]; rfl
  have hr : u.shape[0]? = some r := by rw [c5 0 (by omega)]; exact g2
  have hcc : u.shape[1]? = some c := by rw [c5 1 (by omega)]; exact hc
  exact bound2_selected _ u r c index
    (bound2_of_eq hm _ u u (capEq_refl _) rfl rfl rfl rfl (fun _ _ => rfl) (hinvm a u hu hrank2))
    hrank2 hr hcc hidx g3 hl1

theorem rangeInv_unary (f : α → α) (h h2 : Heap α) (dest src : TPtr) (hinv : RangeInv h)
    (e : tensor_sigmoid f h dest src = Except.ok h2) : RangeInv h2 := by
  obtain ⟨h1, ec, m1, m2⟩ := tensor_sigmoid_rel f h h2 dest src e
  exact rangeInv_same h1 h2 m1 (capEq_of_metaEq _ _ m2) (rangeInv_clone h h1 dest src hinv ec)

theorem rangeInv_init (MAX_DIM : Int) (h h2 : Heap α) (ndims : Int) (shape : List Int)
    (junk : Nat → Int) (fill : Nat → α) (p : TPtr) (hlen : MAX_DIM.toNat ≤ shape.length)
    (hfit : shapeProd ndims.toNat shape ≤ 2147483647) (hinv : RangeInv h)
    (e : tensor_init MAX_DIM h ndims shape junk fill = Except.ok (p, h2)) : RangeInv h2 := by
  obtain ⟨g1, g2, g3, g4, g5⟩ := tensor_init_eq_ok MAX_DIM h h2 ndims shape junk fill p hlen e
  subst g5
  have hn : ndims.toNat ≤ shape.length := by omega
  have hpos := shapeProd_pos shape ndims.toNat hn g3
  have hw : wrap32 (shapeProd ndims.toNat shape) = shapeProd ndims.toNat shape :=
    wrap32_eq _ (by omega) hfit
  intro b t hb hrank
  simp only at hb
  rcases lt_or_ge b h.tensors.length with h1 | h1
  · rw [List.getElem?_append_left h1] at hb
    exact bound2_of_eq h _ t t (capEq_append _ _) rfl rfl rfl rfl (fun _ _ => rfl)
      (hinv b t hb hrank)
  · rw [List.getElem?_append_right h1] at hb
    have hb0 : b - h.tensors.length = 0 := by
      rcases Nat.eq_zero_or_pos (b - h.tensors.length) with h0 | h0
      · exact h0
      · rw [List.getElem?_eq_none (by simp; omega)] at hb; cases hb
    rw [hb0] at hb
    simp only [List.getElem?_cons_zero, Option.some.injEq] at hb
    subst hb
    refine ⟨lenInv_initCell MAX_DIM ndims shape junk _ hlen g1 g2 g3 hfit, le_refl _,
      h.datas.length,
      ⟨(List.range (wrap32 (shapeProd ndims.toNat shape)).toNat).map fill, 1, false⟩, rfl,
      by simp, ?_, ?_⟩
    · show (0 : Int) + wrap32 (shapeProd ndims.toNat shape) ≤ _
      simp only [List.length_map, List.length_range]
      rw [hw]
      omega
    · simp only [List.length_map, List.length_range]
      have := wrap32_le (shapeProd ndims.toNat shape)
      omega

theorem rangeInv_reach (MAX_DIM : Int) (h : Heap α) (hr : SafeReach MAX_DIM h) : RangeInv h := by
  induction hr with
  | empty =>
    intro a t ha _
    simp at ha
  | step h h2 _ hs ih =>
    cases hs with
    | init _ _ ndims shape junk fill p hlen hfit e =>
      exact rangeInv_init MAX_DIM h h2 ndims shape junk fill p hlen hfit ih e
    | clone _ _ dest src e => exact rangeInv_clone h h2 dest src ih e
    | select _ _ dest src index hidx e => exact rangeInv_select h h2 dest src index ih hidx e
    | unary f _ _ dest src e => exact rangeInv_unary f h h2 dest src ih e

theorem tensor_clone_capEq (h h1 : Heap α) (dest src : TPtr)
    (e : tensor_clone h dest src = Except.ok h1) : CapEq h.datas h1.datas := by
  rcases tensor_clone_rel h h1 dest src e with ⟨_, e2⟩ | ⟨_, a, t0, s, t2, _, _, _, _, m2, _⟩
  · rw [e2]; exact capEq_refl _
  · rw [m2]; exact capEq_retarget _ _ _

/-- Claim C18 fails as stated, on two sequences of successful calls from the
empty heap. First: `tensor_init(2, [65536, 65536])` returns a tensor of length 0
on a buffer of capacity 0 (its range is inside the buffer), and selecting its
row 0 gives a rank-2 view of length 65536 on that buffer. Second:
`tensor_init(2, [1, 2])` followed by `tensor_select` with the index
`-2147483647`, which passes the check `index >= shape[0]`, gives a rank-2 view
at offset 2 of length 2 on a buffer of capacity 2. -/
theorem tensor_select_exceeds_capacity :
    (tensor_init 2 emptyHeap 2 [65536, 65536] (fun _ => 0) (fun _ => 0)
        = Except.ok (some 0, exWrapInit) ∧
      tensor_select exWrapInit (some 0) (some 0) 0 = Except.ok exWrapRow ∧
      (∃ t d b, exWrapInit.tensor (some 0) = Except.ok t ∧ t.ndims = 2 ∧ t.data = some d ∧
        exWrapInit.datas[d]? = some b ∧ t.offset + t.length ≤ (b.elems.length : Int)) ∧
      (∃ t d b, exWrapRow.tensor (some 0) = Except.ok t ∧ t.ndims = 2 ∧ t.data = some d ∧
        exWrapRow.datas[d]? = some b ∧ (b.elems.length : Int) < t.offset + t.length)) ∧
    (tensor_init 2 emptyHeap 2 [1, 2] (fun _ => 0) (fun _ => 0) = Except.ok (some 0, exOneRow) ∧
      tensor_select exOneRow (some 0) (some 0) (-2147483647) = Except.ok exNegRow ∧
      (∃ t d b, exOneRow.tensor (some 0) = Except.ok t ∧ t.ndims = 2 ∧ t.data = some d ∧
        exOneRow.datas[d]? = some b ∧ t.offset + t.length ≤ (b.elems.length : Int)) ∧
      (∃ t d b, exNegRow.tensor (some 0) = Except.ok t ∧ t.ndims = 2 ∧ t.data = some d ∧
        exNegRow.datas[d]? = some b ∧ (b.elems.length : Int) < t.offset + t.length)) :=
  ⟨⟨rfl, rfl, ⟨_, 0, _, rfl, rfl, rfl, rfl, by decide⟩, ⟨_, 0, _, rfl, rfl, rfl, rfl, by decide⟩⟩,
   ⟨rfl, rfl, ⟨_, 0, _, rfl, rfl, rfl, rfl, by decide⟩, ⟨_, 0, _, rfl, rfl, rfl, rfl, by decide⟩⟩⟩

/-- Claim C18, amended. In every heap reached from the empty heap by successful
calls of `tensor_init` on a shape whose product fits in an `int`, of
`tensor_clone`, of `tensor_select` with a non-negative index and of
`tensor_sigmoid` / `tensor_tanh`, every live tensor of rank 2 references a buffer
and `0 ≤ offset`, `offset + length ≤ capacity`. And in any heap, if the rank-2
tensor `src` satisfies the length invariant and these bounds, and
`tensor_select(dest, src, index)` returns with `0 ≤ index`, then `dest` is a
rank-2 tensor that satisfies them afterwards. -/
theorem view_range_within_capacity (MAX_DIM : Int) :
    (∀ h : Heap α, SafeReach MAX_DIM h → ∀ (p : TPtr) (t : Tensor),
      h.tensor p = Except.ok t → t.ndims = 2 →
      ∃ d b, t.data = some d ∧ h.datas[d]? = some b ∧ 0 ≤ t.offset ∧
        t.offset + t.length ≤ (b.elems.length : Int)) ∧
    (∀ (h h2 : Heap α) (dest src : TPtr) (index : Int) (s : Tensor),
      h.tensor src = Except.ok s → s.ndims = 2 → Bound2 h s → 0 ≤ index →
      tensor_select h dest src index = Except.ok h2 →
      ∃ t2, h2.tensor dest = Except.ok t2 ∧ t2.ndims = 2 ∧ Bound2 h2 t2) := by
  constructor
  · intro h hr p t hp hrank
    obtain ⟨a, _, ha⟩ := (tensor_ok_iff h p t).mp hp
    obtain ⟨_, p0, d, b, q1, q2, q3, _⟩ := rangeInv_reach MAX_DIM h hr a t ha hrank
    exact ⟨d, b, q1, q2, p0, q3⟩
  · intro h h2 dest src index s hsrc hrank hb hidx e
    obtain ⟨s0, r, hm, a, u, s1, c, g1, g2, g3, ec, ea, hu, hs1, hc, hl1, hl2, e2⟩ :=
      tensor_select_rel h h2 dest src index e
    subst ea
    subst e2
    rw [hsrc] at g1
    cases g1
    have hum : hm.tensor (some a) = Except.ok u := (tensor_ok_iff hm _ u).mpr ⟨a, rfl, hu⟩
    obtain ⟨c1, c2, c3, c4, c5, c6, _, _⟩ :=
      tensor_clone_inv_frame h hm (some a) src s u hsrc ec hum
    rw [hs1] at c6
    cases c6
    have halt := tensor_lt_length hm a u hum
    have hrank2 : u.ndims = 2 := by rw [c3]; exact hrank
    have hsr : s.ndims.toNat = 2 := by rw [hrank]; rfl
    have hr : u.shape[0]? = some r := by rw [c5 0 (by omega)]; exact g2
    have hcc : u.shape[1]? = some c := by rw [c5 1 (by omega)]; exact hc
    have hbu : Bound2 hm u :=
      bound2_of_eq h hm s u (tensor_clone_capEq h hm (some a) src ec) c1 c2 c3 c4 c5 hb
    refine ⟨_, tensor_set_same _ _ a _ halt, hrank2, ?_⟩
    exact bound2_selected _ u r c index
      (bound2_of_eq hm _ u u (capEq_refl _) rfl rfl rfl rfl (fun _ _ => rfl) hbu)
      hrank2 hr hcc hidx g3 hl1

theorem bound2_mkTensor (h : Heap Int) (d : Nat) (r c off : Int) (b : Data Int)
    (hr : 1 ≤ r) (hc : 1 ≤ c) (hfit : r * c ≤ 2147483647) (ho : 0 ≤ off)
    (hb : h.datas[d]? = some b) (hcap : off + r * c ≤ (b.elems.length : Int))
    (hmax : (b.elems.length : Int) ≤ 2147483647) : Bound2 h (mkTensor d r c off) :=
  ⟨lenInv_mkTensor d r c off hr hc hfit, ho, d, b, rfl, hb, hcap, hmax⟩

/-- Claim C18 (amended) at concrete inputs: the heap reached by
`tensor_init(2, [3, 2])`, `tensor_init(2, [1, 2])` and the selection of row 1 of
the first tensor into the second; and that selection on its own. -/
theorem view_range_within_capacity_witness :
    (∃ d b, (Tensor.mk (some 0) [2, 1] 2 2 2 [1, 0]).data = some d ∧
      exSelRow.datas[d]? = some b ∧ 0 ≤ (Tensor.mk (some 0) [2, 1] 2 2 2 [1, 0]).offset ∧
      (Tensor.mk (some 0) [2, 1] 2 2 2 [1, 0]).offset
        + (Tensor.mk (some 0) [2, 1] 2 2 2 [1, 0]).length ≤ (b.elems.length : Int)) ∧
    (∃ t2, exSelRow.tensor (some 1) = Except.ok t2 ∧ t2.ndims = 2 ∧ Bound2 exSelRow t2) :=
  ⟨(view_range_within_capacity 2).1 exSelRow
      (SafeReach.step exSel exSelRow
        (SafeReach.step exSelFirst exSel
          (SafeReach.step emptyHeap exSelFirst SafeReach.empty
            (SafeStep.init emptyHeap exSelFirst 2 [3, 2] (fun _ => 0) (fun i => (i : Int) + 1)
              (some 0) (by decide) (by decide) (by rfl)))
          (SafeStep.init exSelFirst exSel 2 [1, 2] (fun _ => 0) (fun _ => 0) (some 1)
            (by decide) (by decide) rfl))
        (SafeStep.select exSel exSelRow (some 1) (some 0) 1 (by decide) rfl))
      (some 1) (Tensor.mk (some 0) [2, 1] 2 2 2 [1, 0]) rfl rfl,
   (view_range_within_capacity 2).2 exSel exSelRow (some 1) (some 0) 1 (mkTensor 0 3 2 0) rfl rfl
      (bound2_mkTensor exSel 0 3 2 0 ⟨[1, 2, 3, 4, 5, 6], 1, false⟩ (by decide) (by decide)
        (by decide) (by decide) rfl (by decide) (by decide))
      (by decide) rfl⟩


/-! ## Reference counting -/

theorem count_set {β : Type} [DecidableEq β] [BEq β] [LawfulBEq β] (l : List β) (a : Nat)
    (z y x : β)
    (hz : l[a]? = some z) :
    (l.set a y).count x + (if z = x then 1 else 0) = l.count x + (if y = x then 1 else 0) := by
  induction l generalizing a with
  | nil => simp at hz
  | cons w l ih =>
    cases a with
    | zero =>
      simp only [List.getElem?_cons_zero, Option.some.injEq] at hz
      subst hz
      simp only [List.set_cons_zero, List.count_cons, beq_iff_eq]
      omega
    | succ k =>
      simp only [List.getElem?_cons_succ] at hz
      have := ih k hz
      simp only [List.set_cons_succ, List.count_cons, beq_iff_eq]
      omega

/-- Replacing the cell `a` moves one reference: the count of a buffer loses the
old cell if it referenced the buffer and gains the new one if it does. -/
theorem refs_set (ds ds2 : List (Data α)) (ts : List (Option Tensor)) (a : Nat)
    (z y : Option Tensor) (hz : ts[a]? = some z) (d : Nat) :
    refs (Heap.mk ds2 (ts.set a y)) d
        + (if Option.map Tensor.data z = some (some d) then 1 else 0)
      = refs (Heap.mk ds ts) d + (if Option.map Tensor.data y = some (some d) then 1 else 0) := by
  unfold refs
  simp only [List.map_set]
  apply count_set
  rw [List.getElem?_map, hz]
  rfl

theorem refs_pos_iff (h : Heap α) (d : Nat) :
    1 ≤ refs h d ↔ ∃ (a : Nat) (t : Tensor), h.tensors[a]? = some (some t) ∧ t.data = some d := by
  unfold refs
  rw [Nat.succ_le_iff, List.count_pos_iff, List.mem_map]
  constructor
  · rintro ⟨o, ho, e⟩
    cases o with
    | none => simp at e
    | some t =>
      simp only [Option.map_some', Option.some.injEq] at e
      obtain ⟨a, ha⟩ := List.mem_iff_getElem?.mp ho
      exact ⟨a, t, ha, e⟩
  · rintro ⟨a, t, ha, e⟩
    exact ⟨some t, List.mem_iff_getElem?.mpr ⟨a, ha⟩, by simp [e]⟩

theorem metaEq_length (ds ds2 : List (Data α)) (e : MetaEq ds ds2) : ds2.length = ds.length := by
  have := congrArg List.length e
  simpa using this

theorem metaEq_get (ds ds2 : List (Data α)) (e : MetaEq ds ds2) (d : Nat) (b2 : Data α)
    (hb : ds2[d]? = some b2) :
    ∃ b, ds[d]? = some b ∧ b.refcount = b2.refcount ∧ b.freed = b2.freed := by
  have e2 : (ds2.map meta3)[d]? = (ds.map meta3)[d]? := by rw [e]
  rw [List.getElem?_map, List.getElem?_map, hb] at e2
  cases h1 : ds[d]? with
  | none => rw [h1] at e2; simp at e2
  | some b =>
    rw [h1] at e2
    simp only [Option.map_some', Option.some.injEq, meta3, Prod.mk.injEq] at e2
    exact ⟨b, rfl, e2.1.symm, e2.2.1.symm⟩

theorem metaEq_get_fwd (ds ds2 : List (Data α)) (e : MetaEq ds ds2) (d : Nat) (b : Data α)
    (hb : ds[d]? = some b) :
    ∃ b2, ds2[d]? = some b2 ∧ b2.refcount = b.refcount ∧ b2.freed = b.freed := by
  have e2 : (ds2.map meta3)[d]? = (ds.map meta3)[d]? := by rw [e]
  rw [List.getElem?_map, List.getElem?_map, hb] at e2
  cases h1 : ds2[d]? with
  | none => rw [h1] at e2; simp at e2
  | some b2 =>
    rw [h1] at e2
    simp only [Option.map_some', Option.some.injEq, meta3, Prod.mk.injEq] at e2
    exact ⟨b2, rfl, e2.1, e2.2.1⟩

theorem metaEq_trans (d1 d2 d3 : List (Data α)) (h1 : MetaEq d1 d2) (h2 : MetaEq d2 d3) :
    MetaEq d1 d3 := by
  unfold MetaEq at *
  rw [h2, h1]

theorem decAt_length (ds : List (Data α)) (o : Nat) : (decAt ds o).length = ds.length := by
  unfold decAt
  split <;> simp

theorem incAt_length (ds : List (Data α)) (n : Nat) : (incAt ds n).length = ds.length := by
  unfold incAt
  split <;> simp

/-- Pointer validity from the counts: a referenced buffer is allocated. -/
theorem refInv_valid (h : Heap α) (hinv : RefInv h) (d : Nat) (hd : 1 ≤ refs h d) :
    d < h.datas.length := by
  obtain ⟨a, t, ha, e⟩ := (refs_pos_iff h d).mp hd
  exact hinv.2 a t d ha e

/-- A referenced buffer is live, and its count is the number of its references. -/
theorem refInv_live (h : Heap α) (hinv : RefInv h) (d : Nat) (hd : 1 ≤ refs h d) :
    ∃ b, h.datas[d]? = some b ∧ b.freed = false ∧ b.refcount = (refs h d : Int) := by
  have hlt := refInv_valid h hinv d hd
  refine ⟨h.datas[d], List.getElem?_eq_getElem hlt, ?_⟩
  obtain ⟨p1, p2⟩ := hinv.1 d h.datas[d] (List.getElem?_eq_getElem hlt)
  refine ⟨?_, p1⟩
  cases hf : (h.datas[d]).freed with
  | true =>
    have := p2.mp hf
    omega
  | false => rfl

theorem refInv_eq (h h2 : Heap α) (hc : ∀ d, refs h2 d = refs h d)
    (hm : MetaEq h.datas h2.datas) (hinv : RefInv h) : RefInv h2 := by
  constructor
  · intro d b2 hb2
    obtain ⟨b, hb, e1, e2⟩ := metaEq_get _ _ hm d b2 hb2
    rw [hc d, ← e1, ← e2]
    exact hinv.1 d b hb
  · intro a t d ha e
    have : 1 ≤ refs h2 d := (refs_pos_iff h2 d).mpr ⟨a, t, ha, e⟩
    rw [hc d] at this
    rw [metaEq_length _ _ hm]
    exact refInv_valid h hinv d this

/-- One reference to the buffer `o` is given up and `data_dec` is applied to it. -/
theorem refInv_dec (h h2 : Heap α) (o : Nat)
    (hc : ∀ d, refs h2 d + (if d = o then 1 else 0) = refs h d)
    (hm : MetaEq (decAt h.datas o) h2.datas) (hinv : RefInv h) : RefInv h2 := by
  have ho : 1 ≤ refs h o := by
    have := hc o
    simp only [if_true] at this
    omega
  obtain ⟨bo, hbo, hfo, hro⟩ := refInv_live h hinv o ho
  constructor
  · intro d b2 hb2
    obtain ⟨b1, hb1, e1, e2⟩ := metaEq_get _ _ hm d b2 hb2
    rw [decAt_get] at hb1
    by_cases hdo : d = o
    · subst hdo
      rw [hbo] at hb1
      simp only [Option.map_some', if_true, Option.some.injEq] at hb1
      subst hb1
      simp only at e1 e2
      have hcd := hc d
      simp only [if_true] at hcd
      rw [← e1, ← e2]
      constructor
      · omega
      · simp only [decide_eq_true_eq]
        omega
    · have hcd := hc d
      simp only [hdo, if_false, Nat.add_zero] at hcd
      cases hd : h.datas[d]? with
      | none => rw [hd] at hb1; simp at hb1
      | some b =>
        rw [hd] at hb1
        simp only [Option.map_some', hdo, if_false, Option.some.injEq] at hb1
        subst hb1
        rw [hcd, ← e1, ← e2]
        exact hinv.1 d _ hd
  · intro a t d ha e
    have h1 : 1 ≤ refs h2 d := (refs_pos_iff h2 d).mpr ⟨a, t, ha, e⟩
    have hcd := hc d
    have h2' : 1 ≤ refs h d := by omega
    rw [metaEq_length _ _ hm, decAt_length]
    exact refInv_valid h hinv d h2'

/-- One reference to the live buffer `n` is taken and `data_inc` is applied to it. -/
theorem refInv_inc (h h2 : Heap α) (n : Nat)
    (hc : ∀ d, refs h2 d = refs h d + (if d = n then 1 else 0))
    (hm : MetaEq (incAt h.datas n) h2.datas) (hl : LiveAt h.datas (some n))
    (hinv : RefInv h) : RefInv h2 := by
  obtain ⟨n2, bn, en, hbn, hfn⟩ := hl
  cases en
  obtain ⟨hrn, hfr⟩ := hinv.1 n bn hbn
  constructor
  · intro d b2 hb2
    obtain ⟨b1, hb1, e1, e2⟩ := metaEq_get _ _ hm d b2 hb2
    rw [incAt_get] at hb1
    by_cases hdn : d = n
    · subst hdn
      rw [hbn] at hb1
      simp only [Option.map_some', if_true, Option.some.injEq] at hb1
      subst hb1
      simp only at e1 e2
      have hcd := hc d
      simp only [if_true] at hcd
      rw [← e1, ← e2]
      constructor
      · rw [hcd, hrn]; push_cast; ring
      · rw [hfn]
        constructor
        · intro hf; cases hf
        · intro h0; omega
    · have hcd := hc d
      simp only [hdn, if_false, Nat.add_zero] at hcd
      cases hd : h.datas[d]? with
      | none => rw [hd] at hb1; simp at hb1
      | some b =>
        rw [hd] at hb1
        simp only [Option.map_some', hdn, if_false, Option.some.injEq] at hb1
        subst hb1
        rw [hcd, ← e1, ← e2]
        exact hinv.1 d _ hd
  · intro a t d ha e
    have h1 : 1 ≤ refs h2 d := (refs_pos_iff h2 d).mpr ⟨a, t, ha, e⟩
    rw [metaEq_length _ _ hm, incAt_length]
    by_cases hdn : d = n
    · subst hdn
      exact getElem?_some_lt _ _ _ hbn
    · have hcd := hc d
      simp only [hdn, if_false, Nat.add_zero] at hcd
      exact refInv_valid h hinv d (by omega)

/-- A new buffer with count 1 and a new tensor that references it. -/
theorem refInv_alloc (h h2 : Heap α) (b : Data α) (t : Tensor) (e1 : h2.datas = h.datas ++ [b])
    (e2 : b.refcount = 1) (e3 : b.freed = false) (e4 : h2.tensors = h.tensors ++ [some t])
    (e5 : t.data = some h.datas.length) (hinv : RefInv h) : RefInv h2 := by
  have hc : ∀ d, refs h2 d = refs h d + (if d = h.datas.length then 1 else 0) := by
    intro d
    unfold refs
    rw [e4, List.map_append, List.count_append]
    congr 1
    simp only [List.map_cons, List.map_nil, Option.map_some', e5, List.count_cons,
      List.count_nil, beq_iff_eq, Option.some.injEq, Nat.zero_add]
    by_cases hd : d = h.datas.length
    · simp [hd]
    · have : ¬ h.datas.length = d := fun x => hd x.symm
      simp [hd, this]
  have hnew : refs h h.datas.length = 0 := by
    by_contra hne
    have := refInv_valid h hinv h.datas.length (by omega)
    omega
  constructor
  · intro d b2 hb2
    rw [e1] at hb2
    have hcd := hc d
    rcases lt_or_ge d h.datas.length with h1 | h1
    · rw [List.getElem?_append_left h1] at hb2
      have : ¬ d = h.datas.length := by omega
      simp only [this, if_false, Nat.add_zero] at hcd
      rw [hcd]
      exact hinv.1 d b2 hb2
    · rw [List.getElem?_append_right h1] at hb2
      have hd0 : d - h.datas.length = 0 := by
        rcases Nat.eq_zero_or_pos (d - h.datas.length) with h0 | h0
        · exact h0
        · rw [List.getElem?_eq_none (by simp; omega)] at hb2; cases hb2
      rw [hd0] at hb2
      simp only [List.getElem?_cons_zero, Option.some.injEq] at hb2
      subst hb2
      have hd : d = h.datas.length := by omega
      subst hd
      simp only [if_true] at hcd
      rw [hcd, hnew, e2, e3]
      constructor
      · rfl
      · constructor
        · intro hf; cases hf
        · intro h0; omega
  · intro a u d ha e
    have h1 : 1 ≤ refs h2 d := (refs_pos_iff h2 d).mpr ⟨a, u, ha, e⟩
    rw [e1, List.length_append]
    by_cases hd : d = h.datas.length
    · simp [hd]
    · have hcd := hc d
      simp only [hd, if_false, Nat.add_zero] at hcd
      have := refInv_valid h hinv d (by omega)
      omega

theorem liveAt_decAt (ds : List (Data α)) (o n : Nat) (hne : o ≠ n)
    (hl : LiveAt ds (some n)) : LiveAt (decAt ds o) (some n) := by
  obtain ⟨n2, b, e1, e2, e3⟩ := hl
  cases e1
  refine ⟨n, b, rfl, ?_, e3⟩
  rw [decAt_get, e2]
  have : ¬ n = o := fun x => hne x.symm
  simp [this]

/-- The reference counting invariant is preserved by each kind of effect. -/
theorem refInv_eff (h h2 : Heap α) (he : Eff h h2) (hinv : RefInv h) : RefInv h2 := by
  cases he with
  | same e1 e2 =>
    refine refInv_eq h h2 (fun d => ?_) e2 hinv
    unfold refs
    rw [e1]
  | alloc b t e1 e2 e3 e4 e5 => exact refInv_alloc h h2 b t e1 e2 e3 e4 e5 hinv
  | retarget a t t2 e1 e2 e3 e4 =>
    have hrs : ∀ (y : Option Tensor) (ds2 : List (Data α)) (d : Nat),
        refs (Heap.mk ds2 (h.tensors.set a y)) d
          + (if Option.map Tensor.data (some t) = some (some d) then 1 else 0)
        = refs h d + (if Option.map Tensor.data y = some (some d) then 1 else 0) :=
      fun y ds2 d => refs_set h.datas ds2 h.tensors a (some t) y e1 d
    have hh2 : h2 = Heap.mk h2.datas (h.tensors.set a (some t2)) := by
      cases h2
      simp only at e2
      simp only [e2]
    by_cases hsame : t.data = t2.data
    · have hm : MetaEq h.datas h2.datas := by
        have : retarget h.datas t.data t2.data = h.datas := by
          unfold retarget
          rw [if_pos hsame]
        rw [this] at e3
        exact e3
      refine refInv_eq h h2 (fun d => ?_) hm hinv
      have := hrs (some t2) h2.datas d
      rw [← hh2] at this
      simp only [Option.map_some', hsame] at this
      omega
    · rcases e4 with e4 | ⟨hold, n, bn, en, hbn, hfn⟩
      · exact absurd e4 hsame
      · have hln : LiveAt h.datas (some n) := ⟨n, bn, rfl, hbn, hfn⟩
        rcases hold with hnone | ⟨o, bo, eo, hbo, hfo⟩
        · -- the cell held no buffer
          have hret : retarget h.datas t.data t2.data = incAt h.datas n := by
            unfold retarget
            rw [if_neg hsame, hnone, en]
          rw [hret] at e3
          refine refInv_inc h h2 n (fun d => ?_) e3 hln hinv
          have := hrs (some t2) h2.datas d
          rw [← hh2] at this
          simp only [Option.map_some', hnone, en, Option.some.injEq] at this
          have hnd : (n = d) ↔ (d = n) := ⟨fun x => x.symm, fun x => x.symm⟩
          simp only [reduceCtorEq, if_false, Nat.add_zero, hnd] at this
          exact this
        · -- the cell held the buffer `o`
          have hon : o ≠ n := by
            intro x
            apply hsame
            rw [eo, en, x]
          have hret : retarget h.datas t.data t2.data = incAt (decAt h.datas o) n := by
            unfold retarget
            rw [if_neg hsame, eo, en]
          rw [hret] at e3
          have hmid : RefInv (Heap.mk (decAt h.datas o)
              (h.tensors.set a (some { t with data := none }))) := by
            refine refInv_dec h _ o (fun d => ?_) (metaEq_refl _) hinv
            have := hrs (some { t with data := none }) (decAt h.datas o) d
            simp only [Option.map_some', eo, Option.some.injEq] at this
            have hod : (o = d) ↔ (d = o) := ⟨fun x => x.symm, fun x => x.symm⟩
            simp only [reduceCtorEq, if_false, Nat.add_zero, hod] at this
            exact this
          have ha : a < h.tensors.length := getElem?_some_lt _ _ _ e1
          refine refInv_inc _ h2 n (fun d => ?_) e3 (liveAt_decAt _ o n hon hln) hmid
          have := refs_set (decAt h.datas o) h2.datas
            (h.tensors.set a (some { t with data := none })) a
            (some { t with data := none }) (some t2) (by simp [List.getElem?_set, ha]) d
          rw [List.set_set, ← hh2] at this
          simp only [Option.map_some', en, Option.some.injEq] at this
          have hnd : (n = d) ↔ (d = n) := ⟨fun x => x.symm, fun x => x.symm⟩
          simp only [reduceCtorEq, if_false, Nat.add_zero, hnd] at this
          exact this
  | release a t e1 e2 e3 e4 =>
    have hh2 : h2 = Heap.mk (decOpt h.datas t.data) (h.tensors.set a none) := by
      cases h2
      simp only at e2 e3
      simp only [e2, e3]
    have hrs := refs_set h.datas (decOpt h.datas t.data) h.tensors a (some t) none e1
    rw [← hh2] at hrs
    rcases e4 with hnone | ⟨o, bo, eo, hbo, hfo⟩
    · refine refInv_eq h h2 (fun d => ?_) (by rw [e3, hnone]; exact metaEq_refl _) hinv
      have := hrs d
      simp only [Option.map_some', hnone, Option.map_none', reduceCtorEq, if_false,
        Nat.add_zero] at this
      exact this
    · refine refInv_dec h h2 o (fun d => ?_) (by rw [e3, eo]; exact metaEq_refl _) hinv
      have := hrs d
      simp only [Option.map_some', eo, Option.some.injEq, Option.map_none', reduceCtorEq,
        if_false, Nat.add_zero] at this
      have hod : (o = d) ↔ (d = o) := ⟨fun x => x.symm, fun x => x.symm⟩
      simp only [hod] at this
      exact this

/-- What a successful `tensor_cleanup` has done. -/
theorem tensor_cleanup_rel (h h2 : Heap α) (p : TPtr) (e : tensor_cleanup h p = Except.ok h2) :
    (p = none ∧ h2 = h) ∨
    ∃ a t, p = some a ∧ h.tensors[a]? = some (some t) ∧ h2.tensors = h.tensors.set a none ∧
      h2.datas = decOpt h.datas t.data ∧ (t.data = none ∨ LiveAt h.datas t.data) := by
  unfold tensor_cleanup at e
  cases p with
  | none =>
    left
    simp only [pure_eq_ok] at e
    cases e
    exact ⟨rfl, rfl⟩
  | some a =>
    right
    simp only [bind_eq_ok] at e
    obtain ⟨t, ht, e⟩ := e
    obtain ⟨a2, ea, hat⟩ := (tensor_ok_iff h _ t).mp ht
    cases ea
    refine ⟨a, t, rfl, hat, ?_⟩
    by_cases hnone : t.data = none
    · rw [if_neg (not_not.mpr hnone)] at e
      simp only [pure_eq_ok, bind_ok] at e
      cases e
      exact ⟨rfl, by rw [hnone]; rfl, Or.inl hnone⟩
    · rw [if_pos hnone] at e
      rw [bind_eq_ok] at e
      obtain ⟨h1, ed, e⟩ := e
      obtain ⟨hl, e7⟩ := data_dec_eq_ok _ _ _ ed
      subst e7
      simp only [pure_eq_ok] at e
      cases e
      exact ⟨rfl, rfl, Or.inr hl⟩

/-- Every successful call has one of the four effects on the bookkeeping. -/
theorem step_eff (MAX_DIM : Int) (h h2 : Heap α) (hs : Step MAX_DIM h h2) : Eff h h2 := by
  have clone_eff : ∀ (h1 hf : Heap α) (dest src : TPtr),
      tensor_clone h dest src = Except.ok h1 → hf.tensors = h1.tensors →
      MetaEq h1.datas hf.datas → Eff h hf := by
    intro h1 hf dest src ec m1 m2
    rcases tensor_clone_rel h h1 dest src ec with ⟨_, e2⟩ | ⟨_, a, t, s, t2, _, hat, _, c1, c2, c3, c⟩
    · rw [e2] at m1 m2
      exact Eff.same h hf m1 m2
    · refine Eff.retarget h hf a t t2 hat (by rw [m1, c1]) ?_ (by rw [c.1]; exact c3)
      rw [c.1, ← c2]
      exact m2
  cases hs with
  | init _ _ ndims shape junk fill p hlen e =>
    obtain ⟨_, _, _, _, g5⟩ := tensor_init_eq_ok MAX_DIM h h2 ndims shape junk fill p hlen e
    subst g5
    exact Eff.alloc h _ _ _ rfl rfl rfl rfl rfl
  | clone _ _ dest src e => exact clone_eff h2 h2 dest src e rfl (metaEq_refl _)
  | unary f _ _ dest src e =>
    obtain ⟨h1, ec, m1, m2⟩ := tensor_sigmoid_rel f h h2 dest src e
    exact clone_eff h1 h2 dest src ec m1 m2
  | release _ _ p e =>
    rcases tensor_cleanup_rel h h2 p e with ⟨_, e2⟩ | ⟨a, t, _, hat, e2, e3, e4⟩
    · rw [e2]
      exact Eff.same h h rfl (metaEq_refl _)
    · exact Eff.release h h2 a t hat e2 e3 e4
  | select _ _ dest src index e =>
    obtain ⟨s0, r, hm, a, u, s1, c, g1, g2, g3, ec, ea, hu, hs1, hc, hl1, hl2, e2⟩ :=
      tensor_select_rel h h2 dest src index e
    subst ea
    subst e2
    rcases tensor_clone_rel h hm (some a) src ec with
      ⟨_, e3⟩ | ⟨_, a2, t, s, t2, ea, hat, _, c1, c2, c3, cl⟩
    · rw [e3] at hu
      rw [e3]
      refine Eff.retarget h _ a u (Tensor.mk u.data ((u.shape.set 0 c).set 1 1) u.ndims
        (wrap32 (shapeProd u.ndims.toNat ((u.shape.set 0 c).set 1 1)))
        (wrap32 (u.offset + wrap32 (index * c))) u.strides) hu rfl ?_ (Or.inl rfl)
      have : retarget h.datas u.data u.data = h.datas := by
        unfold retarget
        rw [if_pos rfl]
      show MetaEq (retarget h.datas u.data u.data) h.datas
      rw [this]
      exact metaEq_refl _
    · cases ea
      have ha : a < h.tensors.length := getElem?_some_lt _ _ _ hat
      have hut : u = t2 := by
        rw [c1] at hu
        simp only [List.getElem?_set, if_true, ha, Option.some.injEq] at hu
        exact hu.symm
      subst hut
      refine Eff.retarget h _ a t (Tensor.mk u.data ((u.shape.set 0 c).set 1 1) u.ndims
        (wrap32 (shapeProd u.ndims.toNat ((u.shape.set 0 c).set 1 1)))
        (wrap32 (u.offset + wrap32 (index * c))) u.strides) hat ?_ ?_ ?_
      · show hm.tensors.set a _ = _
        rw [c1, List.set_set]
      · show MetaEq (retarget h.datas t.data u.data) hm.datas
        rw [cl.1, ← c2]
        exact metaEq_refl _
      · show RetOK h.datas t.data u.data
        rw [cl.1]
        exact c3

/-- The reference counting invariant holds in every reachable heap. -/
theorem refInv_reach (MAX_DIM : Int) (h : Heap α) (hr : Reach MAX_DIM h) : RefInv h := by
  induction hr with
  | empty =>
    constructor
    · intro d b hb
      simp at hb
    · intro a t d ha _
      simp at ha
  | step h h2 _ hs ih => exact refInv_eff h h2 (step_eff MAX_DIM h h2 hs) ih

/-- No call touches a freed buffer: every buffer is still there afterwards, and
a freed buffer is still freed with the same count. -/
theorem eff_freed (h h2 : Heap α) (he : Eff h h2) (d : Nat) (b : Data α)
    (hb : h.datas[d]? = some b) :
    ∃ b2, h2.datas[d]? = some b2 ∧
      (b.freed = true → b2.freed = true ∧ b2.refcount = b.refcount) := by
  have hret : ∀ old new, RetOK h.datas old new → ∃ b1, (retarget h.datas old new)[d]? = some b1 ∧
      (b.freed = true → b1.freed = true ∧ b1.refcount = b.refcount) := by
    intro old new hok
    unfold retarget
    by_cases hsame : old = new
    · rw [if_pos hsame]
      exact ⟨b, hb, fun hf => ⟨hf, rfl⟩⟩
    · rw [if_neg hsame]
      rcases hok with e4 | ⟨hold, n, bn, en, hbn, hfn⟩
      · exact absurd e4 hsame
      · subst en
        rcases hold with hnone | ⟨o, bo, eo, hbo, hfo⟩
        · subst hnone
          simp only
          rw [incAt_get, hb]
          refine ⟨_, rfl, fun hf => ?_⟩
          have : ¬ d = n := by
            rintro rfl
            rw [hbn] at hb
            cases hb
            rw [hfn] at hf
            cases hf
          simp [this, hf]
        · subst eo
          simp only
          rw [incAt_get, decAt_get, hb]
          refine ⟨_, rfl, fun hf => ?_⟩
          have h1 : ¬ d = n := by
            rintro rfl
            rw [hbn] at hb
            cases hb
            rw [hfn] at hf
            cases hf
          have h2 : ¬ d = o := by
            rintro rfl
            rw [hbo] at hb
            cases hb
            rw [hfo] at hf
            cases hf
          simp [h1, h2, hf]
  cases he with
  | same e1 e2 =>
    obtain ⟨b2, g1, g2, g3⟩ := metaEq_get_fwd _ _ e2 d b hb
    exact ⟨b2, g1, fun hf => ⟨by rw [g3]; exact hf, g2⟩⟩
  | alloc bn t e1 e2 e3 e4 e5 =>
    refine ⟨b, ?_, fun hf => ⟨hf, rfl⟩⟩
    rw [e1, List.getElem?_append_left (getElem?_some_lt _ _ _ hb)]
    exact hb
  | retarget a t t2 e1 e2 e3 e4 =>
    obtain ⟨b1, g1, g2⟩ := hret t.data t2.data e4
    obtain ⟨b2, k1, k2, k3⟩ := metaEq_get_fwd _ _ e3 d b1 g1
    exact ⟨b2, k1, fun hf => ⟨by rw [k3]; exact (g2 hf).1, by rw [k2]; exact (g2 hf).2⟩⟩
  | release a t e1 e2 e3 e4 =>
    rw [e3]
    rcases e4 with hnone | ⟨o, bo, eo, hbo, hfo⟩
    · rw [hnone]
      exact ⟨b, hb, fun hf => ⟨hf, rfl⟩⟩
    · rw [eo]
      simp only [decOpt]
      rw [decAt_get, hb]
      refine ⟨_, rfl, fun hf => ?_⟩
      have h2 : ¬ d = o := by
        rintro rfl
        rw [hbo] at hb
        cases hb
        rw [hfo] at hf
        cases hf
      simp [h2, hf]

/-- Claim C9. In every heap reached from the empty heap by successful calls of
`tensor_init`, `tensor_clone`, `tensor_select`, `tensor_sigmoid` / `tensor_tanh`
and `tensor_cleanup`: the reference count of every buffer is the number of live
tensors that reference it (so it is not negative), and the buffer has been freed
exactly when that number is zero; every live tensor references a buffer that
has not been freed; after one more such call every buffer is still there, a
freed buffer is still freed with count 0 (it is not freed a second time), and a
live buffer has been freed by the call exactly when no live tensor references it
any more; and a buffer that no live tensor references has been freed: nothing
leaks, in particular once all views and the original have been released. -/
theorem refcount_invariant (MAX_DIM : Int) (h : Heap α) (hr : Reach MAX_DIM h) :
    (∀ (d : Nat) (b : Data α), h.datas[d]? = some b →
      b.refcount = (refs h d : Int) ∧ 0 ≤ b.refcount ∧ (b.freed = true ↔ refs h d = 0)) ∧
    (∀ (a : Nat) (t : Tensor) (d : Nat), h.tensors[a]? = some (some t) → t.data = some d →
      ∃ b, h.datas[d]? = some b ∧ b.freed = false) ∧
    (∀ h2, Step MAX_DIM h h2 → ∀ (d : Nat) (b : Data α), h.datas[d]? = some b →
      ∃ b2, h2.datas[d]? = some b2 ∧
        (b.freed = true → b2.freed = true ∧ b2.refcount = 0) ∧
        (b.freed = false → (b2.freed = true ↔ refs h2 d = 0))) ∧
    (∀ (d : Nat) (b : Data α), h.datas[d]? = some b →
      (∀ (a : Nat) (t : Tensor), h.tensors[a]? = some (some t) → t.data ≠ some d) →
      b.freed = true ∧ b.refcount = 0) := by
  have hinv := refInv_reach MAX_DIM h hr
  refine ⟨?_, ?_, ?_, ?_⟩
  · intro d b hb
    obtain ⟨p1, p2⟩ := hinv.1 d b hb
    exact ⟨p1, by rw [p1]; exact Int.ofNat_nonneg _, p2⟩
  · intro a t d ha e
    obtain ⟨b, hb, hf, _⟩ := refInv_live h hinv d ((refs_pos_iff h d).mpr ⟨a, t, ha, e⟩)
    exact ⟨b, hb, hf⟩
  · intro h2 hs d b hb
    have he := step_eff MAX_DIM h h2 hs
    have hinv2 := refInv_eff h h2 he hinv
    obtain ⟨b2, g1, g2⟩ := eff_freed h h2 he d b hb
    obtain ⟨p1, p2⟩ := hinv.1 d b hb
    refine ⟨b2, g1, fun hf => ?_, fun _ => (hinv2.1 d b2 g1).2⟩
    obtain ⟨k1, k2⟩ := g2 hf
    refine ⟨k1, ?_⟩
    rw [k2, p1, p2.mp hf]
    rfl
  · intro d b hb hno
    obtain ⟨p1, p2⟩ := hinv.1 d b hb
    have h0 : refs h d = 0 := by
      by_contra hne
      obtain ⟨a, t, ha, e⟩ := (refs_pos_iff h d).mp (by omega)
      exact hno a t ha e
    refine ⟨p2.mpr h0, ?_⟩
    rw [p1, h0]
    rfl

/-- Two views of one tensor, one by `tensor_clone` and one by `tensor_select`,
are reachable, and so are the heaps after the views and then the original have
been released. -/
theorem reach_views :
    Reach 2 exViews ∧ Reach 2 exViewsGone ∧ Reach 2 exAllGone ∧
    Step 2 exViewsGone exAllGone := by
  have r0 : Reach 2 exThree :=
    Reach.step exSel exThree
      (Reach.step exSelFirst exSel
        (Reach.step emptyHeap exSelFirst Reach.empty
          (Step.init emptyHeap exSelFirst 2 [3, 2] (fun _ => 0) (fun i => (i : Int) + 1)
            (some 0) (by decide) (by rfl)))
        (Step.init exSelFirst exSel 2 [1, 2] (fun _ => 0) (fun _ => 0) (some 1)
          (by decide) (by rfl)))
      (Step.init exSel exThree 2 [1, 2] (fun _ => 0) (fun _ => 0) (some 2)
        (by decide) (by rfl))
  have r1 : Reach 2 exViews :=
    Reach.step _ exViews
      (Reach.step exThree
        (Heap.mk [⟨[1, 2, 3, 4, 5, 6], 2, false⟩, ⟨[0, 0], 0, true⟩, ⟨[0, 0], 1, false⟩]
          [some (mkTensor 0 3 2 0), some (mkTensor 0 3 2 0), some (mkTensor 2 1 2 0)])
        r0 (Step.clone _ _ (some 1) (some 0) (by rfl)))
      (Step.select _ _ (some 2) (some 0) 1 (by rfl))
  have r2 : Reach 2 exViewsGone :=
    Reach.step _ exViewsGone
      (Reach.step exViews
        (Heap.mk [⟨[1, 2, 3, 4, 5, 6], 2, false⟩, ⟨[0, 0], 0, true⟩, ⟨[0, 0], 0, true⟩]
          [some (mkTensor 0 3 2 0), none, some (Tensor.mk (some 0) [2, 1] 2 2 2 [1, 0])])
        r1 (Step.release _ _ (some 1) (by rfl)))
      (Step.release _ _ (some 2) (by rfl))
  have s3 : Step 2 exViewsGone exAllGone := Step.release _ _ (some 0) (by rfl)
  exact ⟨r1, r2, Reach.step _ _ r2 s3, s3⟩

/-- Claim C9 at a concrete input: the heap in which two views of a `[3, 2]`
tensor have been made and released, followed by the release of the original. -/
theorem refcount_invariant_witness :
    (∀ (d : Nat) (b : Data Int), exViewsGone.datas[d]? = some b →
      b.refcount = (refs exViewsGone d : Int) ∧ 0 ≤ b.refcount ∧
      (b.freed = true ↔ refs exViewsGone d = 0)) ∧
    (∀ (a : Nat) (t : Tensor) (d : Nat), exViewsGone.tensors[a]? = some (some t) →
      t.data = some d → ∃ b, exViewsGone.datas[d]? = some b ∧ b.freed = false) ∧
    (∀ h2, Step 2 exViewsGone h2 → ∀ (d : Nat) (b : Data Int),
      exViewsGone.datas[d]? = some b →
      ∃ b2, h2.datas[d]? = some b2 ∧
        (b.freed = true → b2.freed = true ∧ b2.refcount = 0) ∧
        (b.freed = false → (b2.freed = true ↔ refs h2 d = 0))) ∧
    (∀ (d : Nat) (b : Data Int), exViewsGone.datas[d]? = some b →
      (∀ (a : Nat) (t : Tensor), exViewsGone.tensors[a]? = some (some t) → t.data ≠ some d) →
      b.freed = true ∧ b.refcount = 0) :=
  refcount_invariant 2 exViewsGone reach_views.2.1

/-- The run behind the witness: after the release of the two views and of the
original, the three cells are gone and each of the three buffers has been
freed, with count 0. -/
theorem refcount_release_example :
    tensor_cleanup exViews (some 1) >>= (fun h => tensor_cleanup h (some 2))
      = Except.ok exViewsGone ∧
    tensor_cleanup exViewsGone (some 0) = Except.ok exAllGone ∧
    exAllGone.datas.map (fun b => (b.refcount, b.freed)) = [(0, true), (0, true), (0, true)] ∧
    exAllGone.tensors = [none, none, none] :=
  ⟨rfl, rfl, rfl, rfl⟩

/-! ## `tensor_init_with_` and `tensor_rand`: the tensor that is returned -/

/-- What a successful `tensor_set_at_` has done to the heap. -/
theorem tensor_set_at_eq_ok (h h2 : Heap α) (p : TPtr) (v : α) (pos : Int)
    (e : tensor_set_at_ h p v pos = Except.ok h2) :
    ∃ t d b i, h.tensor p = Except.ok t ∧ t.data = some d ∧ h.datas[d]? = some b ∧
      h2 = { h with datas := h.datas.set d ⟨b.elems.set i v, b.refcount, b.freed⟩ } := by
  unfold tensor_set_at_ at e
  simp only [bind_eq_ok] at e
  obtain ⟨t, ht, _, _, e2⟩ := e
  obtain ⟨n, b, hd, hb, _, _, _, e3⟩ := data_insert_eq_ok _ _ _ _ _ e2
  exact ⟨t, n, b, _, ht, hd, hb, e3⟩

/-- A loop of `tensor_set_at_` on one tensor leaves the tensor cells, the
bookkeeping of every buffer and every other buffer as they were. -/
theorem fill_loop_frame (h h2 : Heap α) (p : TPtr) (t : Tensor) (d : Nat) (n : Nat) (g : Nat → α)
    (hl : h.tensor p = Except.ok t) (hd : t.data = some d)
    (e : forLoop n (fun i h => tensor_set_at_ h p (g i) i) h = Except.ok h2) :
    h2.tensors = h.tensors ∧ MetaEq h.datas h2.datas ∧
    ∀ x : Nat, x ≠ d → h2.datas[x]? = h.datas[x]? := by
  refine forLoop_ok_inv (fun st => st.tensors = h.tensors ∧ MetaEq h.datas st.datas ∧
    ∀ x : Nat, x ≠ d → st.datas[x]? = h.datas[x]?) _ _ ?_ h h2
    ⟨rfl, metaEq_refl _, fun _ _ => rfl⟩ e
  intro i st s2 ⟨p1, p2, p3⟩ eb
  obtain ⟨t2, d2, b, k, ht2, hd2, hb, e3⟩ := tensor_set_at_eq_ok _ _ _ _ _ eb
  have := tensor_ok_of_tensors_eq h st p1 p t hl
  rw [this] at ht2
  cases ht2
  rw [hd] at hd2
  cases hd2
  subst e3
  refine ⟨p1, ?_, ?_⟩
  · exact metaEq_trans _ _ _ p2 (metaEq_set st.datas d b k (g i) hb)
  · intro x hx
    have hne : ¬ d = x := fun y => hx y.symm
    show (st.datas.set d _)[x]? = _
    rw [List.getElem?_set_ne hne]
    exact p3 x hx

/-- When the checks pass, `tensor_init` followed by a loop that stores `g i` in
every logical element `i` below the length (the body of `tensor_init_with_` and
of `tensor_rand`) returns the new tensor, and element `i` reads `g i`. -/
theorem init_then_fill_fresh (MAX_DIM : Int) (h : Heap α) (ndims : Int) (shape : List Int)
    (junk : Nat → Int) (fill : Nat → α) (g : Nat → α) (hlen : MAX_DIM.toNat ≤ shape.length)
    (hok : ¬ (ndims < 1 ∨ ndims > MAX_DIM ∨ BadAxis ndims.toNat shape)) :
    ∃ p h2 t, (do
        let r ← tensor_init MAX_DIM h ndims shape junk fill
        let t ← r.2.tensor r.1
        let h ← forLoop t.length.toNat (fun i h => tensor_set_at_ h r.1 (g i) i) r.2
        pure (r.1, h)) = Except.ok (p, h2) ∧
      h2.tensor p = Except.ok t ∧ FreshTensor h ndims shape p h2 t ∧
      ∀ i : Nat, (i : Int) < t.length → tensor_get_at_ h2 p i = Except.ok (g i) := by
  obtain ⟨p, h1, h2, t, e1, hl1, e2, hl2, r2⟩ :=
    init_then_fill MAX_DIM h ndims shape junk fill g hlen hok
  obtain ⟨g1, g2, g3, g4, g5⟩ := tensor_init_eq_ok MAX_DIM h h1 ndims shape junk fill p hlen e1
  subst g4
  subst g5
  have ht : t = initCell MAX_DIM ndims shape junk h.datas.length := by
    rw [tensor_append_get] at hl1
    cases hl1
    rfl
  subst ht
  obtain ⟨f1, f2, f3⟩ := fill_loop_frame _ h2 _ _ h.datas.length _ g hl1 rfl e2
  have hb1 : (h.datas ++
      [(⟨(List.range (wrap32 (shapeProd ndims.toNat shape)).toNat).map fill, 1, false⟩ :
        Data α)])[h.datas.length]?
      = some ⟨(List.range (wrap32 (shapeProd ndims.toNat shape)).toNat).map fill, 1, false⟩ := by
    simp
  obtain ⟨b2, k1, k2, k3⟩ := metaEq_get_fwd _ _ f2 _ _ hb1
  obtain ⟨b3, k4, k5⟩ := capEq_of_metaEq _ _ f2 _ _ hb1
  rw [k1] at k4
  cases k4
  refine ⟨_, h2, _, ?_, hl2, ⟨rfl, f1, rfl, ?_, rfl, rfl, ?_, ?_⟩, r2⟩
  · simp only [e1, bind_ok, hl1, e2, pure_eq_ok]
  · intro i hi
    simp only [initCell]
    rw [List.getElem?_append_left (by simp; omega), List.getElem?_take, if_pos hi]
  · refine ⟨h.datas.length, b2, rfl, List.getElem?_eq_none (le_refl _), k1, ?_, k2, k3⟩
    rw [k5]
    simp [initCell]
  · intro x hx
    rw [f3 x (by omega)]
    exact List.getElem?_append_left hx

/-- Claim C11. For a valid shape (the checks of `tensor_init` pass) and every
value `v`, `tensor_init_with_(ndims, shape, v)` returns the tensor that
`tensor_init(ndims, shape)` creates (a new cell of that rank, shape and length
on a new buffer of its own), and every logical element below its length reads
`v`; `_tensor_zeros` returns that tensor with every element reading `0` and
`_tensor_ones` with every element reading `1`. -/
theorem tensor_init_with_fills [Zero α] [One α] (MAX_DIM : Int) (h : Heap α) (ndims : Int)
    (shape : List Int) (junk : Nat → Int) (fill : Nat → α) (v : α)
    (hlen : MAX_DIM.toNat ≤ shape.length)
    (hok : ¬ (ndims < 1 ∨ ndims > MAX_DIM ∨ BadAxis ndims.toNat shape)) :
    (∃ p h2 t, tensor_init_with_ MAX_DIM h ndims shape junk fill v = Except.ok (p, h2) ∧
      h2.tensor p = Except.ok t ∧ FreshTensor h ndims shape p h2 t ∧
      ∀ i : Nat, (i : Int) < t.length → tensor_get_at_ h2 p i = Except.ok v) ∧
    (∃ p h2 t, _tensor_zeros MAX_DIM h ndims shape junk fill = Except.ok (p, h2) ∧
      h2.tensor p = Except.ok t ∧ FreshTensor h ndims shape p h2 t ∧
      ∀ i : Nat, (i : Int) < t.length → tensor_get_at_ h2 p i = Except.ok 0) ∧
    (∃ p h2 t, _tensor_ones MAX_DIM h ndims shape junk fill = Except.ok (p, h2) ∧
      h2.tensor p = Except.ok t ∧ FreshTensor h ndims shape p h2 t ∧
      ∀ i : Nat, (i : Int) < t.length → tensor_get_at_ h2 p i = Except.ok 1) :=
  ⟨init_then_fill_fresh MAX_DIM h ndims shape junk fill (fun _ => v) hlen hok,
   init_then_fill_fresh MAX_DIM h ndims shape junk fill (fun _ => 0) hlen hok,
   init_then_fill_fresh MAX_DIM h ndims shape junk fill (fun _ => 1) hlen hok⟩

/-- Claim C11 at a concrete input: `MAX_DIM = 2`, shape `[3, 2]`, value `7`. -/
theorem tensor_init_with_fills_witness :
    (∃ p h2 t, tensor_init_with_ 2 emptyHeap 2 [3, 2] (fun _ => 0) (fun _ => 0) 7
        = Except.ok (p, h2) ∧ h2.tensor p = Except.ok t ∧
      FreshTensor emptyHeap 2 [3, 2] p h2 t ∧
      ∀ i : Nat, (i : Int) < t.length → tensor_get_at_ h2 p i = Except.ok 7) ∧
    (∃ p h2 t, _tensor_zeros 2 emptyHeap 2 [3, 2] (fun _ => 0) (fun _ => 5) = Except.ok (p, h2) ∧
      h2.tensor p = Except.ok t ∧ FreshTensor emptyHeap 2 [3, 2] p h2 t ∧
      ∀ i : Nat, (i : Int) < t.length → tensor_get_at_ h2 p i = Except.ok 0) ∧
    (∃ p h2 t, _tensor_ones 2 emptyHeap 2 [3, 2] (fun _ => 0) (fun _ => 5) = Except.ok (p, h2) ∧
      h2.tensor p = Except.ok t ∧ FreshTensor emptyHeap 2 [3, 2] p h2 t ∧
      ∀ i : Nat, (i : Int) < t.length → tensor_get_at_ h2 p i = Except.ok 1) := by
  have hb : ¬ ((2 : Int) < 1 ∨ (2 : Int) > 2 ∨ BadAxis (2 : Int).toNat [3, 2]) := by
    rintro (h1 | h1 | ⟨i, hi, v, hv, hlt⟩)
    · exact absurd h1 (by decide)
    · exact absurd h1 (by decide)
    · have hi2 : i < 2 := hi
      interval_cases i
      · simp at hv; omega
      · simp at hv; omega
  have w1 := tensor_init_with_fills 2 emptyHeap 2 [3, 2] (fun _ => 0) (fun _ => 0) 7
    (by decide) hb
  have w2 := tensor_init_with_fills 2 emptyHeap 2 [3, 2] (fun _ => 0) (fun _ => 5) 7
    (by decide) hb
  exact ⟨w1.1, w2.2.1, w2.2.2⟩

/-- The run behind the witness: `tensor_init_with_(2, [3, 2], 7)` on the empty
heap, whatever the buffer held before, gives a `[3, 2]` tensor on a buffer
holding six times `7`. -/
theorem tensor_init_with_example :
    tensor_init_with_ 2 emptyHeap 2 [3, 2] (fun _ => 0) (fun i => (i : Int)) 7 = Except.ok
      (some 0, Heap.mk [⟨[7, 7, 7, 7, 7, 7], 1, false⟩] [some (mkTensor 0 3 2 0)]) := by
  rfl

/-- Claim C16, amended. For every value `r < RAND_MAX` that the generator can
return, `randn` lies in the half-open interval `[-1, 1)`; hence, for a valid
shape, `tensor_rand` returns the tensor that `tensor_init` creates for that
shape, and every element of it is the value of `randn` at the draw of its
iteration, at least `-1` and strictly less than `1`. -/
theorem tensor_rand_range (MAX_DIM : Int) (RAND_MAX : Nat) (h : Heap ℚ) (ndims : Int)
    (shape : List Int) (junk : Nat → Int) (fill : Nat → ℚ) (draw : Nat → Nat)
    (hlen : MAX_DIM.toNat ≤ shape.length)
    (hok : ¬ (ndims < 1 ∨ ndims > MAX_DIM ∨ BadAxis ndims.toNat shape))
    (hdraw : ∀ i, draw i < RAND_MAX) :
    (∀ r : Nat, r < RAND_MAX → -1 ≤ randn RAND_MAX r ∧ randn RAND_MAX r < 1) ∧
    ∃ p h2 t, tensor_rand MAX_DIM RAND_MAX h ndims shape junk fill draw = Except.ok (p, h2) ∧
      h2.tensor p = Except.ok t ∧ FreshTensor h ndims shape p h2 t ∧
      ∀ i : Nat, (i : Int) < t.length →
        ∃ v, tensor_get_at_ h2 p i = Except.ok v ∧ v = randn RAND_MAX (draw i) ∧
          -1 ≤ v ∧ v < 1 := by
  refine ⟨fun r hr => randn_bounds RAND_MAX r hr, ?_⟩
  obtain ⟨p, h2, t, e, hl, hf, r2⟩ :=
    init_then_fill_fresh MAX_DIM h ndims shape junk fill (fun i => randn RAND_MAX (draw i))
      hlen hok
  refine ⟨p, h2, t, e, hl, hf, ?_⟩
  intro i hi
  exact ⟨_, r2 i hi, rfl, randn_bounds RAND_MAX (draw i) (hdraw i)⟩

/-- Claim C16 at a concrete input: `RAND_MAX = 2147483647`, shape `[3, 2]`, every
draw equal to `5`. -/
theorem tensor_rand_range_witness :
    (∀ r : Nat, r < 2147483647 → -1 ≤ randn 2147483647 r ∧ randn 2147483647 r < 1) ∧
    ∃ p h2 t, tensor_rand 2 2147483647 (Heap.mk [] []) 2 [3, 2] (fun _ => 0) (fun _ => 0)
        (fun _ => 5) = Except.ok (p, h2) ∧
      h2.tensor p = Except.ok t ∧ FreshTensor (Heap.mk [] []) 2 [3, 2] p h2 t ∧
      ∀ i : Nat, (i : Int) < t.length →
        ∃ v, tensor_get_at_ h2 p i = Except.ok v ∧ v = randn 2147483647 ((fun _ => 5) i) ∧
          -1 ≤ v ∧ v < 1 :=
  tensor_rand_range 2 2147483647 (Heap.mk [] []) 2 [3, 2] (fun _ => 0) (fun _ => 0)
    (fun _ => 5) (by decide)
    (by
      rintro (h1 | h1 | ⟨i, hi, v, hv, hlt⟩)
      · exact absurd h1 (by decide)
      · exact absurd h1 (by decide)
      · have hi2 : i < 2 := hi
        interval_cases i
        · simp at hv; omega
        · simp at hv; omega)
    (fun _ => (by decide : (5 : Nat) < 2147483647))
end LstmC
